import Mathlib

/-!
The asynchronous work engine of `ProcessGroupGloo`.

A shallow embedding of `torch/csrc/distributed/c10d/ProcessGroupGloo.cpp`.

* C++ objects with mutable members are records; a member function is a function from the
  record before the call to the record after it.
* A C++ exception that leaves a function is returned next to the state the function leaves
  behind (`Option ε`, `none` for a normal return): members written before the `throw` stay
  written.
* `uint32_t` values are natural numbers reduced modulo `2 ^ 32` wherever the source computes
  with them.
* `c10::intrusive_ptr<AsyncWork>` is an address (`WorkPtr`) into a store of work objects kept in
  the process group record, so that the queue, the worker slots and the caller's handle all
  denote the same object.
-/

namespace c10d

/-! ## Values, futures and works -/

/-- The payload a future is completed with (`c10::IValue`): the source builds it either from a
`std::vector<at::Tensor>` or from a `std::vector<std::vector<at::Tensor>>`. -/
inductive IValue (τ : Type) where
  | tensorList (tensors : List τ)
  | tensorListList (groups : List (List τ))
  deriving DecidableEq, Repr

/-- One resolution of a future: `markCompleted(value)` or `setError(eptr)`. -/
inductive Resolution (ε τ : Type) where
  | value (v : IValue τ)
  | error (e : ε)
  deriving DecidableEq, Repr

/-- Modelled from the spec: `c10::ivalue::Future`, whose definition is outside the sources at
hand ("an owned future (resolved exactly once, either with the output value or with an
error)"). The record keeps every resolution the code performs on it, oldest first, so that
"resolved exactly once" is the statement that this list has length one. -/
structure Future (ε τ : Type) where
  resolutions : List (Resolution ε τ)
  deriving DecidableEq, Repr

/-- The future as `createFutureAsOutput` returns it: a new future, not yet resolved. (The two
branches of the source differ only in the element type the future is declared with.) -/
def createFutureAsOutput {ε τ : Type} (_outputTensors : List (List τ)) : Future ε τ :=
  ⟨[]⟩

/-- Modelled from the spec: `Future::markCompleted`. -/
def Future.markCompleted {ε τ : Type} (future : Future ε τ) (v : IValue τ) : Future ε τ :=
  ⟨future.resolutions ++ [Resolution.value v]⟩

/-- Modelled from the spec: `Future::setError`. -/
def Future.setError {ε τ : Type} (future : Future ε τ) (e : ε) : Future ε τ :=
  ⟨future.resolutions ++ [Resolution.error e]⟩

/-- How a call of one of the callbacks of a work ends: it returns, or it raises. -/
inductive Outcome (ε : Type) where
  | returns
  | raises (e : ε)
  deriving DecidableEq, Repr

/-- The calls `AsyncWork::execute` makes, in the order it makes them. -/
inductive Event (ε τ : Type) where
  | recordFunctionBeforeCallback
  | run
  | synchronize
  | setError (e : ε)
  | markCompleted (v : IValue τ)
  | finish (e : Option ε)
  deriving DecidableEq, Repr

/-- The kinds of operation (`OpType`) the works of this file are constructed with. -/
inductive OpType where
  | BROADCAST | ALLREDUCE | ALLREDUCE_COALESCED | REDUCE | ALLGATHER | ALLGATHER_COALESCED
  | GATHER | SCATTER | ALLTOALL | BARRIER | SEND | RECV | RECVANYSOURCE | UNKNOWN
  deriving DecidableEq, Repr

/-- `ProcessGroupGloo::AsyncWork`. The virtual members `run` and `synchronize` and the optional
`recordFunctionBeforeCallback_` are given by the way a call of them ends. `completed_` and
`exception_` are the members of the base class `Work` that `finish` writes. `trace` is a ghost
member: the calls made on this work so far, oldest first. -/
structure AsyncWork (ε τ : Type) where
  recordFunctionBeforeCallback_ : Option (Outcome ε)
  run : Outcome ε
  synchronize : Outcome ε
  outputTensors_ : List (List τ)
  opType_ : OpType
  seq_ : Nat
  future_ : Future ε τ
  completed_ : Bool
  exception_ : Option ε
  trace : List (Event ε τ)
  deriving DecidableEq, Repr

/-- The constructor `AsyncWork::AsyncWork`: the future is created unresolved and the work is
not completed. -/
def AsyncWork.new {ε τ : Type} (outputTensors : List (List τ)) (opType : OpType) (seq : Nat)
    (recordFunctionBeforeCallback : Option (Outcome ε)) (run synchronize : Outcome ε) :
    AsyncWork ε τ :=
  { recordFunctionBeforeCallback_ := recordFunctionBeforeCallback
    run := run
    synchronize := synchronize
    outputTensors_ := outputTensors
    opType_ := opType
    seq_ := seq
    future_ := createFutureAsOutput outputTensors
    completed_ := false
    exception_ := none
    trace := [] }

/-- The value `returnFutureWithOutput` completes the future with: the empty tensor list when
there is no output group, the list of groups when there are several, the only group
otherwise. -/
def outputValue {τ : Type} (outputTensors : List (List τ)) : IValue τ :=
  match outputTensors with
  | [] => IValue.tensorList []
  | [group] => IValue.tensorList group
  | groups => IValue.tensorListList groups

/-- The function `returnFutureWithOutput` applied to the future of a work. -/
def returnFutureWithOutput {ε τ : Type} (work : AsyncWork ε τ) : AsyncWork ε τ :=
  { work with
    future_ := work.future_.markCompleted (outputValue work.outputTensors_)
    trace := work.trace ++ [Event.markCompleted (outputValue work.outputTensors_)] }

/-- Modelled from the spec: `Work::finish(exception)`, defined outside the sources at hand: the
work reaches its terminal state, `Errored` with the exception or `Completed` without one. -/
def AsyncWork.finish {ε τ : Type} (work : AsyncWork ε τ) (e : Option ε) : AsyncWork ε τ :=
  { work with
    completed_ := true
    exception_ := e
    trace := work.trace ++ [Event.finish e] }

/-- `AsyncWork::finishWorkGlooError`: `future_->setError(eptr); finish(eptr);`. -/
def AsyncWork.finishWorkGlooError {ε τ : Type} (work : AsyncWork ε τ) (e : ε) :
    AsyncWork ε τ :=
  AsyncWork.finish
    { work with
      future_ := work.future_.setError e
      trace := work.trace ++ [Event.setError e] }
    (some e)

/-- `AsyncWork::finishWorkGloo`: `returnFutureWithOutput(future_, outputTensors_); finish();`. -/
def AsyncWork.finishWorkGloo {ε τ : Type} (work : AsyncWork ε τ) : AsyncWork ε τ :=
  AsyncWork.finish (returnFutureWithOutput work) none

/-- A call of a callback: the call is recorded, and its exception, if any, is handed to the
caller. -/
def AsyncWork.call {ε τ : Type} (work : AsyncWork ε τ) (ev : Event ε τ) (o : Outcome ε) :
    AsyncWork ε τ × Option ε :=
  ({ work with trace := work.trace ++ [ev] },
    match o with
    | Outcome.returns => none
    | Outcome.raises e => some e)

/-- `AsyncWork::execute`. The pre-hook is called outside the `try` block, `run` inside it, and
`synchronize` and `finishWorkGloo` after it. The second component is the exception that leaves
`execute`, if any. -/
def AsyncWork.execute {ε τ : Type} (work : AsyncWork ε τ) : AsyncWork ε τ × Option ε :=
  -- if (work->recordFunctionBeforeCallback_) { work->recordFunctionBeforeCallback_(); }
  let before : AsyncWork ε τ × Option ε :=
    match work.recordFunctionBeforeCallback_ with
    | none => (work, none)
    | some o => work.call Event.recordFunctionBeforeCallback o
  match before with
  | (work, some e) => (work, some e)
  | (work, none) =>
    -- try { work->run(); } catch (...) { work->finishWorkGlooError(...); return; }
    match work.call Event.run work.run with
    | (work, some e) => (work.finishWorkGlooError e, none)
    | (work, none) =>
      -- work->synchronize(); work->finishWorkGloo();
      match work.call Event.synchronize work.synchronize with
      | (work, some e) => (work, some e)
      | (work, none) => (work.finishWorkGloo, none)

/-! ## The process group: tags, contexts, queue and worker slots -/

/-- An `intrusive_ptr<AsyncWork>`: the address of a work object in the store `works`. -/
abbrev WorkPtr := Nat

/-- The members of `ProcessGroupGloo::Options` the constructor reads. -/
structure Options (δ : Type) where
  devices : List δ
  threads : Nat
  timeout : Int

/-- The members of the status snapshot `pgStatus_` that `enqueue` and `runLoop` write. -/
structure ProcessGroupStatus where
  lastEnqueuedSeq : Int
  lastEnqueuedWorkName : OpType
  lastEnqueuedNumelIn : Nat
  lastEnqueuedNumelOut : Nat
  lastCompletedSeq : Int
  lastCompletedWorkName : OpType
  lastCompletedNumelIn : Nat
  lastCompletedNumelOut : Nat
  deriving DecidableEq, Repr

/-- The state of a `ProcessGroupGloo`. `collectiveCounter_` is a `uint32_t`. `works` is the
store of the work objects the pointers in `workQueue_` and `workInProgress_` refer to. -/
structure ProcessGroupGloo (ε τ κ : Type) where
  rank_ : Nat
  size_ : Nat
  contexts_ : List κ
  stop_ : Bool
  collectiveCounter_ : Nat
  seq_ : Nat
  workQueue_ : List WorkPtr
  workInProgress_ : List (Option WorkPtr)
  pgStatus_ : ProcessGroupStatus
  works : WorkPtr → AsyncWork ε τ

/-- The loop of the constructor that creates and connects one context per device, in order;
`connectFullMesh i device` is the context of device `i` or the `std::runtime_error` of the
transport, which the constructor turns into its own error. -/
def connectContexts {δ κ : Type} (connectFullMesh : Nat → δ → Except String κ) :
    Nat → List δ → Except String (List κ)
  | _, [] => Except.ok []
  | i, device :: devices =>
    match connectFullMesh i device with
    | Except.error err => Except.error ("Gloo connectFullMesh failed with " ++ err)
    | Except.ok context =>
      match connectContexts connectFullMesh (i + 1) devices with
      | Except.error msg => Except.error msg
      | Except.ok contexts => Except.ok (context :: contexts)

/-- The snapshot before any work was enqueued or completed. -/
def ProcessGroupStatus.init : ProcessGroupStatus :=
  ⟨-1, OpType.UNKNOWN, 0, 0, -1, OpType.UNKNOWN, 0, 0⟩

/-- The constructor `ProcessGroupGloo::ProcessGroupGloo`: it raises when no device is given or
when a context fails to connect; otherwise `stop_` is false, the counter is zero, there is one
context per device and one empty slot per worker thread. `works` is the memory the work objects
will live in. -/
def ProcessGroupGloo.new {ε τ κ δ : Type} (rank size : Nat) (options : Options δ)
    (connectFullMesh : Nat → δ → Except String κ) (works : WorkPtr → AsyncWork ε τ) :
    Except String (ProcessGroupGloo ε τ κ) :=
  if options.devices.isEmpty then
    Except.error "No device(s) specified"
  else
    match connectContexts connectFullMesh 0 options.devices with
    | Except.error msg => Except.error msg
    | Except.ok contexts =>
      Except.ok
        { rank_ := rank
          size_ := size
          contexts_ := contexts
          stop_ := false
          collectiveCounter_ := 0
          seq_ := 0
          workQueue_ := []
          workInProgress_ := List.replicate options.threads none
          pgStatus_ := ProcessGroupStatus.init
          works := works }

/-- `ProcessGroupGloo::nextTag`: `return collectiveCounter_++;` on a `uint32_t`. -/
def ProcessGroupGloo.nextTag {ε τ κ : Type} (pg : ProcessGroupGloo ε τ κ) :
    Nat × ProcessGroupGloo ε τ κ :=
  (pg.collectiveCounter_,
    { pg with collectiveCounter_ := (pg.collectiveCounter_ + 1) % 2 ^ 32 })

/-- The tags returned by `n` successive calls of `nextTag`, oldest first, and the process group
after them. -/
def ProcessGroupGloo.nextTags {ε τ κ : Type} :
    Nat → ProcessGroupGloo ε τ κ → List Nat × ProcessGroupGloo ε τ κ
  | 0, pg => ([], pg)
  | n + 1, pg =>
    let first := pg.nextTag
    let rest := ProcessGroupGloo.nextTags n first.2
    (first.1 :: rest.1, rest.2)

/-- `ProcessGroupGloo::getContext`: `return contexts_[tag % contexts_.size()];`. The result is
`none` where the C++ expression has no defined value (an empty pool). The second component is
the process group after the call. -/
def ProcessGroupGloo.getContext {ε τ κ : Type} (pg : ProcessGroupGloo ε τ κ) (tag : Nat) :
    Option κ × ProcessGroupGloo ε τ κ :=
  (pg.contexts_[tag % pg.contexts_.length]?, pg)

/-- `ProcessGroupGloo::enqueue`, the part under `workMutex_`: the snapshot is updated and the
work is appended at the tail of the queue. (The flight-recorder entry is a telemetry sink and
is left out.) -/
def ProcessGroupGloo.enqueue {ε τ κ : Type} (pg : ProcessGroupGloo ε τ κ) (work : WorkPtr) :
    ProcessGroupGloo ε τ κ :=
  { pg with
    pgStatus_ :=
      { pg.pgStatus_ with
        lastEnqueuedSeq := ((pg.works work).seq_ : Int)
        lastEnqueuedWorkName := (pg.works work).opType_
        lastEnqueuedNumelIn := 0
        lastEnqueuedNumelOut := 0 }
    workQueue_ := pg.workQueue_ ++ [work] }

/-- Where a worker thread is in `runLoop`. -/
inductive Worker (ε : Type) where
  /-- at the head of the loop, or blocked in `workProduceCV_.wait`, holding no work -/
  | waiting
  /-- the mutex is released and `work` is about to be executed -/
  | running (work : WorkPtr)
  /-- the loop condition `!stop_` was false: the thread function returned -/
  | exited
  /-- an exception left `AsyncWork::execute` and with it `runLoop` -/
  | terminated (work : WorkPtr) (e : ε)
  deriving DecidableEq, Repr

/-- Whether the thread function of the worker has returned. -/
def Worker.isExited {ε : Type} : Worker ε → Bool
  | Worker.exited => true
  | _ => false

/-- The work object at `work` replaced by `w`. -/
def ProcessGroupGloo.store {ε τ κ : Type} (pg : ProcessGroupGloo ε τ κ) (work : WorkPtr)
    (w : AsyncWork ε τ) : ProcessGroupGloo ε τ κ :=
  { pg with works := fun p => if p = work then w else pg.works p }

/-- The critical section of `runLoop` that takes a work: `workQueue_.pop_front()`, the popped
work being `work` and the remaining queue `rest`, and `workInProgress_[workerIndex] = work`. -/
def ProcessGroupGloo.take {ε τ κ : Type} (pg : ProcessGroupGloo ε τ κ) (workerIndex : Nat)
    (work : WorkPtr) (rest : List WorkPtr) : ProcessGroupGloo ε τ κ :=
  { pg with
    workQueue_ := rest
    workInProgress_ := pg.workInProgress_.set workerIndex (some work) }

/-- The end of an iteration of `runLoop`, after `execute` returned and left the work as `w`:
the snapshot records the completed work and, under the mutex, the slot is reset. -/
def ProcessGroupGloo.retire {ε τ κ : Type} (pg : ProcessGroupGloo ε τ κ) (workerIndex : Nat)
    (w : AsyncWork ε τ) : ProcessGroupGloo ε τ κ :=
  { pg with
    pgStatus_ :=
      { pg.pgStatus_ with
        lastCompletedSeq := (w.seq_ : Int)
        lastCompletedWorkName := w.opType_
        lastCompletedNumelIn := 0
        lastCompletedNumelOut := 0 }
    workInProgress_ := pg.workInProgress_.set workerIndex none }

/-- One pass of worker `workerIndex` through a critical section of `runLoop`.

* `waiting`: the loop head under the mutex. With `stop_` set the thread leaves the loop; with
  an empty queue it waits; otherwise it pops the head of the queue into its slot.
* `running work`: `AsyncWork::execute(work)` without the mutex, then the snapshot update, then
  `workInProgress_[workerIndex].reset()` under the mutex. An exception that leaves `execute`
  leaves `runLoop` too, before the snapshot and the slot are touched. -/
def ProcessGroupGloo.runLoop {ε τ κ : Type} (pg : ProcessGroupGloo ε τ κ) (workerIndex : Nat) :
    Worker ε → ProcessGroupGloo ε τ κ × Worker ε
  | Worker.waiting =>
    if pg.stop_ then (pg, Worker.exited)
    else
      match pg.workQueue_ with
      | [] => (pg, Worker.waiting)
      | work :: rest => (pg.take workerIndex work rest, Worker.running work)
  | Worker.running work =>
    match (pg.works work).execute with
    | (w, some e) => (pg.store work w, Worker.terminated work e)
    | (w, none) => ((pg.store work w).retire workerIndex w, Worker.waiting)
  | Worker.exited => (pg, Worker.exited)
  | Worker.terminated work e => (pg, Worker.terminated work e)

/-- Where the thread that runs `~ProcessGroupGloo` is. -/
inductive Destructor where
  /-- the destructor has not been called -/
  | notCalled
  /-- blocked in `workConsumeCV_.wait(lock, [&] { return workQueue_.empty(); })` -/
  | draining
  /-- `stop_` is set and the worker threads are being joined -/
  | joining
  /-- every worker thread was joined: the destructor returned -/
  | returned
  deriving DecidableEq, Repr

/-- The process group with its threads. `enqueued` and `dequeued` are ghost members: the works
given to `enqueue` and the works popped by the workers, oldest first. -/
structure Engine (ε τ κ : Type) where
  pg : ProcessGroupGloo ε τ κ
  workers : List (Worker ε)
  destructor : Destructor
  enqueued : List WorkPtr
  dequeued : List WorkPtr

/-- The engine right after the constructor: one worker per slot, each at the head of its loop. -/
def Engine.start {ε τ κ : Type} (pg : ProcessGroupGloo ε τ κ) : Engine ε τ κ :=
  { pg := pg
    workers := List.replicate pg.workInProgress_.length Worker.waiting
    destructor := Destructor.notCalled
    enqueued := []
    dequeued := [] }

/-- What a scheduler can pick next: a caller runs `enqueue(work)`, worker `workerIndex` runs its
next critical section, or the destructor thread makes its next move. -/
inductive Action where
  | enqueue (work : WorkPtr)
  | worker (workerIndex : Nat)
  | destructor
  deriving DecidableEq, Repr

/-- `~ProcessGroupGloo`: wait under the mutex until the queue is empty, set `stop_`, release
the mutex, wake the workers, join them. -/
def Engine.runDestructor {ε τ κ : Type} (s : Engine ε τ κ) : Engine ε τ κ :=
  match s.destructor with
  | Destructor.notCalled | Destructor.draining =>
    if s.pg.workQueue_.isEmpty then
      { s with pg := { s.pg with stop_ := true }, destructor := Destructor.joining }
    else
      { s with destructor := Destructor.draining }
  | Destructor.joining =>
    if s.workers.all Worker.isExited then
      { s with destructor := Destructor.returned }
    else s
  | Destructor.returned => s

/-- One scheduling step of the engine. -/
def Engine.step {ε τ κ : Type} (s : Engine ε τ κ) : Action → Engine ε τ κ
  | Action.enqueue work =>
    { s with pg := s.pg.enqueue work, enqueued := s.enqueued ++ [work] }
  | Action.worker workerIndex =>
    match s.workers[workerIndex]? with
    | none => s
    | some w =>
      let next := s.pg.runLoop workerIndex w
      { s with
        pg := next.1
        workers := s.workers.set workerIndex next.2
        dequeued :=
          match w, next.2 with
          | Worker.waiting, Worker.running work => s.dequeued ++ [work]
          | _, _ => s.dequeued }
  | Action.destructor => s.runDestructor

/-- The engine after a schedule, a list of actions taken from left to right. -/
def Engine.run {ε τ κ : Type} (s : Engine ε τ κ) (schedule : List Action) :
    Engine ε τ κ :=
  schedule.foldl Engine.step s

/-- Where an enqueued work can be: still in the queue, in a terminal state, held by a worker
that is executing it, or held by a worker whose thread was terminated by an exception. -/
def Engine.Accounted {ε τ κ : Type} (s : Engine ε τ κ) (work : WorkPtr) : Prop :=
  work ∈ s.pg.workQueue_ ∨ (s.pg.works work).completed_ = true
    ∨ (∃ j : Nat, s.workers[j]? = some (Worker.running work))
    ∨ (∃ (j : Nat) (e : ε), s.workers[j]? = some (Worker.terminated work e))

/-! ## Collective entry points -/

/-- Values of `c10::DeviceType`. -/
inductive DeviceType where
  | CPU | CUDA | XPU | MPS | Meta
  deriving DecidableEq, Repr

/-- A `c10::Device`: a device type and an index. -/
structure Device where
  type : DeviceType
  index : Int
  deriving DecidableEq, Repr

/-- Values of `c10::Layout`. -/
inductive Layout where
  | Strided | Sparse | SparseCsr | Mkldnn
  deriving DecidableEq, Repr

/-- What the entry points read of an `at::Tensor`: its device, its layout, its sizes and
whether it is contiguous in its suggested memory format. -/
structure Tensor where
  device : Device
  layout : Layout
  sizes : List Nat
  is_contiguous : Bool
  deriving DecidableEq, Repr

/-- The name `c10::str` prints for a device type. -/
def DeviceType.name : DeviceType → String
  | DeviceType.CPU => "cpu"
  | DeviceType.CUDA => "cuda"
  | DeviceType.XPU => "xpu"
  | DeviceType.MPS => "mps"
  | DeviceType.Meta => "meta"

/-- `ProcessGroupGloo::alltoall_base`. `assertDense` is the validator of that name, declared in
a header outside the sources at hand: it returns the message it hands to `invalidArgument`, or
`none` when it accepts. `hook`, `run` and `synchronize` say how the callbacks of the work being
constructed will end, and `alloc` is the address `make_intrusive` gives it. The result is the
returned work or the message of the exception raised, next to the process group after the
call. -/
def ProcessGroupGloo.alltoall_base {ε κ : Type} (pg : ProcessGroupGloo ε Tensor κ)
    (assertDense : List Tensor → Option String) (outputTensor inputTensor : Tensor)
    (alloc : WorkPtr) (hook : Option (Outcome ε)) (run synchronize : Outcome ε) :
    Except String WorkPtr × ProcessGroupGloo ε Tensor κ :=
  let invalidArgument := fun (msg : String) => "ProcessGroupGloo::alltoall_base: " ++ msg
  if outputTensor.device ≠ inputTensor.device then
    (Except.error "output tensor and input tensor must be on the same type of device", pg)
  else
    match assertDense [outputTensor] with
    | some msg => (Except.error (invalidArgument msg), pg)
    | none =>
      match assertDense [inputTensor] with
      | some msg => (Except.error (invalidArgument msg), pg)
      | none =>
        if !inputTensor.is_contiguous then
          (Except.error "Tensors must be contiguous", pg)
        else
          -- auto tag = nextTag(); auto context = getContext(tag); ++seq_;
          let tagged := pg.nextTag
          let context := tagged.2.getContext tagged.1
          let pg := { context.2 with seq_ := (context.2.seq_ + 1) % 2 ^ 64 }
          match outputTensor.device.type with
          | DeviceType.CPU =>
            let work :=
              AsyncWork.new [[outputTensor]] OpType.ALLTOALL pg.seq_ hook run Outcome.returns
            (Except.ok alloc, (pg.store alloc work).enqueue alloc)
          | DeviceType.CUDA =>
            let work :=
              AsyncWork.new [[outputTensor]] OpType.ALLTOALL pg.seq_ hook run synchronize
            (Except.ok alloc, (pg.store alloc work).enqueue alloc)
          | other =>
            (Except.error (invalidArgument ("unsupported device type " ++ other.name)), pg)

/-! ## Results, remaining time and point-to-point works -/

/-- Modelled from the spec: `Work::isCompleted`, defined outside the sources at hand; it reads
the flag that `finish` sets when the work reaches a terminal state. -/
def AsyncWork.isCompleted {ε τ : Type} (work : AsyncWork ε τ) : Bool :=
  work.completed_

/-- `AsyncWork::result`: two checks, each raising its message, then the empty list when there is
no output group and the first group otherwise. -/
def AsyncWork.result {ε τ : Type} (work : AsyncWork ε τ) : Except String (List τ) :=
  if !work.isCompleted then
    Except.error
      ("Work needs to be completed before calling result(). "
        ++ "Should call wait() before result().")
  else if !(decide (work.outputTensors_.length ≤ 1)) then
    Except.error "work result does not support list of lists, use .getFuture() and value()"
  else
    match work.outputTensors_ with
    | [] => Except.ok []
    | group :: _ => Except.ok group

/-- The number of ticks of `std::chrono::steady_clock` in a millisecond: the clock counts
nanoseconds. -/
def ticksPerMillisecond : Int := 1000000

/-- `getRemainingTime`. Durations are in milliseconds; `now`, the reading of the steady clock
at the call, and `startTime` are in ticks of the clock. `duration_cast` to milliseconds rounds
toward zero. -/
def getRemainingTime (now startTime : Int) (timeout : Int) (waitAllRanks : Bool) : Int :=
  if waitAllRanks then timeout
  else
    let elapsedTime := now - startTime
    let remainingMillis := timeout - Int.tdiv elapsedTime ticksPerMillisecond
    if remainingMillis ≤ 0 then -1 else remainingMillis

/-- `c10::Join(", ", ranks)`. -/
def joinRanks (ranks : List Nat) : String :=
  String.intercalate ", " (ranks.map fun r => toString r)

/-- `checkRemainingTime`: the message of the error raised, or `none` when the function returns.
It raises when the remaining time is negative. -/
def checkRemainingTime (monitoredBarrierTimeout remainingTime : Int) (processedRanks : List Nat)
    (currentRank : Nat) : Option String :=
  let kNoRemainingTimeError :=
    "Rank " ++ toString currentRank ++ " timed out in monitoredBarrier after "
      ++ toString monitoredBarrierTimeout ++ " ms."
  if remainingTime < 0 then
    let rankInfo :=
      if !processedRanks.isEmpty then
        "Successfully processed ranks: " ++ joinRanks processedRanks
      else "No ranks successfully processed in monitoredBarrier."
    some (kNoRemainingTimeError ++ "\n" ++ rankInfo)
  else none

/-- The constant `kNoTimeout`, the default argument of `Work::wait`, declared in a header
outside the sources at hand: zero milliseconds. -/
def kNoTimeout : Int := 0

/-- The constant `kUnsetTimeout`, declared in a header outside the sources at hand: minus one
millisecond. -/
def kUnsetTimeout : Int := -1

/-- What the code uses of a `gloo::transport::UnboundBuffer`. `send` and `recv` post the
operation for a peer and a tag and may raise. `waitSend` and `waitRecv` take the timeout given,
`none` when they are called without one, and report whether the operation completed, or raise;
`waitRecv` also reports the rank the data came from. -/
structure UnboundBuffer where
  send : Nat → Nat → Option String
  recv : List Nat → Nat → Option String
  waitSend : Option Int → Except String Bool
  waitRecv : Option Int → Except String (Bool × Int)

/-- `ProcessGroupGloo::SendWork`, with the members `completed_` and `exception_` of its base
class `Work`. -/
structure SendWork where
  tensor_ : Tensor
  buffer_ : UnboundBuffer
  seq_ : Nat
  completed_ : Bool
  exception_ : Option String

/-- `ProcessGroupGloo::RecvWork`, with the members `completed_` and `exception_` of its base
class `Work`. -/
structure RecvWork where
  tensor_ : Tensor
  buffer_ : UnboundBuffer
  opType_ : OpType
  srcRank_ : Int
  seq_ : Nat
  completed_ : Bool
  exception_ : Option String

/-- The constructor `SendWork::SendWork`. -/
def SendWork.new (tensor : Tensor) (buffer : UnboundBuffer) (seq : Nat) : SendWork :=
  { tensor_ := tensor, buffer_ := buffer, seq_ := seq, completed_ := false, exception_ := none }

/-- The constructor `RecvWork::RecvWork`. -/
def RecvWork.new (tensor : Tensor) (buffer : UnboundBuffer) (opType : OpType) (seq : Nat) :
    RecvWork :=
  { tensor_ := tensor, buffer_ := buffer, opType_ := opType, srcRank_ := -1, seq_ := seq
    completed_ := false, exception_ := none }

/-- Modelled from the spec: `Work::finishAndThrow(exception)`, defined outside the sources at
hand ("complete, then throw"; the source calls it under the comment "Completes the Work object
and throws the exception"). The first component is the state of the base class after the call,
`completed_` and `exception_`; the second is the exception rethrown, if there is one. -/
def finishAndThrow (exception : Option String) : (Bool × Option String) × Option String :=
  ((true, exception), exception)

/-- `SendWork::wait`. The result is the work after the call, next to the value returned or the
exception that leaves `wait`. (Unregistering the work from the graph-input registry, a
collaborator outside this file, is left out.) -/
def SendWork.wait (work : SendWork) (timeout : Int) : SendWork × Except String Bool :=
  -- try { sendCompleted = buffer_->waitSend(...); } catch (...) { exception = ...; }
  let waited := if timeout = kNoTimeout then work.buffer_.waitSend none
    else work.buffer_.waitSend (some timeout)
  let sendCompleted := match waited with
    | Except.ok b => b
    | Except.error _ => false
  let exception := match waited with
    | Except.ok _ => none
    | Except.error e => some e
  -- finishAndThrow(exception);
  let finished := finishAndThrow exception
  let work := { work with completed_ := finished.1.1, exception_ := finished.1.2 }
  match finished.2 with
  | some e => (work, Except.error e)
  | none => (work, Except.ok sendCompleted)

/-- `RecvWork::wait`. The result is the work after the call, next to the value returned or the
exception that leaves `wait`. The buffer writes `srcRank_` when its wait returns. -/
def RecvWork.wait (work : RecvWork) (timeout : Int) : RecvWork × Except String Bool :=
  -- try { recvCompleted = buffer_->waitRecv(&srcRank_, ...); } catch (...) { exception = ...; }
  let waited := if timeout = kNoTimeout then work.buffer_.waitRecv none
    else work.buffer_.waitRecv (some timeout)
  let recvCompleted := match waited with
    | Except.ok r => r.1
    | Except.error _ => false
  let srcRank := match waited with
    | Except.ok r => r.2
    | Except.error _ => work.srcRank_
  let exception := match waited with
    | Except.ok _ => none
    | Except.error e => some e
  -- finishAndThrow(exception);
  let finished := finishAndThrow exception
  let work :=
    { work with srcRank_ := srcRank, completed_ := finished.1.1, exception_ := finished.1.2 }
  match finished.2 with
  | some e => (work, Except.error e)
  | none => (work, Except.ok recvCompleted)

/-! ## Point-to-point operations and the monitored barrier -/

/-- `checkSingleTensor`: the only tensor of the list, or the message raised. (Contiguity is read
from the member `is_contiguous` of the tensor.) -/
def checkSingleTensor (tensors : List Tensor) : Except String Tensor :=
  match tensors with
  | [tensor] =>
    if !tensor.is_contiguous then Except.error "input tensor has to be contiguous"
    else if tensor.layout = Layout.Sparse then Except.error "input tensor has to be dense"
    else Except.ok tensor
  | _ => Except.error "ProcessGroupGloo::send takes a single tensor"

/-- `checkTag`: the tag as a `uint32_t`, or the message raised for a negative tag. -/
def checkTag (tag : Int) : Except String Nat :=
  if 0 ≤ tag then Except.ok tag.toNat else Except.error "Tag must be nonnegative"

/-- The conversion `static_cast<int>` of a `uint32_t`: values from `2 ^ 31` on become
negative. -/
def toInt32 (t : Nat) : Int :=
  if t < 2 ^ 31 then (t : Int) else (t : Int) - 2 ^ 32

/-- `ProcessGroupGloo::send`. `buffer` is the buffer `createUnboundBuffer` returns. The result is
the work returned or the message of the exception raised, next to the process group after the
call. -/
def ProcessGroupGloo.send {ε τ κ : Type} (pg : ProcessGroupGloo ε τ κ) (tensors : List Tensor)
    (dstRank : Nat) (tag : Int) (buffer : UnboundBuffer) :
    Except String SendWork × ProcessGroupGloo ε τ κ :=
  match checkSingleTensor tensors with
  | Except.error msg => (Except.error msg, pg)
  | Except.ok tensor =>
    match checkTag tag with
    | Except.error msg => (Except.error msg, pg)
    | Except.ok utag =>
      -- auto context = getContext(tag); auto buf = context->createUnboundBuffer(...);
      let context := pg.getContext utag
      -- buf->send(dstRank, utag);
      match buffer.send dstRank utag with
      | some what => (Except.error what, context.2)
      | none =>
        -- ++seq_;
        let pg := { context.2 with seq_ := (context.2.seq_ + 1) % 2 ^ 64 }
        (Except.ok (SendWork.new tensor buffer pg.seq_), pg)

/-- `ProcessGroupGloo::recv`. `buffer` is the buffer `createUnboundBuffer` returns. -/
def ProcessGroupGloo.recv {ε τ κ : Type} (pg : ProcessGroupGloo ε τ κ) (tensors : List Tensor)
    (srcRank : Nat) (tag : Int) (buffer : UnboundBuffer) :
    Except String RecvWork × ProcessGroupGloo ε τ κ :=
  match checkSingleTensor tensors with
  | Except.error msg => (Except.error msg, pg)
  | Except.ok tensor =>
    match checkTag tag with
    | Except.error msg => (Except.error msg, pg)
    | Except.ok utag =>
      let context := pg.getContext utag
      -- buf->recv(srcRank, utag);
      match buffer.recv [srcRank] utag with
      | some what => (Except.error what, context.2)
      | none =>
        let pg := { context.2 with seq_ := (context.2.seq_ + 1) % 2 ^ 64 }
        (Except.ok (RecvWork.new tensor buffer OpType.RECV pg.seq_), pg)

/-- `ProcessGroupGloo::recvAnysource`. The list of source ranks is built by
`srcRanks.resize(size_)` followed by one `push_back(i)` for every `i` below `size_`. -/
def ProcessGroupGloo.recvAnysource {ε τ κ : Type} (pg : ProcessGroupGloo ε τ κ)
    (tensors : List Tensor) (tag : Int) (buffer : UnboundBuffer) :
    Except String RecvWork × ProcessGroupGloo ε τ κ :=
  match checkSingleTensor tensors with
  | Except.error msg => (Except.error msg, pg)
  | Except.ok tensor =>
    match checkTag tag with
    | Except.error msg => (Except.error msg, pg)
    | Except.ok utag =>
      let context := pg.getContext utag
      let srcRanks := List.replicate pg.size_ 0 ++ List.range pg.size_
      -- buf->recv(srcRanks, utag);
      match buffer.recv srcRanks utag with
      | some what => (Except.error what, context.2)
      | none =>
        let pg := { context.2 with seq_ := (context.2.seq_ + 1) % 2 ^ 64 }
        (Except.ok (RecvWork.new tensor buffer OpType.RECVANYSOURCE pg.seq_), pg)

/-- How a call of `Work::wait` ended: it returned a flag, or it raised an exception with the
given `what()`. -/
inductive WaitResult where
  | returned (completed : Bool)
  | raised (what : String)
  deriving DecidableEq, Repr

/-- The end of a call of `wait`, read off the value `SendWork.wait` or `RecvWork.wait` gives. -/
def WaitResult.ofExcept : Except String Bool → WaitResult
  | Except.ok completed => WaitResult.returned completed
  | Except.error what => WaitResult.raised what

/-- Whether the call of `wait` raised. -/
def WaitResult.isRaised : WaitResult → Bool
  | WaitResult.returned _ => false
  | WaitResult.raised _ => true

/-- A call of `wait` made on the work of a rank: the rank, the timeout passed, and how the call
ended. -/
structure WaitCall where
  rank : Nat
  timeout : Int
  result : WaitResult
  deriving DecidableEq, Repr

/-- What a run of the lambda `waitLoop` of `monitoredBarrier` leaves: the calls of `wait` it
made, oldest first, the vector `processedRanks`, and the message of the exception that leaves
the loop, if any. -/
structure WaitLoop where
  calls : List WaitCall
  processedRanks : List Nat
  raised : Option String
  deriving DecidableEq, Repr

/-- The `for` loop of `waitLoop` over the works of the map, in the order of their ranks, each
work given by what its `wait` does with a timeout. `now r` is the reading of the steady clock
when the remaining time is computed for rank `r`. -/
def waitLoopBody (rank : Nat) (monitoredBarrierTimeout : Int) (waitAllRanks : Bool)
    (startTime : Int) (now : Nat → Int) :
    List (Nat × (Int → WaitResult)) → List Nat → WaitLoop
  | [], processedRanks => ⟨[], processedRanks, none⟩
  | (workRank, wait) :: works, processedRanks =>
    let remainingTime :=
      getRemainingTime (now workRank) startTime monitoredBarrierTimeout waitAllRanks
    let checked :=
      if !waitAllRanks then
        checkRemainingTime monitoredBarrierTimeout remainingTime processedRanks rank
      else none
    -- the `try` block: the call of `wait` made, if any, and the exception caught, if any
    let attempt : List WaitCall × Option String :=
      match checked with
      | some what => ([], some what)
      | none =>
        match wait remainingTime with
        | WaitResult.raised what =>
          ([⟨workRank, remainingTime, WaitResult.raised what⟩], some what)
        | WaitResult.returned completed =>
          ([⟨workRank, remainingTime, WaitResult.returned completed⟩], none)
    match attempt.2 with
    | none =>
      -- rankResponded = true; processedRanks.push_back(work.first);
      let rest := waitLoopBody rank monitoredBarrierTimeout waitAllRanks startTime now works
        (processedRanks ++ [workRank])
      { rest with calls := attempt.1 ++ rest.calls }
    | some what =>
      let error := "[Rank 0]: Rank " ++ toString workRank
        ++ " failed to pass monitoredBarrier in " ++ toString monitoredBarrierTimeout ++ " ms"
      if waitAllRanks then
        -- LOG(ERROR) << error;
        let rest := waitLoopBody rank monitoredBarrierTimeout waitAllRanks startTime now works
          processedRanks
        { rest with calls := attempt.1 ++ rest.calls }
      else
        -- logAndThrow(error, c10::str(error, "\n Original exception: \n", e.what()));
        ⟨attempt.1, processedRanks, some (error ++ "\n Original exception: \n" ++ what)⟩

/-- The lambda `waitLoop` of `monitoredBarrier`: the loop, and after it, in collect-all mode,
the check that every rank from 1 to `size_ - 1` was processed. -/
def waitLoop (size_ rank : Nat) (monitoredBarrierTimeout : Int) (waitAllRanks : Bool)
    (startTime : Int) (now : Nat → Int) (works : List (Nat × (Int → WaitResult))) : WaitLoop :=
  let body := waitLoopBody rank monitoredBarrierTimeout waitAllRanks startTime now works []
  match body.raised with
  | some _ => body
  | none =>
    let rankFailure := decide ((body.processedRanks.length : Int) ≠ (size_ : Int) - 1)
    if waitAllRanks && rankFailure then
      let failedRanks :=
        (List.range' 1 (size_ - 1)).filter fun i => decide (i ∉ body.processedRanks)
      if failedRanks.isEmpty then
        { body with raised := some "!failedRanks.empty() INTERNAL ASSERT FAILED" }
      else
        { body with
          raised := some ("[Rank 0]: Ranks " ++ joinRanks failedRanks
            ++ " failed to pass monitoredBarrier in " ++ toString monitoredBarrierTimeout
            ++ " ms") }
    else body

/-- The two legs of the monitored barrier: the probe on the first tag, the unblocking reply on
the second. -/
inductive Leg where
  | probe
  | reply
  deriving DecidableEq, Repr

/-- The calls of `send`, `recv` and `wait` that `monitoredBarrier` makes, in the order it makes
them. -/
inductive BarrierCall where
  | send (dstRank : Nat) (tag : Int)
  | recv (srcRank : Nat) (tag : Int)
  | wait (leg : Leg) (call : WaitCall)
  deriving DecidableEq, Repr

/-- What a call of `monitoredBarrier` leaves: the calls made, oldest first, and the message of
the exception raised, if any. -/
structure BarrierRun where
  calls : List BarrierCall
  raised : Option String
  deriving DecidableEq, Repr

/-- The tensor `at::tensor({rank})` exchanged by the monitored barrier: one element, dense, on
the CPU. -/
def commTensor : Tensor :=
  ⟨⟨DeviceType.CPU, -1⟩, Layout.Strided, [1], true⟩

/-- The loop of `monitoredBarrier` that posts one `recv` per rank and fills `recvWorkMap`. It
ends at the first `recv` that raises. -/
def postRecvs {ε τ κ : Type} (createUnboundBuffer : Nat → Int → UnboundBuffer) (tag : Int) :
    List Nat → ProcessGroupGloo ε τ κ →
      List BarrierCall × Except String (List (Nat × RecvWork)) × ProcessGroupGloo ε τ κ
  | [], pg => ([], Except.ok [], pg)
  | dstRank :: ranks, pg =>
    match pg.recv [commTensor] dstRank tag (createUnboundBuffer dstRank tag) with
    | (Except.error what, pg) => ([BarrierCall.recv dstRank tag], Except.error what, pg)
    | (Except.ok work, pg) =>
      let rest := postRecvs createUnboundBuffer tag ranks pg
      (BarrierCall.recv dstRank tag :: rest.1,
        match rest.2.1 with
        | Except.error what => Except.error what
        | Except.ok works => Except.ok ((dstRank, work) :: works),
        rest.2.2)

/-- The loop of `monitoredBarrier` that posts one `send` per rank and fills `sendWorkMap`. It
ends at the first `send` that raises. -/
def postSends {ε τ κ : Type} (createUnboundBuffer : Nat → Int → UnboundBuffer) (tag : Int) :
    List Nat → ProcessGroupGloo ε τ κ →
      List BarrierCall × Except String (List (Nat × SendWork)) × ProcessGroupGloo ε τ κ
  | [], pg => ([], Except.ok [], pg)
  | dstRank :: ranks, pg =>
    match pg.send [commTensor] dstRank tag (createUnboundBuffer dstRank tag) with
    | (Except.error what, pg) => ([BarrierCall.send dstRank tag], Except.error what, pg)
    | (Except.ok work, pg) =>
      let rest := postSends createUnboundBuffer tag ranks pg
      (BarrierCall.send dstRank tag :: rest.1,
        match rest.2.1 with
        | Except.error what => Except.error what
        | Except.ok works => Except.ok ((dstRank, work) :: works),
        rest.2.2)

/-- The work of a rank in a map of `monitoredBarrier`, as the wait loop uses it: what its `wait`
does with a timeout. -/
def RecvWork.waitResult (work : RecvWork) (timeout : Int) : WaitResult :=
  WaitResult.ofExcept (work.wait timeout).2

/-- The work of a rank in a map of `monitoredBarrier`, as the wait loop uses it: what its `wait`
does with a timeout. -/
def SendWork.waitResult (work : SendWork) (timeout : Int) : WaitResult :=
  WaitResult.ofExcept (work.wait timeout).2

/-- `ProcessGroupGloo::monitoredBarrier`. `optionsTimeout` is the member `options_->timeout`,
`optsTimeout` the timeout of the call, `createUnboundBuffer peer tag` the buffer the context
creates for the operation with `peer` on `tag`, `startTime` the reading of the steady clock at
the start of the coordinator and `now leg r` its reading when the remaining time is computed
for rank `r` in the wait loop of `leg`. Every exception is a `std::exception`, given by its
`what()`. The result is the run (the calls made and the exception raised, if any) next to the
process group after the call. -/
def ProcessGroupGloo.monitoredBarrier {ε τ κ : Type} (pg : ProcessGroupGloo ε τ κ)
    (optionsTimeout optsTimeout : Int) (waitAllRanks : Bool)
    (createUnboundBuffer : Nat → Int → UnboundBuffer) (startTime : Int)
    (now : Leg → Nat → Int) : BarrierRun × ProcessGroupGloo ε τ κ :=
  let monitoredBarrierTimeout :=
    if optsTimeout = kUnsetTimeout then optionsTimeout else optsTimeout
  let rank := pg.rank_
  -- auto t1 = nextTag(); auto t2 = nextTag();
  let first := pg.nextTag
  let second := first.2.nextTag
  let t1 := toInt32 first.1
  let t2 := toInt32 second.1
  let pg := second.2
  if rank ≠ 0 then
    match pg.send [commTensor] 0 t1 (createUnboundBuffer 0 t1) with
    | (Except.error what, pg) => (⟨[BarrierCall.send 0 t1], some what⟩, pg)
    | (Except.ok sendWork, pg) =>
      match pg.recv [commTensor] 0 t2 (createUnboundBuffer 0 t2) with
      | (Except.error what, pg) =>
        (⟨[BarrierCall.send 0 t1, BarrierCall.recv 0 t2], some what⟩, pg)
      | (Except.ok recvWork, pg) =>
        let error := "Rank " ++ toString rank
          ++ " successfully reached monitoredBarrier, but received errors while waiting"
          ++ " for send/recv from rank 0. Please check rank 0 logs for faulty rank."
        -- try { sendWork->wait(); recvWork->wait(); } catch (const std::exception& e) { ... }
        match sendWork.waitResult kNoTimeout with
        | WaitResult.raised what =>
          (⟨[BarrierCall.send 0 t1, BarrierCall.recv 0 t2,
              BarrierCall.wait Leg.probe ⟨0, kNoTimeout, WaitResult.raised what⟩],
            some (error ++ "\n Original exception: \n" ++ what)⟩, pg)
        | WaitResult.returned sent =>
          match recvWork.waitResult kNoTimeout with
          | WaitResult.raised what =>
            (⟨[BarrierCall.send 0 t1, BarrierCall.recv 0 t2,
                BarrierCall.wait Leg.probe ⟨0, kNoTimeout, WaitResult.returned sent⟩,
                BarrierCall.wait Leg.reply ⟨0, kNoTimeout, WaitResult.raised what⟩],
              some (error ++ "\n Original exception: \n" ++ what)⟩, pg)
          | WaitResult.returned received =>
            (⟨[BarrierCall.send 0 t1, BarrierCall.recv 0 t2,
                BarrierCall.wait Leg.probe ⟨0, kNoTimeout, WaitResult.returned sent⟩,
                BarrierCall.wait Leg.reply ⟨0, kNoTimeout, WaitResult.returned received⟩],
              none⟩, pg)
  else
    let worldSize := pg.size_
    -- for (dstRank : irange(1, worldSize)) recvWorkMap.emplace(dstRank, recv(..., t1));
    let posted := postRecvs createUnboundBuffer t1 (List.range' 1 (worldSize - 1)) pg
    match posted.2.1 with
    | Except.error what => (⟨posted.1, some what⟩, posted.2.2)
    | Except.ok recvWorkMap =>
      -- waitLoop(recvWorkMap);
      let probes := waitLoop pg.size_ rank monitoredBarrierTimeout waitAllRanks startTime
        (now Leg.probe) (recvWorkMap.map fun entry => (entry.1, entry.2.waitResult))
      let calls := posted.1 ++ probes.calls.map (BarrierCall.wait Leg.probe)
      match probes.raised with
      | some what => (⟨calls, some what⟩, posted.2.2)
      | none =>
        -- for (dstRank : irange(1, worldSize)) sendWorkMap.emplace(dstRank, send(..., t2));
        let replies := postSends createUnboundBuffer t2 (List.range' 1 (worldSize - 1))
          posted.2.2
        match replies.2.1 with
        | Except.error what => (⟨calls ++ replies.1, some what⟩, replies.2.2)
        | Except.ok sendWorkMap =>
          -- waitLoop(sendWorkMap);
          let acks := waitLoop pg.size_ rank monitoredBarrierTimeout waitAllRanks startTime
            (now Leg.reply) (sendWorkMap.map fun entry => (entry.1, entry.2.waitResult))
          (⟨calls ++ replies.1 ++ acks.calls.map (BarrierCall.wait Leg.reply), acks.raised⟩,
            replies.2.2)

/-- The works of a map of `monitoredBarrier` as its `for` loop over `irange(1, worldSize)` fills
it and as the wait loop walks it: one work per rank from 1 to `size - 1`, in ascending order of
rank, the work of rank `r` given by what its `wait` does with a timeout. -/
def rankWorks (size : Nat) (wait : Nat → Int → WaitResult) : List (Nat × (Int → WaitResult)) :=
  (List.range' 1 (size - 1)).map fun r => (r, wait r)

/-- The ranks from 1 to `size - 1` whose `wait`, called with `timeout`, raises, in ascending
order. -/
def failingRanks (size : Nat) (wait : Nat → Int → WaitResult) (timeout : Int) : List Nat :=
  (List.range' 1 (size - 1)).filter fun r => (wait r timeout).isRaised

/-! ## The barrier -/

/-- The calls `AsyncBarrierWork::run` makes: `wait()` on a prior work, and the barrier of the
transport. -/
inductive BarrierRunCall where
  | wait (work : WorkPtr)
  | barrier (tag : Nat)
  deriving DecidableEq, Repr

/-- `AsyncBarrierWork::run` over the vector `priorWork` of weak pointers, `none` standing for
the null pointer of an empty slot. `lock p` says whether `weakWork.lock()` still yields the work
at `p`, `wait p` how `work->wait()` ends and `transportBarrier` how `gloo::barrier` ends. The
result is the calls made, oldest first, and the way `run` ends. -/
def AsyncBarrierWork.run {ε : Type} (tag : Nat) (lock : WorkPtr → Bool)
    (wait : WorkPtr → Outcome ε) (transportBarrier : Outcome ε) :
    List (Option WorkPtr) → List BarrierRunCall × Outcome ε
  | [] => ([BarrierRunCall.barrier tag], transportBarrier)
  | none :: priorWork => AsyncBarrierWork.run tag lock wait transportBarrier priorWork
  | some p :: priorWork =>
    if lock p then
      match wait p with
      | Outcome.raises e => ([BarrierRunCall.wait p], Outcome.raises e)
      | Outcome.returns =>
        let rest := AsyncBarrierWork.run tag lock wait transportBarrier priorWork
        (BarrierRunCall.wait p :: rest.1, rest.2)
    else AsyncBarrierWork.run tag lock wait transportBarrier priorWork

/-- The members `AsyncBarrierWork` adds to `AsyncWork`, next to the address of the work. -/
structure AsyncBarrierWork where
  work : WorkPtr
  priorWork : List (Option WorkPtr)
  tag : Nat
  deriving DecidableEq, Repr

/-- The lines `auto tag = nextTag(); auto context = getContext(tag); ++seq_;` that the entry
points share: the tag drawn, next to the process group with the sequence number, a `uint64_t`,
incremented. -/
def ProcessGroupGloo.drawTag {ε τ κ : Type} (pg : ProcessGroupGloo ε τ κ) :
    Nat × ProcessGroupGloo ε τ κ :=
  let tagged := pg.nextTag
  let context := tagged.2.getContext tagged.1
  (tagged.1, { context.2 with seq_ := (context.2.seq_ + 1) % 2 ^ 64 })

/-- `ProcessGroupGloo::barrier`. `alloc` is the address `make_intrusive` gives the new work,
`hook` its pre-hook; `lock`, `wait` and `transportBarrier` say what its run body will meet. -/
def ProcessGroupGloo.barrier {ε τ κ : Type} (pg : ProcessGroupGloo ε τ κ) (alloc : WorkPtr)
    (hook : Option (Outcome ε)) (lock : WorkPtr → Bool) (wait : WorkPtr → Outcome ε)
    (transportBarrier : Outcome ε) : AsyncBarrierWork × ProcessGroupGloo ε τ κ :=
  -- under workMutex_: the slots, then the queue
  let priorWork := pg.workInProgress_ ++ pg.workQueue_.map some
  let drawn := pg.drawTag
  let work := AsyncWork.new [] OpType.BARRIER drawn.2.seq_ hook
    (AsyncBarrierWork.run drawn.1 lock wait transportBarrier priorWork).2 Outcome.returns
  (⟨alloc, priorWork, drawn.1⟩, (drawn.2.store alloc work).enqueue alloc)

/-- `ProcessGroupGloo::getSequenceNumberForGroup`. -/
def ProcessGroupGloo.getSequenceNumberForGroup {ε τ κ : Type} (pg : ProcessGroupGloo ε τ κ) :
    Nat :=
  pg.seq_

/-! ## Collective entry points, continued -/

/-- Values of `ReduceOp`. -/
inductive ReduceOp where
  | SUM | AVG | PRODUCT | MIN | MAX | BAND | BOR | BXOR
  deriving DecidableEq, Repr

/-- What the entry points take from outside this file.

* The validators of the header of utilities, each giving the message it hands to
  `invalidArgument`, or `none` when it accepts; `assertTypeAndSizesMatchWith tensors t sizes` is
  the overload that compares with the options of tensor `t` and with `sizes`.
* `sameDtype`, the comparison of the `dtype()` of two tensors, and `hasCUDA`, the value of
  `at::hasCUDA()`.
* `createAllreduce`, the creators registered in `GlooAllreduceRegistry` for device types other
  than the CPU: `none` when none is registered, otherwise the message the creator raises, if
  any.
* `constructCUDA`, the message the constructor of the CUDA variant of a work raises, if any.
* The work being constructed: `alloc`, the address `make_intrusive` gives it, and the way its
  pre-hook, its run body and its `synchronize` will end. -/
structure Collaborators (ε : Type) where
  assertRootRank : Int → Nat → Option String
  assertRootTensor : Int → Nat → Option String
  assertNonEmpty : List Tensor → Option String
  assertSingleElement : List Tensor → Option String
  assertSingleElementInput : List Tensor → Option String
  assertSingleElementOutput : List Tensor → Option String
  assertDense : List Tensor → Option String
  assertLayoutMatch : List Tensor → Option String
  assertTypeAndSizesMatch : List Tensor → Option String
  assertTypeAndSizesMatchWith : List Tensor → Tensor → List Nat → Option String
  sameDtype : Tensor → Tensor → Bool
  hasCUDA : Bool
  createAllreduce : DeviceType → Option (Option String)
  constructCUDA : Option String
  alloc : WorkPtr
  hook : Option (Outcome ε)
  run : Outcome ε
  synchronize : Outcome ε

/-- The message of the first check that raises, the checks being made from left to right. -/
def firstRaised : List (Option String) → Option String
  | [] => none
  | some msg :: _ => some msg
  | none :: checks => firstRaised checks

/-- The `switch (device.type())` of the entry points: the CPU is accepted, CUDA is accepted when
it is loaded, and any other device type is an invalid argument. -/
def switchDeviceType (invalidArgument : String → String) (hasCUDA : Bool) (device : Device) :
    Option String :=
  match device.type with
  | DeviceType.CPU => none
  | DeviceType.CUDA => if hasCUDA then none else some "at::hasCUDA() INTERNAL ASSERT FAILED"
  | other => some (invalidArgument ("unsupported device type " ++ other.name))

/-- What stands for the exception of a call whose C++ has no defined behaviour: the first
element of an empty vector is read, or a null work is enqueued. -/
def undefinedBehaviour : String := "undefined behaviour"

/-- The lines that `broadcast`, `reduce`, `allgather`, `gather` and `scatter` end with: the tag
is drawn and the sequence number incremented, the work is constructed, in its CPU or in its CUDA
variant, with the output groups and the kind given, and it is enqueued. -/
def ProcessGroupGloo.launch {ε κ : Type} (pg : ProcessGroupGloo ε Tensor κ)
    (env : Collaborators ε) (deviceType : DeviceType) (outputs : List (List Tensor))
    (opType : OpType) : Except String WorkPtr × ProcessGroupGloo ε Tensor κ :=
  let drawn := pg.drawTag
  match deviceType with
  | DeviceType.CPU =>
    let work := AsyncWork.new outputs opType drawn.2.seq_ env.hook env.run Outcome.returns
    (Except.ok env.alloc, (drawn.2.store env.alloc work).enqueue env.alloc)
  | DeviceType.CUDA =>
    match env.constructCUDA with
    | some what => (Except.error what, drawn.2)
    | none =>
      let work := AsyncWork.new outputs opType drawn.2.seq_ env.hook env.run env.synchronize
      (Except.ok env.alloc, (drawn.2.store env.alloc work).enqueue env.alloc)
  | _ => (Except.error "Invalid backend", drawn.2)

/-- `ProcessGroupGloo::broadcast`. -/
def ProcessGroupGloo.broadcast {ε κ : Type} (pg : ProcessGroupGloo ε Tensor κ)
    (env : Collaborators ε) (inputs : List Tensor) (rootRank rootTensor : Int) :
    Except String WorkPtr × ProcessGroupGloo ε Tensor κ :=
  let invalidArgument := fun (msg : String) => "ProcessGroupGloo::broadcast: " ++ msg
  match firstRaised [env.assertRootRank rootRank pg.size_,
      env.assertRootTensor rootTensor inputs.length, env.assertDense inputs,
      env.assertTypeAndSizesMatch inputs] with
  | some msg => (Except.error (invalidArgument msg), pg)
  | none =>
    match inputs with
    | [] => (Except.error undefinedBehaviour, pg)
    | first :: _ =>
      match switchDeviceType invalidArgument env.hasCUDA first.device with
      | some msg => (Except.error msg, pg)
      | none => pg.launch env first.device.type [inputs] OpType.BROADCAST

/-- `makeAllreduceCPUWork`, the creator registered for the CPU: the message it raises, or `none`
when it constructs the work of a strided or of a sparse layout. -/
def makeAllreduceCPUWork (layout : Layout) : Option String :=
  match layout with
  | Layout.Strided => none
  | Layout.Sparse => none
  | _ => some "ProcessGroupGloo::allreduce: unsupported layout"

/-- `ProcessGroupGloo::allreduce`. -/
def ProcessGroupGloo.allreduce {ε κ : Type} (pg : ProcessGroupGloo ε Tensor κ)
    (env : Collaborators ε) (inputs : List Tensor) (reduceOp : ReduceOp) :
    Except String WorkPtr × ProcessGroupGloo ε Tensor κ :=
  let invalidArgument := fun (msg : String) => "ProcessGroupGloo::allreduce: " ++ msg
  match firstRaised [env.assertNonEmpty inputs, env.assertLayoutMatch inputs,
      env.assertTypeAndSizesMatch inputs] with
  | some msg => (Except.error (invalidArgument msg), pg)
  | none =>
    match inputs with
    | [] => (Except.error undefinedBehaviour, pg)
    | first :: _ =>
      match switchDeviceType invalidArgument env.hasCUDA first.device with
      | some msg => (Except.error msg, pg)
      | none =>
        if first.layout = Layout.Sparse ∧ reduceOp ≠ ReduceOp.SUM then
          (Except.error (invalidArgument ("unsupported reduction operation "
            ++ "(allreduce of sparse tensors only works with ReduceOp.SUM)")), pg)
        else
          let drawn := pg.drawTag
          -- work = GlooAllreduceRegistry()->Create(device.type(), ...);
          let created : Option (Option String) :=
            match first.device.type with
            | DeviceType.CPU => some (makeAllreduceCPUWork first.layout)
            | other => env.createAllreduce other
          match created with
          | none => (Except.error undefinedBehaviour, drawn.2)
          | some (some what) => (Except.error what, drawn.2)
          | some none =>
            let work := AsyncWork.new [inputs] OpType.ALLREDUCE drawn.2.seq_ env.hook env.run
              (if first.device.type = DeviceType.CPU then Outcome.returns else env.synchronize)
            (Except.ok env.alloc, (drawn.2.store env.alloc work).enqueue env.alloc)

/-- `ProcessGroupGloo::reduce`. -/
def ProcessGroupGloo.reduce {ε κ : Type} (pg : ProcessGroupGloo ε Tensor κ)
    (env : Collaborators ε) (inputs : List Tensor) (rootRank rootTensor : Int) :
    Except String WorkPtr × ProcessGroupGloo ε Tensor κ :=
  let invalidArgument := fun (msg : String) => "ProcessGroupGloo::reduce: " ++ msg
  match firstRaised [env.assertRootRank rootRank pg.size_,
      env.assertRootTensor rootTensor inputs.length, env.assertSingleElement inputs,
      env.assertDense inputs] with
  | some msg => (Except.error (invalidArgument msg), pg)
  | none =>
    match inputs with
    | [] => (Except.error undefinedBehaviour, pg)
    | first :: _ =>
      match switchDeviceType invalidArgument env.hasCUDA first.device with
      | some msg => (Except.error msg, pg)
      | none => pg.launch env first.device.type [inputs] OpType.REDUCE

/-- The loop of `allgather` over the output lists: the message for the first list whose length
is not the expected one, `i` being the index of the head of the lists given. -/
def checkOutputLengths (expected : Nat) : Nat → List (List Tensor) → Option String
  | _, [] => none
  | i, output :: outputs =>
    if output.length ≠ expected then
      some ("invalid output tensor list at index " ++ toString i ++ " (expected length "
        ++ toString expected ++ ", got " ++ toString output.length ++ ")")
    else checkOutputLengths expected (i + 1) outputs

/-- `ProcessGroupGloo::allgather`. -/
def ProcessGroupGloo.allgather {ε κ : Type} (pg : ProcessGroupGloo ε Tensor κ)
    (env : Collaborators ε) (outputs : List (List Tensor)) (inputs : List Tensor) :
    Except String WorkPtr × ProcessGroupGloo ε Tensor κ :=
  let invalidArgument := fun (msg : String) => "ProcessGroupGloo::allgather: " ++ msg
  match inputs with
  | [] => (Except.error (invalidArgument "requires non-empty input tensor list"), pg)
  | first :: _ =>
    if inputs.length ≠ outputs.length then
      (Except.error
        (invalidArgument "requires input/output tensor lists to have the same length"), pg)
    else
      match firstRaised
        ([checkOutputLengths (inputs.length * pg.size_) 0 outputs, env.assertDense inputs,
            env.assertTypeAndSizesMatchWith inputs first first.sizes]
          ++ outputs.map fun output =>
            env.assertTypeAndSizesMatchWith output first first.sizes) with
      | some msg => (Except.error (invalidArgument msg), pg)
      | none =>
        match switchDeviceType invalidArgument env.hasCUDA first.device with
        | some msg => (Except.error msg, pg)
        | none => pg.launch env first.device.type outputs OpType.ALLGATHER

/-- `ProcessGroupGloo::gather`. -/
def ProcessGroupGloo.gather {ε κ : Type} (pg : ProcessGroupGloo ε Tensor κ)
    (env : Collaborators ε) (outputs : List (List Tensor)) (inputs : List Tensor)
    (rootRank : Int) : Except String WorkPtr × ProcessGroupGloo ε Tensor κ :=
  let invalidArgument := fun (msg : String) => "ProcessGroupGloo::gather: " ++ msg
  match firstRaised [env.assertRootRank rootRank pg.size_,
      env.assertSingleElementInput inputs, env.assertDense inputs] with
  | some msg => (Except.error (invalidArgument msg), pg)
  | none =>
    match inputs with
    | [] => (Except.error undefinedBehaviour, pg)
    | first :: _ =>
      let checked : Option String :=
        if (pg.rank_ : Int) = rootRank then
          match outputs with
          | [output] =>
            if output.length ≠ pg.size_ then
              some ("Incorrect output list size " ++ toString output.length
                ++ ". Output list size should be " ++ toString pg.size_
                ++ ", same as size of the process group.")
            else env.assertTypeAndSizesMatchWith output first first.sizes
          | _ =>
            some ("requires a single-element output list containing a list with "
              ++ toString pg.size_ ++ " tensors.")
        else if !outputs.isEmpty then some "requires empty output on non-root"
        else none
      match checked with
      | some msg => (Except.error (invalidArgument msg), pg)
      | none =>
        match switchDeviceType invalidArgument env.hasCUDA first.device with
        | some msg => (Except.error msg, pg)
        | none => pg.launch env first.device.type outputs OpType.GATHER

/-- `ProcessGroupGloo::scatter`. -/
def ProcessGroupGloo.scatter {ε κ : Type} (pg : ProcessGroupGloo ε Tensor κ)
    (env : Collaborators ε) (outputs : List Tensor) (inputs : List (List Tensor))
    (rootRank : Int) : Except String WorkPtr × ProcessGroupGloo ε Tensor κ :=
  let invalidArgument := fun (msg : String) => "ProcessGroupGloo::scatter: " ++ msg
  match firstRaised [env.assertRootRank rootRank pg.size_,
      env.assertSingleElementOutput outputs, env.assertDense outputs] with
  | some msg => (Except.error (invalidArgument msg), pg)
  | none =>
    match outputs with
    | [] => (Except.error undefinedBehaviour, pg)
    | first :: _ =>
      let checked : Option String :=
        if (pg.rank_ : Int) = rootRank then
          match inputs with
          | [input] =>
            if input.length ≠ pg.size_ then
              some ("Incorrect input list size " ++ toString input.length
                ++ ". Input list size should be " ++ toString pg.size_
                ++ ", same as size of the process group.")
            else env.assertTypeAndSizesMatchWith input first first.sizes
          | _ =>
            some ("requires a single-element input list containing a list with "
              ++ toString pg.size_ ++ " tensors")
        else if !inputs.isEmpty then some "requires empty input on non-root"
        else none
      match checked with
      | some msg => (Except.error (invalidArgument msg), pg)
      | none =>
        match switchDeviceType invalidArgument env.hasCUDA first.device with
        | some msg => (Except.error msg, pg)
        | none => pg.launch env first.device.type [outputs] OpType.SCATTER

/-- The loop of `reduce_scatter` that calls `allreduce` on every buffer, in order, and collects
the works. The work of buffer number `k` is constructed at address `alloc + k`. The loop ends at
the first `allreduce` that raises. -/
def ProcessGroupGloo.allreduceEach {ε κ : Type} (env : Collaborators ε) (reduceOp : ReduceOp) :
    List Tensor → Nat → ProcessGroupGloo ε Tensor κ →
      Except String (List WorkPtr) × ProcessGroupGloo ε Tensor κ
  | [], _, pg => (Except.ok [], pg)
  | buffer :: buffers, k, pg =>
    match pg.allreduce { env with alloc := env.alloc + k } [buffer] reduceOp with
    | (Except.error what, pg) => (Except.error what, pg)
    | (Except.ok work, pg) =>
      match ProcessGroupGloo.allreduceEach env reduceOp buffers (k + 1) pg with
      | (Except.error what, pg) => (Except.error what, pg)
      | (Except.ok works, pg) => (Except.ok (work :: works), pg)

/-- `ProcessGroupGloo::reduce_scatter`. The result is the list of works the returned
`LambdaWork` waits on, or the message of the exception raised. -/
def ProcessGroupGloo.reduce_scatter {ε κ : Type} (pg : ProcessGroupGloo ε Tensor κ)
    (env : Collaborators ε) (outputs : List Tensor) (inputs : List (List Tensor))
    (reduceOp : ReduceOp) : Except String (List WorkPtr) × ProcessGroupGloo ε Tensor κ :=
  match outputs, inputs with
  | [output], [input] =>
    if input.length ≠ pg.size_ then
      (Except.error "invalid input tensor list size, must be world size", pg)
    else
      -- the checks made for `i == rank` in the loop that fills `buffers`
      let checked : Option String :=
        match input[pg.rank_]? with
        | none => none
        | some own =>
          if !env.sameDtype output own then
            some "Check failed: outputs[0].dtype() == inputs[0][i].dtype()"
          else if output.sizes ≠ own.sizes then
            some "Check failed: outputs[0].sizes().vec() == inputs[0][i].sizes().vec()"
          else none
      match checked with
      | some msg => (Except.error msg, pg)
      | none => ProcessGroupGloo.allreduceEach env reduceOp (input.set pg.rank_ output) 0 pg
  | [_], _ =>
    (Except.error "requires input/output tensor lists to have the same length", pg)
  | _, _ => (Except.error "reduce_scatter only supports 1 output", pg)

/-- A call of an operation of the process group, with its arguments. -/
inductive Operation where
  | broadcast (inputs : List Tensor) (rootRank rootTensor : Int)
  | allreduce (inputs : List Tensor) (reduceOp : ReduceOp)
  | reduce (inputs : List Tensor) (rootRank rootTensor : Int)
  | allgather (outputs : List (List Tensor)) (inputs : List Tensor)
  | gather (outputs : List (List Tensor)) (inputs : List Tensor) (rootRank : Int)
  | scatter (outputs : List Tensor) (inputs : List (List Tensor)) (rootRank : Int)
  | reduce_scatter (outputs : List Tensor) (inputs : List (List Tensor)) (reduceOp : ReduceOp)
  | alltoall_base (outputTensor inputTensor : Tensor)
  | send (tensors : List Tensor) (dstRank : Nat) (tag : Int)
  | recv (tensors : List Tensor) (srcRank : Nat) (tag : Int)
  | recvAnysource (tensors : List Tensor) (tag : Int)
  | barrier

/-- The work an operation returns to its caller. -/
inductive Handle where
  | async (work : WorkPtr)
  | send (work : SendWork)
  | recv (work : RecvWork)
  | lambda (works : List WorkPtr)

/-- The value of `getSequencenumber()` on the work returned: the member `seq_` of an
`AsyncWork`, a `SendWork` or a `RecvWork`. A `LambdaWork` has no such member and does not
override the function. -/
def Handle.getSequencenumber {ε τ κ : Type} (pg : ProcessGroupGloo ε τ κ) :
    Handle → Option Nat
  | Handle.async work => some (pg.works work).seq_
  | Handle.send work => some work.seq_
  | Handle.recv work => some work.seq_
  | Handle.lambda _ => none

/-- Whether the operation is `reduce_scatter`. -/
def Operation.isReduceScatter : Operation → Bool
  | Operation.reduce_scatter _ _ _ => true
  | _ => false

/-- The call of an operation on the process group: the entry point of that name is run. `buffer`
is the buffer the context creates for a point-to-point operation; `lock`, `wait` and
`transportBarrier` are what the run body of a barrier work will meet. -/
def ProcessGroupGloo.call {ε κ : Type} (pg : ProcessGroupGloo ε Tensor κ)
    (env : Collaborators ε) (buffer : UnboundBuffer) (lock : WorkPtr → Bool)
    (wait : WorkPtr → Outcome ε) (transportBarrier : Outcome ε) :
    Operation → Except String Handle × ProcessGroupGloo ε Tensor κ
  | Operation.broadcast inputs rootRank rootTensor =>
    let r := pg.broadcast env inputs rootRank rootTensor
    (r.1.map Handle.async, r.2)
  | Operation.allreduce inputs reduceOp =>
    let r := pg.allreduce env inputs reduceOp
    (r.1.map Handle.async, r.2)
  | Operation.reduce inputs rootRank rootTensor =>
    let r := pg.reduce env inputs rootRank rootTensor
    (r.1.map Handle.async, r.2)
  | Operation.allgather outputs inputs =>
    let r := pg.allgather env outputs inputs
    (r.1.map Handle.async, r.2)
  | Operation.gather outputs inputs rootRank =>
    let r := pg.gather env outputs inputs rootRank
    (r.1.map Handle.async, r.2)
  | Operation.scatter outputs inputs rootRank =>
    let r := pg.scatter env outputs inputs rootRank
    (r.1.map Handle.async, r.2)
  | Operation.reduce_scatter outputs inputs reduceOp =>
    let r := pg.reduce_scatter env outputs inputs reduceOp
    (r.1.map Handle.lambda, r.2)
  | Operation.alltoall_base outputTensor inputTensor =>
    let r := pg.alltoall_base env.assertDense outputTensor inputTensor env.alloc env.hook
      env.run env.synchronize
    (r.1.map Handle.async, r.2)
  | Operation.send tensors dstRank tag =>
    let r := pg.send tensors dstRank tag buffer
    (r.1.map Handle.send, r.2)
  | Operation.recv tensors srcRank tag =>
    let r := pg.recv tensors srcRank tag buffer
    (r.1.map Handle.recv, r.2)
  | Operation.recvAnysource tensors tag =>
    let r := pg.recvAnysource tensors tag buffer
    (r.1.map Handle.recv, r.2)
  | Operation.barrier =>
    let r := pg.barrier env.alloc env.hook lock wait transportBarrier
    (Except.ok (Handle.async r.1.work), r.2)

/-! ## The timeout of a work -/

/-- What the constructor of a work uses of the `gloo::Context` it is given: the timeout that
`getTimeout()` returns. -/
structure Context where
  timeout : Int
  deriving DecidableEq, Repr

/-- `gloo::Context::getTimeout`. -/
def Context.getTimeout (context : Context) : Int :=
  context.timeout

/-- The members `context_` and `timeout_` of `AsyncWork`, which the record `AsyncWork` above
leaves out. -/
structure AsyncWorkTimeout where
  context_ : Context
  timeout_ : Int
  deriving DecidableEq, Repr

/-- The member initialisers `context_(std::move(context))` and
`timeout_(timeout == kUnsetTimeout ? context_->getTimeout() : timeout)` of the constructor
`AsyncWork::AsyncWork`. -/
def AsyncWorkTimeout.new (context : Context) (timeout : Int) : AsyncWorkTimeout :=
  { context_ := context
    timeout_ := if timeout = kUnsetTimeout then context.getTimeout else timeout }

/-- `AsyncWork::getTimeout`: `return context_->getTimeout();`. -/
def AsyncWorkTimeout.getTimeout (work : AsyncWorkTimeout) : Int :=
  work.context_.getTimeout

/-! ## The invariant of the queue and the worker slots -/

/-- The work whose pointer `runLoop` keeps in the slot of a worker, by where the worker is: a
worker holds the work it popped from `workInProgress_[workerIndex] = work` until
`workInProgress_[workerIndex].reset()`, which a thread terminated by an exception never
reaches. -/
def Worker.slot {ε : Type} : Worker ε → Option WorkPtr
  | Worker.waiting => none
  | Worker.running work => some work
  | Worker.exited => none
  | Worker.terminated work _ => some work

/-- The invariant of the queue and the slots: every slot holds what its worker holds; the works
dequeued so far followed by the queue are the works enqueued so far; a work in a slot was
dequeued; and no work is in two slots. -/
def Engine.Consistent {ε τ κ : Type} (s : Engine ε τ κ) : Prop :=
  s.pg.workInProgress_ = s.workers.map Worker.slot
    ∧ s.dequeued ++ s.pg.workQueue_ = s.enqueued
    ∧ (∀ (i : Nat) (w : WorkPtr), s.pg.workInProgress_[i]? = some (some w) → w ∈ s.dequeued)
    ∧ (∀ (i j : Nat) (w : WorkPtr), s.pg.workInProgress_[i]? = some (some w) →
        s.pg.workInProgress_[j]? = some (some w) → i = j)

/-! ## Device staging of the broadcast -/

/-- The contents of a tensor: its elements, as bit patterns, in the order of its storage. -/
abbrev Contents := List Nat

/-- The streams the CUDA works issue operations on: the current stream of the device of a
tensor, which is the stream of the caller (`impl.getStream(device)`), and the stream taken from
the global pool for the tensor at an index (`streams[i]`). -/
inductive Stream where
  | caller
  | pool (i : Nat)
  deriving DecidableEq, Repr

/-- The tensor a call of `AsyncBroadcastWork::broadcast` hands to the transport with
`setOutput`: an input tensor of the caller, or the pinned host tensor `tmp`. -/
inductive BroadcastBuffer where
  | input (i : Nat)
  | tmp
  deriving DecidableEq, Repr

/-- The operations `AsyncBroadcastCUDAWork` issues, in the order it issues them. -/
inductive StagingCall where
  /-- `events[i].record(stream)` -/
  | record (i : Nat) (stream : Stream)
  /-- `events[i].block(stream)` -/
  | block (i : Nat) (stream : Stream)
  /-- `tmp.copy_(inputs[i], true)` under a guard of `stream` -/
  | copyToHost (i : Nat) (stream : Stream)
  /-- `stream.synchronize()` -/
  | synchronize (stream : Stream)
  /-- `gloo::broadcast(opts)` with `buffer` as output, holding `contents` at the call -/
  | broadcast (buffer : BroadcastBuffer) (contents : Contents)
  /-- `inputs[i].copy_(tmp, true)` under a guard of `stream` -/
  | copyFromHost (i : Nat) (stream : Stream)
  deriving DecidableEq, Repr

/-- Modelled from the spec: `at::Tensor::copy_(src, non_blocking)`, defined outside the sources
at hand ("issue an asynchronous copy from device memory into a pinned host buffer", "the reverse
staging copies results back onto the original device tensors"): the destination holds the
contents of the source. The tensors of a broadcast have the same type and sizes. -/
def copy_ (_dst src : Contents) : Contents :=
  src

/-- `AsyncBroadcastCUDAWork`: the members `context_->rank`, `rootRank`, `rootTensor`, `inputs`
and `tmp`, the tensors given by their contents. The contents of a tensor are kept in stream
order: a copy takes effect where it is issued, the streams it is issued on being ordered by the
events the work records and blocks on. `calls` is a ghost member: the operations issued so far,
oldest first. -/
structure AsyncBroadcastCUDAWork where
  rank : Nat
  rootRank : Nat
  rootTensor : Nat
  inputs : List Contents
  tmp : Contents
  calls : List StagingCall
  deriving DecidableEq, Repr

/-- `initializeStreamsEvents(tensors, streams, events)`: for every tensor an event is recorded
on the current stream and the stream taken from the pool is made to wait for it. (Recording the
storage of the tensor on the stream concerns the allocator only and is left out.) -/
def initializeStreamsEvents (tensors : List Contents) : List StagingCall :=
  (List.range tensors.length).foldl
    (fun calls i => calls ++ [StagingCall.record i Stream.caller,
      StagingCall.block i (Stream.pool i)])
    []

/-- The constructor `AsyncBroadcastCUDAWork::AsyncBroadcastCUDAWork`. `pinned` is what the
memory returned by `pinnedLike(inputs[rootTensor])` holds. An index `rootTensor` outside
`inputs`, which `broadcast()` rejects before it constructs the work, reads as an empty
tensor. -/
def AsyncBroadcastCUDAWork.new (rank rootRank rootTensor : Nat) (inputs : List Contents)
    (pinned : Contents) : AsyncBroadcastCUDAWork :=
  let calls := initializeStreamsEvents inputs
  -- tmp = pinnedLike(inputs[rootTensor]);
  let tmp := pinned
  if rank = rootRank then
    -- guard.reset_stream(streams[rootTensor]); tmp.copy_(inputs[rootTensor], true);
    { rank := rank, rootRank := rootRank, rootTensor := rootTensor, inputs := inputs
      tmp := copy_ tmp (inputs.getD rootTensor [])
      calls := calls ++ [StagingCall.copyToHost rootTensor (Stream.pool rootTensor)] }
  else
    { rank := rank, rootRank := rootRank, rootTensor := rootTensor, inputs := inputs
      tmp := tmp, calls := calls }

/-- `AsyncBroadcastCUDAWork::run`. `transport contents` is what `gloo::broadcast` leaves in its
output buffer when the buffer holds `contents` at the call, or the `what()` of the exception it
raises. The result is the work after the call next to the way `run` ends. -/
def AsyncBroadcastCUDAWork.run (work : AsyncBroadcastCUDAWork)
    (transport : Contents → Except String Contents) :
    AsyncBroadcastCUDAWork × Outcome String :=
  -- if (context_->rank == rootRank) { streams[rootTensor].synchronize(); }
  let work :=
    if work.rank = work.rootRank then
      { work with
        calls := work.calls ++ [StagingCall.synchronize (Stream.pool work.rootTensor)] }
    else work
  -- broadcast(tmp);
  let called :=
    { work with calls := work.calls ++ [StagingCall.broadcast BroadcastBuffer.tmp work.tmp] }
  match transport work.tmp with
  | Except.error what => (called, Outcome.raises what)
  | Except.ok received =>
    -- for (i : irange(inputs.size())) { inputs[i].copy_(tmp, true); events[i].record(...); }
    ((List.range called.inputs.length).foldl
      (fun work i =>
        { work with
          inputs := work.inputs.set i (copy_ (work.inputs.getD i []) work.tmp)
          calls := work.calls ++ [StagingCall.copyFromHost i (Stream.pool i),
            StagingCall.record i (Stream.pool i)] })
      { called with tmp := received }, Outcome.returns)

/-- `AsyncBroadcastCUDAWork::synchronize`: the current stream of every input is made to wait for
the event recorded after the copy back to that input. -/
def AsyncBroadcastCUDAWork.synchronize (work : AsyncBroadcastCUDAWork) :
    AsyncBroadcastCUDAWork :=
  (List.range work.inputs.length).foldl
    (fun work i => { work with calls := work.calls ++ [StagingCall.block i Stream.caller] })
    work

/-! ## Half precision conversions (`torch/headeronly/util/Half.h`)

The portable branch of the two conversions computes with `float`. A `float` is modelled by its
bit pattern, and `*`, `+` and `-` on `float` by IEEE 754 binary32 arithmetic with rounding to
nearest, ties to even, the default mode. The bit pattern of a `float` is a number below
`2 ^ 32`: bit 31 is the sign, bits 23 to 30 the biased exponent, bits 0 to 22 the mantissa. The
functions named `Float32.f` take and return such bit patterns. -/

/-- The sum of two `uint32_t`: the sum modulo `2 ^ 32`. -/
@[irreducible] def uint32_add (a b : Nat) : Nat :=
  (a + b) % 2 ^ 32

/-- Modelled from the spec: `fp32_from_bits`, declared in a header outside the sources at hand:
the `float` whose bits are those of the word. -/
def fp32_from_bits (w : Nat) : Nat :=
  w

/-- Modelled from the spec: `fp32_to_bits`, declared in a header outside the sources at hand:
the word whose bits are those of the `float`. -/
def fp32_to_bits (f : Nat) : Nat :=
  f

/-- Whether a `float` is a NaN: the exponent is all ones and the mantissa is not zero. -/
def Float32.isNaN (f : Nat) : Bool :=
  0x7F800000 < f &&& 0x7FFFFFFF

/-- Whether a `float` is an infinity. -/
def Float32.isInf (f : Nat) : Bool :=
  f &&& 0x7FFFFFFF = 0x7F800000

/-- The sign bit of a `float`. -/
def Float32.sign (f : Nat) : Nat :=
  (f >>> 31) &&& 1

/-- The significand of a finite `float` as an integer: the mantissa, with the implicit leading
bit when the number is normal. -/
def Float32.significand (f : Nat) : Nat :=
  if (f >>> 23) &&& 0xFF = 0 then f &&& 0x7FFFFF else (f &&& 0x7FFFFF) + 2 ^ 23

/-- The exponent of a finite `float`: its magnitude is `significand * 2 ^ (scale - 150)`. -/
def Float32.scale (f : Nat) : Nat :=
  if (f >>> 23) &&& 0xFF = 0 then 1 else (f >>> 23) &&& 0xFF

/-- The NaN an invalid operation returns (the sign bit is set, as on x86). -/
def Float32.defaultNaN : Nat :=
  0xFFC00000

/-- The number of binary digits of `n`, for `n` below `2 ^ fuel`: zero for zero. -/
def bitLength : Nat → Nat → Nat
  | 0, _ => 0
  | fuel + 1, n => if n = 0 then 0 else bitLength fuel (n / 2) + 1

/-- The `float` nearest to `sig * 2 ^ (e - 300)`, `sig` not zero, with the given sign: rounding
is to nearest, ties to even, the result is subnormal when the magnitude is below `2 ^ (-126)` and
an infinity when the rounded magnitude is `2 ^ 128` or more. -/
def Float32.round (sign sig e : Nat) : Nat :=
  -- the exponent of the unit in the last place, with the same offset of 300
  let ulp := max (e + bitLength 512 sig - 24) 151
  let kept :=
    if ulp ≤ e then sig <<< (e - ulp)
    else
      let shift := ulp - e
      let quotient := sig >>> shift
      let remainder := sig % 2 ^ shift
      let half := 2 ^ (shift - 1)
      if half < remainder ∨ (remainder = half ∧ quotient % 2 = 1) then quotient + 1
      else quotient
  let magnitude := (ulp - 151) * 2 ^ 23 + kept
  (sign <<< 31) ||| (if 0x7F800000 ≤ magnitude then 0x7F800000 else magnitude)

/-- The product of two `float`s (IEEE 754 binary32 multiplication, round to nearest even). A NaN
operand is returned quieted. -/
def Float32.mul (a b : Nat) : Nat :=
  if Float32.isNaN a then a ||| 0x00400000
  else if Float32.isNaN b then b ||| 0x00400000
  else if Float32.isInf a ∨ Float32.isInf b then
    if a &&& 0x7FFFFFFF = 0 ∨ b &&& 0x7FFFFFFF = 0 then Float32.defaultNaN
    else ((Float32.sign a ^^^ Float32.sign b) <<< 31) ||| 0x7F800000
  else if Float32.significand a * Float32.significand b = 0 then
    (Float32.sign a ^^^ Float32.sign b) <<< 31
  else
    Float32.round (Float32.sign a ^^^ Float32.sign b)
      (Float32.significand a * Float32.significand b) (Float32.scale a + Float32.scale b)

/-- The sum of two `float`s (IEEE 754 binary32 addition, round to nearest even). A NaN operand
is returned quieted. -/
def Float32.add (a b : Nat) : Nat :=
  if Float32.isNaN a then a ||| 0x00400000
  else if Float32.isNaN b then b ||| 0x00400000
  else if Float32.isInf a then
    if Float32.isInf b ∧ Float32.sign a ≠ Float32.sign b then Float32.defaultNaN else a
  else if Float32.isInf b then b
  else
    let scale := min (Float32.scale a) (Float32.scale b)
    let x := Float32.significand a <<< (Float32.scale a - scale)
    let y := Float32.significand b <<< (Float32.scale b - scale)
    if Float32.sign a = Float32.sign b then
      if x + y = 0 then Float32.sign a <<< 31
      else Float32.round (Float32.sign a) (x + y) (scale + 150)
    else if y < x then Float32.round (Float32.sign a) (x - y) (scale + 150)
    else if x < y then Float32.round (Float32.sign b) (y - x) (scale + 150)
    else 0

/-- The difference of two `float`s. -/
def Float32.sub (a b : Nat) : Nat :=
  if Float32.isNaN b then Float32.add a b else Float32.add a (b ^^^ 0x80000000)

/-- The function `fabsf`: the sign bit is cleared. -/
def fabsf (f : Nat) : Nat :=
  f &&& 0x7FFFFFFF

/-- `fp16_ieee_to_fp32_value`, the portable branch (without `C10_X86_F16`). `h` is a
`uint16_t`. The result is the `float` returned. -/
def fp16_ieee_to_fp32_value (h : Nat) : Nat :=
  let w := (h <<< 16) % 2 ^ 32
  let sign := w &&& 0x80000000
  let two_w := uint32_add w w
  let exp_offset := (0xE0 <<< 23) % 2 ^ 32
  let scale_bits := (15 <<< 23) % 2 ^ 32
  let exp_scale := fp32_from_bits scale_bits
  let normalized_value :=
    Float32.mul (fp32_from_bits (uint32_add (two_w >>> 4) exp_offset)) exp_scale
  let magic_mask := (126 <<< 23) % 2 ^ 32
  -- 0.5f
  let magic_bias := 0x3F000000
  let denormalized_value :=
    Float32.sub (fp32_from_bits ((two_w >>> 17) ||| magic_mask)) magic_bias
  let denormalized_cutoff := (1 <<< 27) % 2 ^ 32
  let result := sign |||
    (if two_w < denormalized_cutoff then fp32_to_bits denormalized_value
      else fp32_to_bits normalized_value)
  fp32_from_bits result

/-- `fp16_ieee_from_fp32_value`, the portable branch (without `C10_X86_F16`). `f` is the
`float` given; the result is a `uint16_t`. -/
def fp16_ieee_from_fp32_value (f : Nat) : Nat :=
  let scale_to_inf_bits := (239 <<< 23) % 2 ^ 32
  let scale_to_zero_bits := (17 <<< 23) % 2 ^ 32
  let scale_to_inf := fp32_from_bits scale_to_inf_bits
  let scale_to_zero := fp32_from_bits scale_to_zero_bits
  let base := Float32.mul (Float32.mul (fabsf f) scale_to_inf) scale_to_zero
  let w := fp32_to_bits f
  let shl1_w := uint32_add w w
  let sign := w &&& 0x80000000
  let bias := shl1_w &&& 0xFF000000
  let bias := if bias < 0x71000000 then 0x71000000 else bias
  let base := Float32.add (fp32_from_bits (uint32_add (bias >>> 1) 0x07800000)) base
  let bits := fp32_to_bits base
  let exp_bits := (bits >>> 13) &&& 0x00007C00
  let mantissa_bits := bits &&& 0x00000FFF
  let nonsign := uint32_add exp_bits mantissa_bits
  ((sign >>> 16) ||| (if 0xFF000000 < shl1_w then 0x7E00 else nonsign)) % 2 ^ 16

/-! ## Concrete inputs -/

/-- A work with one output group, not yet executed, whose callbacks end as given. Errors are
numbered. -/
def exampleWork (hook : Option (Outcome Nat)) (run synchronize : Outcome Nat) :
    AsyncWork Nat Nat :=
  AsyncWork.new [[1, 2]] OpType.ALLREDUCE 1 hook run synchronize

/-- A process group as the constructor leaves it, with the given contexts and number of worker
threads, over a store in which every work is as `work`. -/
def exampleGroup {τ : Type} (contexts : List Nat) (threads : Nat) (work : AsyncWork Nat τ) :
    ProcessGroupGloo Nat τ Nat :=
  { rank_ := 0
    size_ := 1
    contexts_ := contexts
    stop_ := false
    collectiveCounter_ := 0
    seq_ := 0
    workQueue_ := []
    workInProgress_ := List.replicate threads none
    pgStatus_ := ProcessGroupStatus.init
    works := fun _ => work }

/-- A process group of `size` ranks seen from `rank`, as the constructor leaves it. -/
def exampleRank (rank size : Nat) : ProcessGroupGloo Nat Nat Nat :=
  { exampleGroup [10] 2 (exampleWork none Outcome.returns Outcome.returns) with
    rank_ := rank
    size_ := size }

/-- Buffers of a transport on which the operations with the ranks in `silent` never complete:
a wait on them raises "timed out", with or without a timeout; every other wait returns true. -/
def exampleBuffer (silent : List Nat) (peer : Nat) (_tag : Int) : UnboundBuffer :=
  { send := fun _ _ => none
    recv := fun _ _ => none
    waitSend := fun _ => if peer ∈ silent then Except.error "timed out" else Except.ok true
    waitRecv := fun _ =>
      if peer ∈ silent then Except.error "timed out" else Except.ok (true, (peer : Int)) }

/-- A dense, contiguous tensor of four elements on the CPU. -/
def exampleTensor : Tensor :=
  ⟨⟨DeviceType.CPU, 0⟩, Layout.Strided, [4], true⟩

/-- Collaborators whose validators accept every argument; new works live from address 100 on
and their callbacks return. -/
def exampleCollaborators : Collaborators Nat :=
  { assertRootRank := fun _ _ => none
    assertRootTensor := fun _ _ => none
    assertNonEmpty := fun _ => none
    assertSingleElement := fun _ => none
    assertSingleElementInput := fun _ => none
    assertSingleElementOutput := fun _ => none
    assertDense := fun _ => none
    assertLayoutMatch := fun _ => none
    assertTypeAndSizesMatch := fun _ => none
    assertTypeAndSizesMatchWith := fun _ _ _ => none
    sameDtype := fun _ _ => true
    hasCUDA := false
    createAllreduce := fun _ => none
    constructCUDA := none
    alloc := 100
    hook := none
    run := Outcome.returns
    synchronize := Outcome.returns }

/-- A process group of `size` ranks seen from `rank`, as the constructor leaves it, whose works
carry tensors. -/
def exampleTensorGroup (rank size : Nat) : ProcessGroupGloo Nat Tensor Nat :=
  { exampleGroup [10] 2
      (AsyncWork.new [] OpType.UNKNOWN 0 none Outcome.returns Outcome.returns) with
    rank_ := rank
    size_ := size }

/-! ## Theorems -/

/-! ### `AsyncWork::execute` -/

/-- C1, as stated, fails: a work whose pre-hook raises, and a work whose `synchronize` raises,
leave `execute` with the exception and with a future that was never resolved. -/
theorem execute_leaves_future_unresolved :
    (exampleWork (some (Outcome.raises 7)) Outcome.returns Outcome.returns).execute.1.future_.resolutions
        = []
      ∧ (exampleWork (some (Outcome.raises 7)) Outcome.returns Outcome.returns).execute.2 = some 7
      ∧ (exampleWork none Outcome.returns (Outcome.raises 9)).execute.1.future_.resolutions = []
      ∧ (exampleWork none Outcome.returns (Outcome.raises 9)).execute.2 = some 9 := by
  decide

/-- C1, amended: when the pre-hook (if one is set) returns and, in case the run body returns,
`synchronize` returns too, `execute` returns normally and resolves the future of the work exactly
once: with the error of the run body if it raised, with the output value otherwise. For a work
whose future was unresolved the future then holds exactly one resolution. -/
theorem execute_resolves_future_once {ε τ : Type} (work : AsyncWork ε τ)
    (hhook : work.recordFunctionBeforeCallback_ = none
      ∨ work.recordFunctionBeforeCallback_ = some Outcome.returns)
    (hsync : work.run = Outcome.returns → work.synchronize = Outcome.returns) :
    work.execute.2 = none
      ∧ work.execute.1.future_.resolutions = work.future_.resolutions ++
          [match work.run with
           | Outcome.returns => Resolution.value (outputValue work.outputTensors_)
           | Outcome.raises e => Resolution.error e]
      ∧ (work.future_.resolutions = [] → work.execute.1.future_.resolutions.length = 1) := by
  have key : work.execute.2 = none
      ∧ work.execute.1.future_.resolutions = work.future_.resolutions ++
          [match work.run with
           | Outcome.returns => Resolution.value (outputValue work.outputTensors_)
           | Outcome.raises e => Resolution.error e] := by
    cases hrun : work.run with
    | raises e =>
      rcases hhook with h | h <;>
        simp [AsyncWork.execute, AsyncWork.call, AsyncWork.finishWorkGlooError,
          AsyncWork.finish, Future.setError, h, hrun]
    | returns =>
      have hs := hsync hrun
      rcases hhook with h | h <;>
        simp [AsyncWork.execute, AsyncWork.call, AsyncWork.finishWorkGloo, AsyncWork.finish,
          returnFutureWithOutput, Future.markCompleted, h, hrun, hs]
  refine ⟨key.1, key.2, fun hnil => ?_⟩
  rw [key.2, hnil]
  rfl

/-- C1, amended, at a work whose run body raises error 3 behind a pre-hook that returns. -/
theorem execute_resolves_future_once_witness :
    (exampleWork (some Outcome.returns) (Outcome.raises 3) Outcome.returns).execute.1.future_.resolutions.length
      = 1 :=
  (execute_resolves_future_once
      (exampleWork (some Outcome.returns) (Outcome.raises 3) Outcome.returns)
      (Or.inr rfl) (fun h => by cases h)).2.2 rfl

/-- C2, as stated, fails in two ways. A work whose pre-hook raises error 7: the only call made
is the pre-hook, the run body is not run, and the exception leaves `execute`. A work whose run
body returns and whose `synchronize` raises error 9: the calls are the run body and
`synchronize`, the future is not completed, the work is not finished, and the exception leaves
`execute`. -/
theorem execute_stops_when_hook_or_synchronize_raises :
    (exampleWork (some (Outcome.raises 7)) Outcome.returns Outcome.returns).execute.1.trace
        = [Event.recordFunctionBeforeCallback]
      ∧ (exampleWork (some (Outcome.raises 7)) Outcome.returns Outcome.returns).execute.2
        = some 7
      ∧ (exampleWork none Outcome.returns (Outcome.raises 9)).execute.1.trace
        = [Event.run, Event.synchronize]
      ∧ (exampleWork none Outcome.returns (Outcome.raises 9)).execute.1.future_.resolutions = []
      ∧ (exampleWork none Outcome.returns (Outcome.raises 9)).execute.1.completed_ = false
      ∧ (exampleWork none Outcome.returns (Outcome.raises 9)).execute.2 = some 9 := by
  decide

/-- The value `returnFutureWithOutput` completes the future with, case by case: the empty
tensor list when there is no output group, the group when there is one, the list of the groups
when there are several. -/
theorem outputValue_cases {τ : Type} (outputTensors : List (List τ)) :
    (outputTensors = [] → outputValue outputTensors = IValue.tensorList [])
      ∧ (∀ group, outputTensors = [group] → outputValue outputTensors = IValue.tensorList group)
      ∧ (2 ≤ outputTensors.length →
          outputValue outputTensors = IValue.tensorListList outputTensors) := by
  refine ⟨fun h => by rw [h]; rfl, fun group h => by rw [h]; rfl, fun h => ?_⟩
  match outputTensors, h with
  | _ :: _ :: _, _ => rfl

/-- C2, amended: `execute` calls the pre-hook when one is set. A pre-hook that raises ends
`execute` with its exception: nothing else is called and the future and the work are left as
they were. When no pre-hook is set or the pre-hook returns, the run body is called next. If the
body raises `e`, the next and last calls are `setError e` on the future and `finish e`: the
future holds `e`, the work is finished with `e`, `execute` returns normally and neither
`synchronize` nor `markCompleted` is called. If the body returns, `synchronize` is called next.
A `synchronize` that raises ends `execute` with its exception, the future not completed and the
work not finished. When `synchronize` returns, the future is completed with the output value
`v` and then the work is finished without error, in that order, and `execute` returns
normally; `v` is the empty tensor list when the work has no output group, the group when it has
one, and the list of the groups when it has several. -/
theorem execute_call_order {ε τ : Type} (work : AsyncWork ε τ) :
    (∀ e, work.recordFunctionBeforeCallback_ = some (Outcome.raises e) →
        work.execute.1.trace = work.trace ++ [Event.recordFunctionBeforeCallback]
          ∧ work.execute.1.future_ = work.future_
          ∧ work.execute.1.completed_ = work.completed_
          ∧ work.execute.1.exception_ = work.exception_
          ∧ work.execute.2 = some e)
      ∧ (work.recordFunctionBeforeCallback_ = none
          ∨ work.recordFunctionBeforeCallback_ = some Outcome.returns →
        (∀ e, work.run = Outcome.raises e →
          work.execute.1.trace = work.trace
              ++ (work.recordFunctionBeforeCallback_.toList.map
                    fun _ => Event.recordFunctionBeforeCallback)
              ++ [Event.run, Event.setError e, Event.finish (some e)]
            ∧ work.execute.1.future_ = work.future_.setError e
            ∧ work.execute.1.completed_ = true
            ∧ work.execute.1.exception_ = some e
            ∧ work.execute.2 = none)
        ∧ (work.run = Outcome.returns →
            (∀ e, work.synchronize = Outcome.raises e →
              work.execute.1.trace = work.trace
                  ++ (work.recordFunctionBeforeCallback_.toList.map
                        fun _ => Event.recordFunctionBeforeCallback)
                  ++ [Event.run, Event.synchronize]
                ∧ work.execute.1.future_ = work.future_
                ∧ work.execute.1.completed_ = work.completed_
                ∧ work.execute.1.exception_ = work.exception_
                ∧ work.execute.2 = some e)
            ∧ (work.synchronize = Outcome.returns →
                ∃ v,
                  ((work.outputTensors_ = [] → v = IValue.tensorList [])
                    ∧ (∀ group, work.outputTensors_ = [group] → v = IValue.tensorList group)
                    ∧ (2 ≤ work.outputTensors_.length →
                        v = IValue.tensorListList work.outputTensors_))
                  ∧ work.execute.1.trace = work.trace
                      ++ (work.recordFunctionBeforeCallback_.toList.map
                            fun _ => Event.recordFunctionBeforeCallback)
                      ++ [Event.run, Event.synchronize, Event.markCompleted v,
                          Event.finish none]
                  ∧ work.execute.1.future_ = work.future_.markCompleted v
                  ∧ work.execute.1.completed_ = true
                  ∧ work.execute.1.exception_ = none
                  ∧ work.execute.2 = none))) := by
  refine ⟨fun e h => ?_, fun hhook => ⟨fun e hrun => ?_, fun hrun =>
    ⟨fun e hs => ?_, fun hs => ⟨outputValue work.outputTensors_,
      outputValue_cases work.outputTensors_, ?_⟩⟩⟩⟩
  · simp [AsyncWork.execute, AsyncWork.call, h]
  · rcases hhook with h | h <;>
      simp [AsyncWork.execute, AsyncWork.call, AsyncWork.finishWorkGlooError,
        AsyncWork.finish, h, hrun]
  · rcases hhook with h | h <;>
      simp [AsyncWork.execute, AsyncWork.call, h, hrun, hs]
  · rcases hhook with h | h <;>
      simp [AsyncWork.execute, AsyncWork.call, AsyncWork.finishWorkGloo, AsyncWork.finish,
        returnFutureWithOutput, h, hrun, hs]

/-- C2, amended, at two works with the output group `[1, 2]`. With a pre-hook that returns and
a run body that raises error 3, the calls are the pre-hook, the run body, `setError 3` and
`finish 3`. Without a pre-hook and with a run body and a `synchronize` that return, the calls
are the run body, `synchronize`, `markCompleted` with the tensor list `[1, 2]` and `finish`,
and the future holds that list. -/
theorem execute_call_order_witness :
    (exampleWork (some Outcome.returns) (Outcome.raises 3) Outcome.returns).execute.1.trace
        = [Event.recordFunctionBeforeCallback, Event.run, Event.setError 3,
            Event.finish (some 3)]
      ∧ (exampleWork none Outcome.returns Outcome.returns).execute.1.trace
        = [Event.run, Event.synchronize, Event.markCompleted (IValue.tensorList [1, 2]),
            Event.finish none]
      ∧ (exampleWork none Outcome.returns Outcome.returns).execute.1.future_.resolutions
        = [Resolution.value (IValue.tensorList [1, 2])] := by
  have h1 := ((execute_call_order
    (exampleWork (some Outcome.returns) (Outcome.raises 3) Outcome.returns)).2
    (Or.inr rfl)).1 3 rfl
  obtain ⟨v, ⟨-, hone, -⟩, htrace, hfuture, -⟩ :=
    (((execute_call_order (exampleWork none Outcome.returns Outcome.returns)).2
      (Or.inl rfl)).2 rfl).2 rfl
  rw [hone [1, 2] rfl] at htrace hfuture
  exact ⟨h1.1, htrace, by rw [hfuture]; rfl⟩

/-! ### Tags and contexts -/

/-- The tags of `n` successive calls in closed form: call number `i` returns the counter plus `i`,
reduced modulo `2 ^ 32`. -/
theorem nextTags_closed_form {ε τ κ : Type} (n : Nat) (pg : ProcessGroupGloo ε τ κ)
    (hc : pg.collectiveCounter_ < 2 ^ 32) :
    (pg.nextTags n).1 = (List.range n).map fun i => (pg.collectiveCounter_ + i) % 2 ^ 32 := by
  induction n generalizing pg with
  | zero => rfl
  | succ n ih =>
    have hlt : pg.nextTag.2.collectiveCounter_ < 2 ^ 32 := Nat.mod_lt _ (by norm_num)
    have hstep : (pg.nextTags (n + 1)).1 = pg.collectiveCounter_ :: (pg.nextTag.2.nextTags n).1 :=
      rfl
    rw [hstep, ih pg.nextTag.2 hlt, List.range_succ_eq_map, List.map_cons, List.map_map]
    have hhead : (pg.collectiveCounter_ + 0) % 2 ^ 32 = pg.collectiveCounter_ :=
      Nat.mod_eq_of_lt hc
    rw [hhead]
    congr 1
    apply List.map_congr_left
    intro i _
    show ((pg.collectiveCounter_ + 1) % 2 ^ 32 + i) % 2 ^ 32
      = (pg.collectiveCounter_ + (i + 1)) % 2 ^ 32
    rw [Nat.add_mod, Nat.mod_mod, ← Nat.add_mod]
    congr 1
    omega

/-- The tag of call number `i` among `n` successive calls. -/
theorem nextTags_getElem? {ε τ κ : Type} (n i : Nat) (pg : ProcessGroupGloo ε τ κ)
    (hc : pg.collectiveCounter_ < 2 ^ 32) (hi : i < n) :
    (pg.nextTags n).1[i]? = some ((pg.collectiveCounter_ + i) % 2 ^ 32) := by
  rw [nextTags_closed_form n pg hc, List.getElem?_map, List.getElem?_range hi]
  rfl

/-- C3, as stated, fails for `N = 2 ^ 32 + 1`: on a process group whose counter is zero, as the
constructor leaves it, the first call and the last call both return tag `0`. -/
theorem nextTag_repeats_after_wraparound :
    ((exampleGroup [10] 2 (exampleWork none Outcome.returns Outcome.returns)).nextTags
        (2 ^ 32 + 1)).1[0]? = some 0
      ∧ ((exampleGroup [10] 2 (exampleWork none Outcome.returns Outcome.returns)).nextTags
        (2 ^ 32 + 1)).1[2 ^ 32]? = some 0 := by
  constructor
  · exact nextTags_getElem? (2 ^ 32 + 1) 0 _ (by decide) (by norm_num)
  · exact nextTags_getElem? (2 ^ 32 + 1) (2 ^ 32) _ (by decide) (by norm_num)

/-- C3, amended: as long as the counter does not pass `2 ^ 32 - 1`, that is for a counter value
`c` and `N` calls with `c + N ≤ 2 ^ 32`, the `N` successive calls return `c, c + 1, ..., c + N - 1`,
a strictly increasing sequence without a repeated value. -/
theorem nextTags_strictly_increasing {ε τ κ : Type} (n : Nat) (pg : ProcessGroupGloo ε τ κ)
    (hn : pg.collectiveCounter_ + n ≤ 2 ^ 32) :
    (pg.nextTags n).1 = List.range' pg.collectiveCounter_ n
      ∧ (pg.nextTags n).1.Pairwise (fun a b => a < b)
      ∧ (pg.nextTags n).1.Nodup := by
  have heq : (pg.nextTags n).1 = List.range' pg.collectiveCounter_ n := by
    cases n with
    | zero => rfl
    | succ m =>
      rw [nextTags_closed_form (m + 1) pg (by omega), List.range'_eq_map_range]
      apply List.map_congr_left
      intro i hi
      have := List.mem_range.mp hi
      exact Nat.mod_eq_of_lt (by omega)
  refine ⟨heq, ?_, ?_⟩
  · rw [heq]
    exact List.pairwise_lt_range' _ _
  · rw [heq]
    exact List.nodup_range' _ _

/-- C3, amended, at five calls on a process group whose counter is zero. -/
theorem nextTags_strictly_increasing_witness :
    ((exampleGroup [10] 2 (exampleWork none Outcome.returns Outcome.returns)).nextTags 5).1
      = [0, 1, 2, 3, 4] :=
  (nextTags_strictly_increasing 5
    (exampleGroup [10] 2 (exampleWork none Outcome.returns Outcome.returns)) (by decide)).1

/-- The constructor loop, when it succeeds, yields one context per device. -/
theorem connectContexts_length {δ κ : Type} (connectFullMesh : Nat → δ → Except String κ)
    (i : Nat) (devices : List δ) (contexts : List κ)
    (h : connectContexts connectFullMesh i devices = Except.ok contexts) :
    contexts.length = devices.length := by
  induction devices generalizing i contexts with
  | nil =>
    simp only [connectContexts, Except.ok.injEq] at h
    subst h
    rfl
  | cons device devices ih =>
    simp only [connectContexts] at h
    cases hc : connectFullMesh i device with
    | error err => simp [hc] at h
    | ok context =>
      cases hrest : connectContexts connectFullMesh (i + 1) devices with
      | error msg => simp [hc, hrest] at h
      | ok rest =>
        simp only [hc, hrest, Except.ok.injEq] at h
        subst h
        simp [ih (i + 1) rest hrest]

/-- What a successful construction establishes. -/
theorem new_ok {ε τ κ δ : Type} (rank size : Nat) (options : Options δ)
    (connectFullMesh : Nat → δ → Except String κ) (works : WorkPtr → AsyncWork ε τ)
    (pg : ProcessGroupGloo ε τ κ)
    (h : ProcessGroupGloo.new rank size options connectFullMesh works = Except.ok pg) :
    options.devices ≠ [] ∧ pg.contexts_.length = options.devices.length ∧ pg.stop_ = false
      ∧ pg.workQueue_ = [] ∧ pg.collectiveCounter_ = 0
      ∧ pg.workInProgress_ = List.replicate options.threads none := by
  unfold ProcessGroupGloo.new at h
  cases hd : options.devices.isEmpty with
  | true => simp [hd] at h
  | false =>
    simp only [hd, Bool.false_eq_true, if_false] at h
    cases hc : connectContexts connectFullMesh 0 options.devices with
    | error msg => simp [hc] at h
    | ok contexts =>
      simp only [hc, Except.ok.injEq] at h
      subst h
      refine ⟨?_, connectContexts_length _ _ _ _ hc, rfl, rfl, rfl, rfl⟩
      intro hnil
      simp [hnil] at hd

/-- C5, as stated, fails: with a pool of three contexts, tag `2 ^ 32 - 1` maps to the first
context, while the tag three further on, which is `2` in 32-bit unsigned arithmetic, maps to the
third. -/
theorem getContext_differs_across_wraparound :
    ((exampleGroup [20, 21, 22] 2
        (exampleWork none Outcome.returns Outcome.returns)).getContext 4294967295).1 = some 20
      ∧ ((exampleGroup [20, 21, 22] 2
        (exampleWork none Outcome.returns Outcome.returns)).getContext
          ((4294967295 + 3) % 2 ^ 32)).1 = some 22 := by
  decide

/-- C5, amended: for every tag `t` and every pool size `contextCount`, if `t + contextCount`
does not wrap around (it is below `2 ^ 32`) or `contextCount` divides `2 ^ 32`, then `getContext`
applied to `t` and to `t + contextCount`, computed in 32-bit unsigned arithmetic, returns the same
context. -/
theorem getContext_periodic {ε τ κ : Type} (pg : ProcessGroupGloo ε τ κ) (t : Nat)
    (h : t + pg.contexts_.length < 2 ^ 32 ∨ pg.contexts_.length ∣ 2 ^ 32) :
    (pg.getContext ((t + pg.contexts_.length) % 2 ^ 32)).1 = (pg.getContext t).1 := by
  have hidx : (t + pg.contexts_.length) % 2 ^ 32 % pg.contexts_.length
      = t % pg.contexts_.length := by
    rcases h with h | h
    · rw [Nat.mod_eq_of_lt h, Nat.add_mod_right]
    · rw [Nat.mod_mod_of_dvd _ h, Nat.add_mod_right]
  simp only [ProcessGroupGloo.getContext, hidx]

/-- C5, amended, at a pool of three contexts and tag 7. -/
theorem getContext_periodic_witness :
    ((exampleGroup [20, 21, 22] 2
        (exampleWork none Outcome.returns Outcome.returns)).getContext ((7 + 3) % 2 ^ 32)).1
      = ((exampleGroup [20, 21, 22] 2
        (exampleWork none Outcome.returns Outcome.returns)).getContext 7).1 :=
  getContext_periodic
    (exampleGroup [20, 21, 22] 2 (exampleWork none Outcome.returns Outcome.returns)) 7
    (Or.inl (by decide))

/-! ### The worker loop -/

/-- The work `execute` leaves behind when the pre-hook returns and the run body raises: the
handler of the `try` block ran. -/
theorem execute_of_run_raises {ε τ : Type} (work : AsyncWork ε τ) (e : ε)
    (hhook : work.recordFunctionBeforeCallback_ = none
      ∨ work.recordFunctionBeforeCallback_ = some Outcome.returns)
    (hrun : work.run = Outcome.raises e) :
    work.execute.2 = none
      ∧ work.execute.1.future_.resolutions = work.future_.resolutions ++ [Resolution.error e]
      ∧ work.execute.1.completed_ = true
      ∧ work.execute.1.exception_ = some e := by
  rcases hhook with h | h <;>
    simp [AsyncWork.execute, AsyncWork.call, AsyncWork.finishWorkGlooError, AsyncWork.finish,
      Future.setError, h, hrun]

/-- C6, as stated, fails: a worker executes a work whose `synchronize` raises error 9. The
exception leaves `runLoop`: the thread is terminated, its slot still holds the work and the
future of the work is unresolved. -/
theorem runLoop_terminated_by_synchronize :
    ((Engine.start (exampleGroup [10] 1 (exampleWork none Outcome.returns (Outcome.raises 9)))).run
        [Action.enqueue 0, Action.worker 0, Action.worker 0]).workers = [Worker.terminated 0 9]
      ∧ ((Engine.start
            (exampleGroup [10] 1 (exampleWork none Outcome.returns (Outcome.raises 9)))).run
          [Action.enqueue 0, Action.worker 0, Action.worker 0]).pg.workInProgress_ = [some 0]
      ∧ (((Engine.start
            (exampleGroup [10] 1 (exampleWork none Outcome.returns (Outcome.raises 9)))).run
          [Action.enqueue 0, Action.worker 0, Action.worker 0]).pg.works 0).future_.resolutions
          = [] := by
  decide

/-- A pass of a worker that executes a work from which no exception escapes. -/
theorem runLoop_running_of_returns {ε τ κ : Type} (pg : ProcessGroupGloo ε τ κ)
    (workerIndex : Nat) (work : WorkPtr) (h : (pg.works work).execute.2 = none) :
    pg.runLoop workerIndex (Worker.running work)
      = ((pg.store work (pg.works work).execute.1).retire workerIndex
          (pg.works work).execute.1, Worker.waiting) := by
  cases hex : (pg.works work).execute with
  | mk w err =>
    rw [hex] at h
    simp only at h
    subst h
    simp only [ProcessGroupGloo.runLoop, hex]

/-- A pass of a worker that executes a work from which exception `e` escapes. -/
theorem runLoop_running_of_raises {ε τ κ : Type} (pg : ProcessGroupGloo ε τ κ)
    (workerIndex : Nat) (work : WorkPtr) (e : ε) (h : (pg.works work).execute.2 = some e) :
    pg.runLoop workerIndex (Worker.running work)
      = (pg.store work (pg.works work).execute.1, Worker.terminated work e) := by
  cases hex : (pg.works work).execute with
  | mk w err =>
    rw [hex] at h
    simp only at h
    subst h
    simp only [ProcessGroupGloo.runLoop, hex]

/-- A worker at the head of its loop leaves the loop only when `stop_` is set. -/
theorem runLoop_waiting_not_exited {ε τ κ : Type} (pg : ProcessGroupGloo ε τ κ)
    (workerIndex : Nat) (h : pg.stop_ = false) :
    (pg.runLoop workerIndex Worker.waiting).2 ≠ Worker.exited := by
  unfold ProcessGroupGloo.runLoop
  cases hq : pg.workQueue_ <;> simp [h]

/-- C6, amended: a failure of the run body never ends the loop of a worker. For every work whose
pre-hook, if set, returns and whose run body raises `e`, the worker that executes it captures `e`
in the future of the work, marks the work finished with `e`, clears its slot and is back at the
head of its loop, which it leaves only when `stop_` is set. -/
theorem runLoop_survives_run_failure {ε τ κ : Type} (pg : ProcessGroupGloo ε τ κ)
    (workerIndex : Nat) (work : WorkPtr) (e : ε)
    (hhook : (pg.works work).recordFunctionBeforeCallback_ = none
      ∨ (pg.works work).recordFunctionBeforeCallback_ = some Outcome.returns)
    (hrun : (pg.works work).run = Outcome.raises e) :
    (pg.runLoop workerIndex (Worker.running work)).2 = Worker.waiting
      ∧ (pg.runLoop workerIndex (Worker.running work)).1.workInProgress_
          = pg.workInProgress_.set workerIndex none
      ∧ ((pg.runLoop workerIndex (Worker.running work)).1.works work).future_.resolutions
          = (pg.works work).future_.resolutions ++ [Resolution.error e]
      ∧ ((pg.runLoop workerIndex (Worker.running work)).1.works work).completed_ = true
      ∧ ((pg.runLoop workerIndex (Worker.running work)).1.works work).exception_ = some e
      ∧ ((pg.runLoop workerIndex (Worker.running work)).1.stop_ = false →
          ((pg.runLoop workerIndex (Worker.running work)).1.runLoop workerIndex
            Worker.waiting).2 ≠ Worker.exited) := by
  obtain ⟨hnone, hfut, hdone, hexc⟩ := execute_of_run_raises (pg.works work) e hhook hrun
  rw [runLoop_running_of_returns pg workerIndex work hnone]
  refine ⟨rfl, rfl, ?_, ?_, ?_, fun hstop => runLoop_waiting_not_exited _ _ hstop⟩
  · simpa [ProcessGroupGloo.store, ProcessGroupGloo.retire] using hfut
  · simpa [ProcessGroupGloo.store, ProcessGroupGloo.retire] using hdone
  · simpa [ProcessGroupGloo.store, ProcessGroupGloo.retire] using hexc

/-- C6, amended, at a worker that executes a work whose run body raises error 3: the worker is
back at the head of its loop. -/
theorem runLoop_survives_run_failure_witness :
    ((exampleGroup [10] 1 (exampleWork none (Outcome.raises 3) Outcome.returns)).runLoop 0
        (Worker.running 0)).2 = Worker.waiting :=
  (runLoop_survives_run_failure
    (exampleGroup [10] 1 (exampleWork none (Outcome.raises 3) Outcome.returns)) 0 0 3
    (Or.inl rfl) rfl).1

/-! ### The queue -/

/-- One step keeps the works dequeued so far, followed by the queue, equal to the works enqueued
so far. -/
theorem step_dequeued_append_queue {ε τ κ : Type} (s : Engine ε τ κ) (a : Action)
    (h : s.dequeued ++ s.pg.workQueue_ = s.enqueued) :
    (s.step a).dequeued ++ (s.step a).pg.workQueue_ = (s.step a).enqueued := by
  cases a with
  | enqueue work =>
    simp only [Engine.step, ProcessGroupGloo.enqueue, ← h, List.append_assoc]
  | destructor =>
    simp only [Engine.step, Engine.runDestructor]
    split
    · split <;> exact h
    · split <;> exact h
    · split <;> exact h
    · exact h
  | worker workerIndex =>
    simp only [Engine.step]
    cases hw : s.workers[workerIndex]? with
    | none => exact h
    | some w =>
      cases w with
      | waiting =>
        cases hstop : s.pg.stop_ with
        | true => simpa [ProcessGroupGloo.runLoop, hstop] using h
        | false =>
          cases hq : s.pg.workQueue_ with
          | nil => simpa [ProcessGroupGloo.runLoop, hstop, hq] using h
          | cons work rest =>
            simp [ProcessGroupGloo.runLoop, hstop, hq, ProcessGroupGloo.take, ← h]
      | running work =>
        cases hex : (s.pg.works work).execute with
        | mk w err =>
          cases err <;>
            simpa [ProcessGroupGloo.runLoop, hex, ProcessGroupGloo.store,
              ProcessGroupGloo.retire] using h
      | exited => simpa [ProcessGroupGloo.runLoop] using h
      | terminated work e => simpa [ProcessGroupGloo.runLoop] using h

/-- A schedule keeps the works dequeued so far, followed by the queue, equal to the works
enqueued so far. -/
theorem run_dequeued_append_queue {ε τ κ : Type} (schedule : List Action) (s : Engine ε τ κ)
    (h : s.dequeued ++ s.pg.workQueue_ = s.enqueued) :
    (s.run schedule).dequeued ++ (s.run schedule).pg.workQueue_ = (s.run schedule).enqueued := by
  induction schedule generalizing s with
  | nil => exact h
  | cons a schedule ih => exact ih (s.step a) (step_dequeued_append_queue s a h)

/-- C8: works leave the queue in the order they were enqueued. Starting from an empty queue, after
every interleaving of `enqueue` steps, worker steps and destructor steps, the sequence of works
dequeued so far followed by the queue is the sequence of works enqueued so far; in particular the
dequeued sequence is an initial segment of the enqueued sequence. -/
theorem dequeue_order_fifo {ε τ κ : Type} (pg : ProcessGroupGloo ε τ κ)
    (schedule : List Action) (hempty : pg.workQueue_ = []) :
    ((Engine.start pg).run schedule).dequeued ++ ((Engine.start pg).run schedule).pg.workQueue_
        = ((Engine.start pg).run schedule).enqueued
      ∧ ((Engine.start pg).run schedule).dequeued <+: ((Engine.start pg).run schedule).enqueued := by
  have h := run_dequeued_append_queue schedule (Engine.start pg)
    (by simp [Engine.start, hempty])
  exact ⟨h, ⟨_, h⟩⟩

/-- C8 at two workers and three works: works 5, 6 and 7 are enqueued in this order, interleaved
with dequeues by worker 1 and worker 0; the works dequeued are 5 and then 6. -/
theorem dequeue_order_fifo_witness :
    ((Engine.start (exampleGroup [10] 2 (exampleWork none Outcome.returns Outcome.returns))).run
        [Action.enqueue 5, Action.enqueue 6, Action.worker 1, Action.enqueue 7,
          Action.worker 0]).dequeued = [5, 6]
      ∧ ((Engine.start
          (exampleGroup [10] 2 (exampleWork none Outcome.returns Outcome.returns))).run
        [Action.enqueue 5, Action.enqueue 6, Action.worker 1, Action.enqueue 7,
          Action.worker 0]).dequeued
        <+: ((Engine.start
          (exampleGroup [10] 2 (exampleWork none Outcome.returns Outcome.returns))).run
        [Action.enqueue 5, Action.enqueue 6, Action.worker 1, Action.enqueue 7,
          Action.worker 0]).enqueued :=
  ⟨by decide,
    (dequeue_order_fifo
      (exampleGroup [10] 2 (exampleWork none Outcome.returns Outcome.returns))
      [Action.enqueue 5, Action.enqueue 6, Action.worker 1, Action.enqueue 7, Action.worker 0]
      rfl).2⟩

/-! ### Shutdown -/

/-- A pass of a worker through `runLoop` does not write `stop_`. -/
theorem runLoop_stop {ε τ κ : Type} (pg : ProcessGroupGloo ε τ κ) (workerIndex : Nat)
    (w : Worker ε) : (pg.runLoop workerIndex w).1.stop_ = pg.stop_ := by
  cases w with
  | waiting =>
    cases hstop : pg.stop_ with
    | true => simp [ProcessGroupGloo.runLoop, hstop]
    | false =>
      cases hq : pg.workQueue_ <;>
        simp [ProcessGroupGloo.runLoop, hstop, hq, ProcessGroupGloo.take]
  | running work =>
    cases hex : (pg.works work).execute with
    | mk w err =>
      cases err <;>
        simp [ProcessGroupGloo.runLoop, hex, ProcessGroupGloo.store, ProcessGroupGloo.retire]
  | exited => rfl
  | terminated work e => rfl

/-- The only step that sets `stop_` is a step of the destructor, taken with an empty queue. -/
theorem step_stop {ε τ κ : Type} (s : Engine ε τ κ) (a : Action)
    (hbefore : s.pg.stop_ = false) (hafter : (s.step a).pg.stop_ = true) :
    a = Action.destructor ∧ s.pg.workQueue_ = [] ∧ (s.step a).pg.workQueue_ = [] := by
  cases a with
  | enqueue work =>
    simp [Engine.step, ProcessGroupGloo.enqueue, hbefore] at hafter
  | worker workerIndex =>
    simp only [Engine.step] at hafter
    cases hw : s.workers[workerIndex]? with
    | none => simp [hw, hbefore] at hafter
    | some w => simp [hw, runLoop_stop, hbefore] at hafter
  | destructor =>
    simp only [Engine.step, Engine.runDestructor] at hafter ⊢
    cases hd : s.destructor <;> simp only [hd] at hafter ⊢
    · cases hq : s.pg.workQueue_ with
      | nil => simp
      | cons work rest => simp [hq, hbefore] at hafter
    · cases hq : s.pg.workQueue_ with
      | nil => simp
      | cons work rest => simp [hq, hbefore] at hafter
    · split at hafter <;> simp [hbefore] at hafter
    · simp [hbefore] at hafter

/-- As long as the destructor takes no step, `stop_` stays false. -/
theorem run_stop_false {ε τ κ : Type} (schedule : List Action) (s : Engine ε τ κ)
    (hstop : s.pg.stop_ = false) (hsched : ∀ a ∈ schedule, a ≠ Action.destructor) :
    (s.run schedule).pg.stop_ = false := by
  induction schedule generalizing s with
  | nil => exact hstop
  | cons a schedule ih =>
    have hstep : (s.step a).pg.stop_ = false := by
      cases h : (s.step a).pg.stop_ with
      | false => rfl
      | true => exact absurd (step_stop s a hstop h).1 (hsched a (List.mem_cons_self _ _))
    exact ih (s.step a) hstep (fun b hb => hsched b (List.mem_cons_of_mem _ hb))

/-- C10: the stop flag is false when the constructor returns and stays false under every schedule
in which the destructor takes no step; and whenever a step turns it from false to true, that step
is a step of the destructor and the work queue is empty in the state in which the step is
taken, and is still empty after it. -/
theorem stop_set_only_at_teardown_with_empty_queue {ε τ κ δ : Type} (rank size : Nat)
    (options : Options δ) (connectFullMesh : Nat → δ → Except String κ)
    (works : WorkPtr → AsyncWork ε τ) (pg : ProcessGroupGloo ε τ κ)
    (h : ProcessGroupGloo.new rank size options connectFullMesh works = Except.ok pg)
    (schedule : List Action) (a : Action) :
    pg.stop_ = false
      ∧ ((∀ x ∈ schedule, x ≠ Action.destructor) →
          ((Engine.start pg).run schedule).pg.stop_ = false)
      ∧ (((Engine.start pg).run schedule).pg.stop_ = false →
          (((Engine.start pg).run schedule).step a).pg.stop_ = true →
          a = Action.destructor
            ∧ ((Engine.start pg).run schedule).pg.workQueue_ = []
            ∧ (((Engine.start pg).run schedule).step a).pg.workQueue_ = []) := by
  have hstop : pg.stop_ = false := (new_ok rank size options connectFullMesh works pg h).2.2.1
  exact ⟨hstop, fun hsched => run_stop_false schedule (Engine.start pg) hstop hsched,
    fun hbefore hafter => step_stop _ a hbefore hafter⟩

/-- C10 at the process group constructed over one device with two workers: after a work is
enqueued and dequeued the flag is still false, and the destructor step that follows sets it with
an empty queue. -/
theorem stop_set_only_at_teardown_with_empty_queue_witness :
    ((Engine.start (exampleGroup [20] 2 (exampleWork none Outcome.returns Outcome.returns))).run
        [Action.enqueue 0, Action.worker 0]).pg.stop_ = false
      ∧ (((Engine.start
            (exampleGroup [20] 2 (exampleWork none Outcome.returns Outcome.returns))).run
          [Action.enqueue 0, Action.worker 0]).step Action.destructor).pg.stop_ = true
      ∧ ((Engine.start (exampleGroup [20] 2 (exampleWork none Outcome.returns Outcome.returns))).run
          [Action.enqueue 0, Action.worker 0]).pg.workQueue_ = [] :=
  have h := stop_set_only_at_teardown_with_empty_queue 0 1 ⟨[20], 2, 1000⟩
    (fun _ device => Except.ok device)
    (fun _ => exampleWork none Outcome.returns Outcome.returns)
    (exampleGroup [20] 2 (exampleWork none Outcome.returns Outcome.returns)) rfl
    [Action.enqueue 0, Action.worker 0] Action.destructor
  ⟨h.2.1 (by decide), by decide, (h.2.2 (h.2.1 (by decide)) (by decide)).2.1⟩

/-- When no exception leaves `execute`, the work is in a terminal state. -/
theorem execute_completed {ε τ : Type} (work : AsyncWork ε τ) (h : work.execute.2 = none) :
    work.execute.1.completed_ = true := by
  unfold AsyncWork.execute at h ⊢
  cases hhook : work.recordFunctionBeforeCallback_ with
  | none =>
    cases hrun : work.run <;> cases hs : work.synchronize <;>
      simp_all [AsyncWork.call, AsyncWork.finishWorkGloo, AsyncWork.finishWorkGlooError,
        AsyncWork.finish, returnFutureWithOutput]
  | some o =>
    cases o <;> cases hrun : work.run <;> cases hs : work.synchronize <;>
      simp_all [AsyncWork.call, AsyncWork.finishWorkGloo, AsyncWork.finishWorkGlooError,
        AsyncWork.finish, returnFutureWithOutput]

/-- An entry of a list survives the replacement of the entry at `i`, somewhere in the list, when
it differs from the entry replaced or equals the replacement. -/
theorem getElem?_set_survives {α : Type} (l : List α) (i j : Nat) (old new x : α)
    (hi : l[i]? = some old) (hj : l[j]? = some x) (h : x ≠ old ∨ x = new) :
    ∃ k : Nat, (l.set i new)[k]? = some x := by
  have hlt : i < l.length := (List.getElem?_eq_some.mp hi).1
  by_cases hij : i = j
  · subst hij
    have hx : x = new := by
      rcases h with h | h
      · rw [hi] at hj
        exact absurd (Option.some.inj hj).symm h
      · exact h
    exact ⟨i, by rw [List.getElem?_set_self hlt, hx]⟩
  · exact ⟨j, by rw [List.getElem?_set_ne hij, hj]⟩

/-- The entry at `i` after its replacement. -/
theorem getElem?_set_here {α : Type} (l : List α) (i : Nat) (old new : α)
    (hi : l[i]? = some old) : (l.set i new)[i]? = some new :=
  List.getElem?_set_self (List.getElem?_eq_some.mp hi).1

/-- A step of a worker that does not exist changes nothing. -/
theorem step_worker_none {ε τ κ : Type} (s : Engine ε τ κ) (i : Nat)
    (hw : s.workers[i]? = none) : s.step (Action.worker i) = s := by
  simp only [Engine.step, hw]

/-- A step of worker `i`: its pass through `runLoop` gives the next process group and the next
state of the worker; the threads of the other workers and of the destructor stay where they
are. -/
theorem step_worker_some {ε τ κ : Type} (s : Engine ε τ κ) (i : Nat) (w : Worker ε)
    (hw : s.workers[i]? = some w) :
    (s.step (Action.worker i)).pg = (s.pg.runLoop i w).1
      ∧ (s.step (Action.worker i)).workers = s.workers.set i (s.pg.runLoop i w).2
      ∧ (s.step (Action.worker i)).enqueued = s.enqueued
      ∧ (s.step (Action.worker i)).destructor = s.destructor := by
  simp only [Engine.step, hw, and_self]

/-- The pass of a waiting worker when `stop_` is set. -/
theorem runLoop_waiting_stop {ε τ κ : Type} (pg : ProcessGroupGloo ε τ κ) (i : Nat)
    (hstop : pg.stop_ = true) : pg.runLoop i Worker.waiting = (pg, Worker.exited) := by
  simp [ProcessGroupGloo.runLoop, hstop]

/-- The pass of a waiting worker when the queue is empty. -/
theorem runLoop_waiting_empty {ε τ κ : Type} (pg : ProcessGroupGloo ε τ κ) (i : Nat)
    (hstop : pg.stop_ = false) (hq : pg.workQueue_ = []) :
    pg.runLoop i Worker.waiting = (pg, Worker.waiting) := by
  simp [ProcessGroupGloo.runLoop, hstop, hq]

/-- The pass of a waiting worker when the queue holds a work. -/
theorem runLoop_waiting_take {ε τ κ : Type} (pg : ProcessGroupGloo ε τ κ) (i : Nat)
    (work : WorkPtr) (rest : List WorkPtr) (hstop : pg.stop_ = false)
    (hq : pg.workQueue_ = work :: rest) :
    pg.runLoop i Worker.waiting = (pg.take i work rest, Worker.running work) := by
  simp [ProcessGroupGloo.runLoop, hstop, hq]

/-- One step keeps every enqueued work accounted for. -/
theorem step_accounted {ε τ κ : Type} (s : Engine ε τ κ) (a : Action)
    (h : ∀ p ∈ s.enqueued, s.Accounted p) :
    ∀ p ∈ (s.step a).enqueued, (s.step a).Accounted p := by
  cases a with
  | enqueue work =>
    intro p hp
    simp only [Engine.step, List.mem_append, List.mem_singleton] at hp
    simp only [Engine.Accounted, Engine.step, ProcessGroupGloo.enqueue, List.mem_append,
      List.mem_singleton]
    rcases hp with hp | hp
    · rcases h p hp with hq | hc | hr | ht
      · exact Or.inl (Or.inl hq)
      · exact Or.inr (Or.inl hc)
      · exact Or.inr (Or.inr (Or.inl hr))
      · exact Or.inr (Or.inr (Or.inr ht))
    · exact Or.inl (Or.inr hp)
  | destructor =>
    intro p hp
    have hs : (s.step Action.destructor).enqueued = s.enqueued
        ∧ (s.step Action.destructor).pg.workQueue_ = s.pg.workQueue_
        ∧ (s.step Action.destructor).pg.works = s.pg.works
        ∧ (s.step Action.destructor).workers = s.workers := by
      simp only [Engine.step, Engine.runDestructor]
      split
      · split <;> simp
      · split <;> simp
      · split <;> simp
      · simp
    rw [hs.1] at hp
    simpa only [Engine.Accounted, hs.2.1, hs.2.2.1, hs.2.2.2] using h p hp
  | worker i =>
    cases hw : s.workers[i]? with
    | none =>
      rw [step_worker_none s i hw]
      exact h
    | some w =>
      obtain ⟨hpg, hworkers, henq, -⟩ := step_worker_some s i w hw
      intro p hp
      rw [henq] at hp
      have hacc := h p hp
      simp only [Engine.Accounted, hpg, hworkers] at hacc ⊢
      cases w with
      | waiting =>
        cases hstop : s.pg.stop_ with
        | true =>
          rw [runLoop_waiting_stop s.pg i hstop]
          rcases hacc with hq | hc | ⟨j, hj⟩ | ⟨j, e, hj⟩
          · exact Or.inl hq
          · exact Or.inr (Or.inl hc)
          · exact Or.inr (Or.inr (Or.inl
              (getElem?_set_survives _ i j _ _ _ hw hj (Or.inl (by simp)))))
          · obtain ⟨k, hk⟩ := getElem?_set_survives _ i j _ Worker.exited _ hw hj
              (Or.inl (by simp))
            exact Or.inr (Or.inr (Or.inr ⟨k, e, hk⟩))
        | false =>
          cases hqueue : s.pg.workQueue_ with
          | nil =>
            rw [runLoop_waiting_empty s.pg i hstop hqueue]
            rcases hacc with hq | hc | ⟨j, hj⟩ | ⟨j, e, hj⟩
            · exact Or.inl hq
            · exact Or.inr (Or.inl hc)
            · exact Or.inr (Or.inr (Or.inl
                (getElem?_set_survives _ i j _ _ _ hw hj (Or.inl (by simp)))))
            · obtain ⟨k, hk⟩ := getElem?_set_survives _ i j _ Worker.waiting _ hw hj
                (Or.inl (by simp))
              exact Or.inr (Or.inr (Or.inr ⟨k, e, hk⟩))
          | cons work rest =>
            rw [runLoop_waiting_take s.pg i work rest hstop hqueue]
            rcases hacc with hq | hc | ⟨j, hj⟩ | ⟨j, e, hj⟩
            · rw [hqueue, List.mem_cons] at hq
              rcases hq with hq | hq
              · subst hq
                exact Or.inr (Or.inr (Or.inl ⟨i, getElem?_set_here _ i _ _ hw⟩))
              · exact Or.inl hq
            · exact Or.inr (Or.inl hc)
            · exact Or.inr (Or.inr (Or.inl
                (getElem?_set_survives _ i j _ _ _ hw hj (Or.inl (by simp)))))
            · obtain ⟨k, hk⟩ := getElem?_set_survives _ i j _ (Worker.running work) _ hw hj
                (Or.inl (by simp))
              exact Or.inr (Or.inr (Or.inr ⟨k, e, hk⟩))
      | running work =>
        cases hex : (s.pg.works work).execute.2 with
        | none =>
          rw [runLoop_running_of_returns s.pg i work hex]
          have hdone := execute_completed (s.pg.works work) hex
          by_cases hpw : p = work
          · subst hpw
            exact Or.inr (Or.inl (by simp [ProcessGroupGloo.store, ProcessGroupGloo.retire, hdone]))
          · rcases hacc with hq | hc | ⟨j, hj⟩ | ⟨j, e, hj⟩
            · exact Or.inl hq
            · exact Or.inr (Or.inl
                (by simpa [ProcessGroupGloo.store, ProcessGroupGloo.retire, hpw] using hc))
            · exact Or.inr (Or.inr (Or.inl
                (getElem?_set_survives _ i j _ _ _ hw hj (Or.inl (by simp [hpw])))))
            · obtain ⟨k, hk⟩ := getElem?_set_survives _ i j _ Worker.waiting _ hw hj
                (Or.inl (by simp))
              exact Or.inr (Or.inr (Or.inr ⟨k, e, hk⟩))
        | some err =>
          rw [runLoop_running_of_raises s.pg i work err hex]
          by_cases hpw : p = work
          · subst hpw
            exact Or.inr (Or.inr (Or.inr ⟨i, err, getElem?_set_here _ i _ _ hw⟩))
          · rcases hacc with hq | hc | ⟨j, hj⟩ | ⟨j, e, hj⟩
            · exact Or.inl hq
            · exact Or.inr (Or.inl (by simpa [ProcessGroupGloo.store, hpw] using hc))
            · exact Or.inr (Or.inr (Or.inl
                (getElem?_set_survives _ i j _ _ _ hw hj (Or.inl (by simp [hpw])))))
            · obtain ⟨k, hk⟩ := getElem?_set_survives _ i j _ (Worker.terminated work err) _
                hw hj (Or.inl (by simp))
              exact Or.inr (Or.inr (Or.inr ⟨k, e, hk⟩))
      | exited =>
        have hsame : (s.pg.runLoop i Worker.exited) = (s.pg, Worker.exited) := rfl
        rw [hsame]
        rcases hacc with hq | hc | ⟨j, hj⟩ | ⟨j, e, hj⟩
        · exact Or.inl hq
        · exact Or.inr (Or.inl hc)
        · exact Or.inr (Or.inr (Or.inl
            (getElem?_set_survives _ i j _ _ _ hw hj (Or.inl (by simp)))))
        · obtain ⟨k, hk⟩ := getElem?_set_survives _ i j _ Worker.exited _ hw hj
            (Or.inl (by simp))
          exact Or.inr (Or.inr (Or.inr ⟨k, e, hk⟩))
      | terminated work err =>
        have hsame : (s.pg.runLoop i (Worker.terminated work err))
            = (s.pg, Worker.terminated work err) := rfl
        rw [hsame]
        rcases hacc with hq | hc | ⟨j, hj⟩ | ⟨j, e, hj⟩
        · exact Or.inl hq
        · exact Or.inr (Or.inl hc)
        · exact Or.inr (Or.inr (Or.inl
            (getElem?_set_survives _ i j _ _ _ hw hj (Or.inl (by simp)))))
        · obtain ⟨k, hk⟩ := getElem?_set_survives _ i j _ (Worker.terminated work err) _
            hw hj ((Classical.em (Worker.terminated p e = Worker.terminated work err)).symm)
          exact Or.inr (Or.inr (Or.inr ⟨k, e, hk⟩))

/-- A schedule keeps every enqueued work accounted for. -/
theorem run_accounted {ε τ κ : Type} (schedule : List Action) (s : Engine ε τ κ)
    (h : ∀ p ∈ s.enqueued, s.Accounted p) :
    ∀ p ∈ (s.run schedule).enqueued, (s.run schedule).Accounted p := by
  induction schedule generalizing s with
  | nil => exact h
  | cons a schedule ih => exact ih (s.step a) (step_accounted s a h)

/-- A work stays in the list of enqueued works. -/
theorem step_enqueued_mono {ε τ κ : Type} (s : Engine ε τ κ) (a : Action) (p : WorkPtr)
    (hp : p ∈ s.enqueued) : p ∈ (s.step a).enqueued := by
  cases a with
  | enqueue work => simp [Engine.step, hp]
  | destructor =>
    simp only [Engine.step, Engine.runDestructor]
    split
    · split <;> exact hp
    · split <;> exact hp
    · split <;> exact hp
    · exact hp
  | worker i =>
    cases hw : s.workers[i]? with
    | none => rwa [step_worker_none s i hw]
    | some w => rwa [(step_worker_some s i w hw).2.2.1]

/-- A work given to `enqueue` during a schedule is in the list of enqueued works after it. -/
theorem run_enqueued {ε τ κ : Type} (schedule : List Action) (s : Engine ε τ κ) (p : WorkPtr)
    (hp : p ∈ s.enqueued ∨ Action.enqueue p ∈ schedule) : p ∈ (s.run schedule).enqueued := by
  induction schedule generalizing s with
  | nil =>
    rcases hp with hp | hp
    · exact hp
    · cases hp
  | cons a schedule ih =>
    apply ih (s.step a)
    rcases hp with hp | hp
    · exact Or.inl (step_enqueued_mono s a p hp)
    · rcases List.mem_cons.mp hp with hp | hp
      · subst hp
        exact Or.inl (by simp [Engine.step])
      · exact Or.inr hp

/-- As long as the destructor takes no step, it stays where it is. -/
theorem run_destructor_unchanged {ε τ κ : Type} (schedule : List Action) (s : Engine ε τ κ)
    (hsched : ∀ a ∈ schedule, a ≠ Action.destructor) :
    (s.run schedule).destructor = s.destructor := by
  induction schedule generalizing s with
  | nil => rfl
  | cons a schedule ih =>
    have hstep : (s.step a).destructor = s.destructor := by
      cases a with
      | enqueue work => rfl
      | destructor => exact absurd rfl (hsched _ (List.mem_cons_self _ _))
      | worker i =>
        cases hw : s.workers[i]? with
        | none => rw [step_worker_none s i hw]
        | some w => exact (step_worker_some s i w hw).2.2.2
    have := ih (s.step a) (fun b hb => hsched b (List.mem_cons_of_mem _ hb))
    rw [← hstep]
    exact this

/-- A pass of a worker through `runLoop` leaves an empty queue empty. -/
theorem runLoop_queue_empty {ε τ κ : Type} (pg : ProcessGroupGloo ε τ κ) (i : Nat)
    (w : Worker ε) (hq : pg.workQueue_ = []) : (pg.runLoop i w).1.workQueue_ = [] := by
  cases w with
  | waiting =>
    cases hstop : pg.stop_ with
    | true => rw [runLoop_waiting_stop pg i hstop]; exact hq
    | false => rw [runLoop_waiting_empty pg i hstop hq]; exact hq
  | running work =>
    cases hex : (pg.works work).execute.2 with
    | none => rw [runLoop_running_of_returns pg i work hex]; exact hq
    | some err => rw [runLoop_running_of_raises pg i work err hex]; exact hq
  | exited => exact hq
  | terminated work e => exact hq

/-- The only worker state for which `isExited` holds. -/
theorem isExited_iff {ε : Type} (w : Worker ε) : w.isExited = true ↔ w = Worker.exited := by
  cases w <;> simp [Worker.isExited]

/-- Once no more work is enqueued, one step of a worker or of the destructor keeps three facts:
`stop_` is set only with an empty queue; the destructor is past its wait only with `stop_` set;
the destructor has returned only with every worker out of its loop. -/
theorem step_shutdown {ε τ κ : Type} (s : Engine ε τ κ) (a : Action)
    (ha : ∀ p, a ≠ Action.enqueue p)
    (h1 : s.pg.stop_ = true → s.pg.workQueue_ = [])
    (h3 : s.destructor = Destructor.joining ∨ s.destructor = Destructor.returned →
      s.pg.stop_ = true)
    (h4 : s.destructor = Destructor.returned → ∀ w ∈ s.workers, w = Worker.exited) :
    ((s.step a).pg.stop_ = true → (s.step a).pg.workQueue_ = [])
      ∧ ((s.step a).destructor = Destructor.joining ∨ (s.step a).destructor = Destructor.returned →
          (s.step a).pg.stop_ = true)
      ∧ ((s.step a).destructor = Destructor.returned →
          ∀ w ∈ (s.step a).workers, w = Worker.exited) := by
  cases a with
  | enqueue work => exact absurd rfl (ha work)
  | worker i =>
    cases hw : s.workers[i]? with
    | none =>
      rw [step_worker_none s i hw]
      exact ⟨h1, h3, h4⟩
    | some w =>
      obtain ⟨hpg, hworkers, -, hdes⟩ := step_worker_some s i w hw
      rw [hpg, hworkers, hdes, runLoop_stop]
      refine ⟨fun hstop => runLoop_queue_empty _ _ _ (h1 hstop), h3, fun hret x hx => ?_⟩
      have hall := h4 hret
      have hwe : w = Worker.exited := hall w (List.mem_iff_getElem?.mpr ⟨i, hw⟩)
      subst hwe
      rcases List.mem_or_eq_of_mem_set hx with hx | hx
      · exact hall x hx
      · exact hx
  | destructor =>
    simp only [Engine.step, Engine.runDestructor]
    cases hd : s.destructor with
    | notCalled =>
      cases hq : s.pg.workQueue_ with
      | nil => simp
      | cons work rest =>
        simp only [List.isEmpty_cons, Bool.false_eq_true, if_false, hq]
        refine ⟨fun hstop => ?_, fun h => ?_, fun h => ?_⟩
        · have := h1 hstop
          rw [hq] at this
          cases this
        · rcases h with h | h <;> cases h
        · cases h
    | draining =>
      cases hq : s.pg.workQueue_ with
      | nil => simp
      | cons work rest =>
        simp only [List.isEmpty_cons, Bool.false_eq_true, if_false, hq]
        refine ⟨fun hstop => ?_, fun h => ?_, fun h => ?_⟩
        · have := h1 hstop
          rw [hq] at this
          cases this
        · rcases h with h | h <;> cases h
        · cases h
    | joining =>
      have hstop := h3 (Or.inl hd)
      cases hall : s.workers.all Worker.isExited with
      | true =>
        simp only [if_true]
        refine ⟨h1, fun _ => hstop, fun _ x hx => ?_⟩
        exact (isExited_iff x).mp (List.all_eq_true.mp hall x hx)
      | false =>
        simp only [Bool.false_eq_true, if_false]
        refine ⟨h1, fun _ => hstop, fun h => ?_⟩
        rw [hd] at h
        cases h
    | returned =>
      simp only
      exact ⟨h1, fun _ => h3 (Or.inr hd), fun _ => h4 hd⟩

/-- The three facts of `step_shutdown` along a schedule without `enqueue`. -/
theorem run_shutdown {ε τ κ : Type} (schedule : List Action) (s : Engine ε τ κ)
    (hsched : ∀ a ∈ schedule, ∀ p, a ≠ Action.enqueue p)
    (h1 : s.pg.stop_ = true → s.pg.workQueue_ = [])
    (h3 : s.destructor = Destructor.joining ∨ s.destructor = Destructor.returned →
      s.pg.stop_ = true)
    (h4 : s.destructor = Destructor.returned → ∀ w ∈ s.workers, w = Worker.exited) :
    ((s.run schedule).pg.stop_ = true → (s.run schedule).pg.workQueue_ = [])
      ∧ ((s.run schedule).destructor = Destructor.joining
            ∨ (s.run schedule).destructor = Destructor.returned →
          (s.run schedule).pg.stop_ = true)
      ∧ ((s.run schedule).destructor = Destructor.returned →
          ∀ w ∈ (s.run schedule).workers, w = Worker.exited) := by
  induction schedule generalizing s with
  | nil => exact ⟨h1, h3, h4⟩
  | cons a schedule ih =>
    obtain ⟨k1, k3, k4⟩ := step_shutdown s a (hsched a (List.mem_cons_self _ _)) h1 h3 h4
    exact ih (s.step a) (fun b hb => hsched b (List.mem_cons_of_mem _ hb)) k1 k3 k4

/-- C9, as stated, fails with two workers and `K = 1`: the work is enqueued, worker 0 pops it and
is executing it, the destructor finds the queue empty and sets `stop_`, and worker 1, which
holds no work, leaves its loop while the work is not yet in a terminal state. -/
theorem worker_exits_before_work_is_terminal :
    ((Engine.start (exampleGroup [10] 2 (exampleWork none Outcome.returns Outcome.returns))).run
        [Action.enqueue 0, Action.worker 0, Action.destructor, Action.worker 1]).workers
        = [Worker.running 0, Worker.exited]
      ∧ (((Engine.start
            (exampleGroup [10] 2 (exampleWork none Outcome.returns Outcome.returns))).run
          [Action.enqueue 0, Action.worker 0, Action.destructor, Action.worker 1]).pg.works
            0).completed_ = false := by
  decide

/-- C9, amended: shutdown drains before the destructor returns. Take any number of worker
threads, any schedule `enqueues` of callers and workers in which the destructor takes no step,
and any continuation `teardown` in which no further work is enqueued. If the destructor has
returned at the end, then every worker thread has left its loop and every work enqueued, however
many there are, is in a terminal state. -/
theorem teardown_drains_before_destructor_returns {ε τ κ : Type}
    (pg : ProcessGroupGloo ε τ κ) (enqueues teardown : List Action)
    (hstop : pg.stop_ = false)
    (henq : ∀ a ∈ enqueues, a ≠ Action.destructor)
    (htear : ∀ a ∈ teardown, ∀ p, a ≠ Action.enqueue p)
    (hret : (((Engine.start pg).run enqueues).run teardown).destructor = Destructor.returned) :
    (∀ w ∈ (((Engine.start pg).run enqueues).run teardown).workers, w = Worker.exited)
      ∧ ∀ p, Action.enqueue p ∈ enqueues →
          ((((Engine.start pg).run enqueues).run teardown).pg.works p).completed_ = true := by
  have hstop1 : ((Engine.start pg).run enqueues).pg.stop_ = false :=
    run_stop_false enqueues (Engine.start pg) hstop henq
  have hdes1 : ((Engine.start pg).run enqueues).destructor = Destructor.notCalled :=
    run_destructor_unchanged enqueues (Engine.start pg) henq
  obtain ⟨k1, k3, k4⟩ := run_shutdown teardown ((Engine.start pg).run enqueues) htear
    (fun h => by rw [hstop1] at h; cases h)
    (fun h => by rw [hdes1] at h; rcases h with h | h <;> cases h)
    (fun h => by rw [hdes1] at h; cases h)
  have hexited := k4 hret
  have hqueue := k1 (k3 (Or.inr hret))
  refine ⟨hexited, fun p hp => ?_⟩
  have hmem : p ∈ (((Engine.start pg).run enqueues).run teardown).enqueued :=
    run_enqueued teardown _ p (Or.inl (run_enqueued enqueues _ p (Or.inr hp)))
  have hacc := run_accounted teardown _
    (run_accounted enqueues (Engine.start pg) (fun q hq => by cases hq)) p hmem
  rcases hacc with hq | hc | ⟨j, hj⟩ | ⟨j, e, hj⟩
  · rw [hqueue] at hq
    cases hq
  · exact hc
  · have := hexited _ (List.mem_iff_getElem?.mpr ⟨j, hj⟩)
    cases this
  · have := hexited _ (List.mem_iff_getElem?.mpr ⟨j, hj⟩)
    cases this

/-- C9, amended, at two workers and two works, the second of which fails in its run body: when
the destructor has returned both works are in a terminal state. -/
theorem teardown_drains_before_destructor_returns_witness :
    ((((Engine.start (exampleGroup [10] 2 (exampleWork none (Outcome.raises 3) Outcome.returns))).run
        [Action.enqueue 0, Action.enqueue 1]).run
        [Action.worker 0, Action.destructor, Action.worker 1, Action.worker 0, Action.worker 1,
          Action.destructor, Action.worker 0, Action.worker 1, Action.destructor]).pg.works
          1).completed_ = true :=
  (teardown_drains_before_destructor_returns
    (exampleGroup [10] 2 (exampleWork none (Outcome.raises 3) Outcome.returns))
    [Action.enqueue 0, Action.enqueue 1]
    [Action.worker 0, Action.destructor, Action.worker 1, Action.worker 0, Action.worker 1,
      Action.destructor, Action.worker 0, Action.worker 1, Action.destructor]
    rfl (by decide) (by simp) (by decide)).2 1 (by decide)

/-! ### Rejected calls -/

/-- C7 fails for `alltoall_base`: called on a process group whose tag counter and sequence number
are zero and whose queue is empty, with a dense, contiguous tensor on an XPU device as input and
as output, it draws a tag and increments the sequence number before it rejects the device type.
The call raises, nothing is enqueued, and the tag counter is 1 instead of 0. -/
theorem alltoall_base_rejects_device_after_nextTag :
    ((exampleGroup [10] 2
          (AsyncWork.new [] OpType.UNKNOWN 0 none Outcome.returns Outcome.returns)).alltoall_base
        (fun tensors =>
          if tensors.all (fun t => decide (t.layout = Layout.Strided)) then none
          else some "only supports dense tensors")
        ⟨⟨DeviceType.XPU, 0⟩, Layout.Strided, [4], true⟩
        ⟨⟨DeviceType.XPU, 0⟩, Layout.Strided, [4], true⟩
        0 none Outcome.returns Outcome.returns).1
        = Except.error "ProcessGroupGloo::alltoall_base: unsupported device type xpu"
      ∧ ((exampleGroup [10] 2
          (AsyncWork.new [] OpType.UNKNOWN 0 none Outcome.returns Outcome.returns)).alltoall_base
        (fun tensors =>
          if tensors.all (fun t => decide (t.layout = Layout.Strided)) then none
          else some "only supports dense tensors")
        ⟨⟨DeviceType.XPU, 0⟩, Layout.Strided, [4], true⟩
        ⟨⟨DeviceType.XPU, 0⟩, Layout.Strided, [4], true⟩
        0 none Outcome.returns Outcome.returns).2.collectiveCounter_ = 1
      ∧ ((exampleGroup [10] 2
          (AsyncWork.new [] OpType.UNKNOWN 0 none Outcome.returns Outcome.returns)).alltoall_base
        (fun tensors =>
          if tensors.all (fun t => decide (t.layout = Layout.Strided)) then none
          else some "only supports dense tensors")
        ⟨⟨DeviceType.XPU, 0⟩, Layout.Strided, [4], true⟩
        ⟨⟨DeviceType.XPU, 0⟩, Layout.Strided, [4], true⟩
        0 none Outcome.returns Outcome.returns).2.workQueue_ = [] := by
  refine ⟨?_, ?_, ?_⟩
  · rfl
  · decide
  · decide

/-! ### `AsyncWork::result` -/

/-- C11: `result()` raises if and only if the work is not completed or has more than one output
tensor group. -/
theorem result_raises_iff {ε τ : Type} (work : AsyncWork ε τ) :
    (∃ msg, work.result = Except.error msg)
      ↔ (work.isCompleted = false ∨ 1 < work.outputTensors_.length) := by
  unfold AsyncWork.result
  cases hc : work.isCompleted with
  | false => simp
  | true =>
    cases hout : work.outputTensors_ with
    | nil => simp
    | cons group rest =>
      cases rest with
      | nil => simp
      | cons group' rest' => simp

/-- C12: when `result()` succeeds, the work has no output group and the empty tensor list is
returned, or the work has exactly one output group and that group is returned as it is. -/
theorem result_returns_single_group {ε τ : Type} (work : AsyncWork ε τ) (tensors : List τ)
    (h : work.result = Except.ok tensors) :
    (work.outputTensors_ = [] → tensors = [])
      ∧ (∀ group, work.outputTensors_ = [group] → tensors = group)
      ∧ (work.outputTensors_ = [] ∨ work.outputTensors_ = [tensors]) := by
  unfold AsyncWork.result at h
  cases hc : work.isCompleted with
  | false => simp [hc] at h
  | true =>
    cases hout : work.outputTensors_ with
    | nil =>
      simp [hc, hout] at h
      simp [h]
    | cons group rest =>
      cases rest with
      | nil =>
        simp [hc, hout] at h
        simp [h]
      | cons group' rest' => simp [hc, hout] at h

/-- C12 at a work with the single output group `[1, 2]`, after it was executed. -/
theorem result_returns_single_group_witness :
    (exampleWork none Outcome.returns Outcome.returns).execute.1.result = Except.ok [1, 2]
      ∧ ((exampleWork none Outcome.returns Outcome.returns).execute.1.outputTensors_ = []
        ∨ (exampleWork none Outcome.returns Outcome.returns).execute.1.outputTensors_
            = [[1, 2]]) :=
  ⟨rfl,
    (result_returns_single_group
      (exampleWork none Outcome.returns Outcome.returns).execute.1 [1, 2] rfl).2.2⟩

/-! ### `getRemainingTime` -/

/-- C17: with `waitAllRanks` set, `getRemainingTime` returns the timeout unchanged, whatever the
start time and the clock. Without it, let `r` be the timeout minus the time elapsed since the
start, truncated to whole milliseconds: the result is `r` if `r > 0` and `-1` if `r ≤ 0`. -/
theorem getRemainingTime_value (now startTime timeout : Int) :
    getRemainingTime now startTime timeout true = timeout
      ∧ (0 < timeout - Int.tdiv (now - startTime) ticksPerMillisecond →
          getRemainingTime now startTime timeout false
            = timeout - Int.tdiv (now - startTime) ticksPerMillisecond)
      ∧ (timeout - Int.tdiv (now - startTime) ticksPerMillisecond ≤ 0 →
          getRemainingTime now startTime timeout false = -1) := by
  refine ⟨rfl, fun h => ?_, fun h => ?_⟩
  · simp only [getRemainingTime, Bool.false_eq_true, if_false]
    rw [if_neg (not_le.mpr h)]
  · simp only [getRemainingTime, Bool.false_eq_true, if_false]
    rw [if_pos h]

/-- C17 at a timeout of 1000 ms: after 250.9 ms the remaining time is 750 ms, and after 1000 ms
it is the sentinel `-1`. -/
theorem getRemainingTime_value_witness :
    getRemainingTime 250900000 0 1000 false = 750
      ∧ getRemainingTime 1000000000 0 1000 false = -1
      ∧ getRemainingTime 1000000000 0 1000 true = 1000 :=
  ⟨((getRemainingTime_value 250900000 0 1000).2.1 (by decide)).trans (by decide),
    (getRemainingTime_value 1000000000 0 1000).2.2 (by decide),
    (getRemainingTime_value 1000000000 0 1000).1⟩

/-! ### `SendWork::wait` and `RecvWork::wait` -/

/-- C20: complete, then throw. If the wait on the buffer raises `e`, `SendWork::wait` and
`RecvWork::wait` leave the work completed with `e` stored and raise `e`; and whenever an
exception leaves `wait`, the work it leaves behind is completed. -/
theorem wait_completes_then_throws (sendWork : SendWork) (recvWork : RecvWork) (timeout : Int) :
    (∀ e,
        (if timeout = kNoTimeout then sendWork.buffer_.waitSend none
          else sendWork.buffer_.waitSend (some timeout)) = Except.error e →
        (sendWork.wait timeout).2 = Except.error e
          ∧ (sendWork.wait timeout).1.completed_ = true
          ∧ (sendWork.wait timeout).1.exception_ = some e)
      ∧ (∀ e,
        (if timeout = kNoTimeout then recvWork.buffer_.waitRecv none
          else recvWork.buffer_.waitRecv (some timeout)) = Except.error e →
        (recvWork.wait timeout).2 = Except.error e
          ∧ (recvWork.wait timeout).1.completed_ = true
          ∧ (recvWork.wait timeout).1.exception_ = some e)
      ∧ (∀ e, (sendWork.wait timeout).2 = Except.error e →
          (sendWork.wait timeout).1.completed_ = true)
      ∧ (∀ e, (recvWork.wait timeout).2 = Except.error e →
          (recvWork.wait timeout).1.completed_ = true) := by
  refine ⟨fun e h => ?_, fun e h => ?_, fun e _ => ?_, fun e _ => ?_⟩
  · simp [SendWork.wait, finishAndThrow, h]
  · simp [RecvWork.wait, finishAndThrow, h]
  · unfold SendWork.wait finishAndThrow
    simp only
    split <;> rfl
  · unfold RecvWork.wait finishAndThrow
    simp only
    split <;> rfl

/-- C20 at a send whose buffer wait raises "timed out": `wait` raises it and leaves the work
completed. -/
theorem wait_completes_then_throws_witness :
    ((SendWork.new ⟨⟨DeviceType.CPU, 0⟩, Layout.Strided, [1], true⟩
        ⟨fun _ _ => none, fun _ _ => none, fun _ => Except.error "timed out",
          fun _ => Except.error "timed out"⟩ 1).wait 500).2 = Except.error "timed out"
      ∧ ((SendWork.new ⟨⟨DeviceType.CPU, 0⟩, Layout.Strided, [1], true⟩
        ⟨fun _ _ => none, fun _ _ => none, fun _ => Except.error "timed out",
          fun _ => Except.error "timed out"⟩ 1).wait 500).1.completed_ = true :=
  have h := (wait_completes_then_throws
    (SendWork.new ⟨⟨DeviceType.CPU, 0⟩, Layout.Strided, [1], true⟩
      ⟨fun _ _ => none, fun _ _ => none, fun _ => Except.error "timed out",
        fun _ => Except.error "timed out"⟩ 1)
    (RecvWork.new ⟨⟨DeviceType.CPU, 0⟩, Layout.Strided, [1], true⟩
      ⟨fun _ _ => none, fun _ _ => none, fun _ => Except.error "timed out",
        fun _ => Except.error "timed out"⟩ OpType.RECV 1) 500).1 "timed out" rfl
  ⟨h.1, h.2.1⟩

/-! ### The wait loop of the monitored barrier -/

/-- In collect-all mode the loop waits on every work with the full timeout, never raises, and
leaves in `processedRanks` the ranks whose wait did not raise, in order. -/
theorem waitLoopBody_collect_all (rank : Nat) (timeout startTime : Int) (now : Nat → Int)
    (works : List (Nat × (Int → WaitResult))) (processedRanks : List Nat) :
    (waitLoopBody rank timeout true startTime now works processedRanks).calls
        = works.map (fun w => ⟨w.1, timeout, w.2 timeout⟩)
      ∧ (waitLoopBody rank timeout true startTime now works processedRanks).processedRanks
        = processedRanks
          ++ (works.filter fun w => !(w.2 timeout).isRaised).map Prod.fst
      ∧ (waitLoopBody rank timeout true startTime now works processedRanks).raised = none := by
  induction works generalizing processedRanks with
  | nil => simp [waitLoopBody]
  | cons w works ih =>
    obtain ⟨workRank, wait⟩ := w
    cases hw : wait timeout with
    | raised what =>
      obtain ⟨h1, h2, h3⟩ := ih processedRanks
      simp [waitLoopBody, getRemainingTime, hw, h1, h2, h3, WaitResult.isRaised]
    | returned completed =>
      obtain ⟨h1, h2, h3⟩ := ih (processedRanks ++ [workRank])
      simp [waitLoopBody, getRemainingTime, hw, h1, h2, h3, WaitResult.isRaised]

/-- In fail-fast mode a call of `wait` that raised is the last call made, every call before it
returned, and the loop raises a message that names the rank of that call and carries the
original `what()`. -/
theorem waitLoopBody_fail_fast_raised (rank : Nat) (timeout startTime : Int) (now : Nat → Int)
    (works : List (Nat × (Int → WaitResult))) (processedRanks : List Nat)
    (c : WaitCall) (what : String)
    (hc : c ∈ (waitLoopBody rank timeout false startTime now works processedRanks).calls)
    (hraised : c.result = WaitResult.raised what) :
    (∃ before,
        (waitLoopBody rank timeout false startTime now works processedRanks).calls
            = before ++ [c]
          ∧ ∀ d ∈ before, ∃ completed, d.result = WaitResult.returned completed)
      ∧ (waitLoopBody rank timeout false startTime now works processedRanks).raised
        = some ("[Rank 0]: Rank " ++ toString c.rank ++ " failed to pass monitoredBarrier in "
            ++ toString timeout ++ " ms" ++ "\n Original exception: \n" ++ what) := by
  induction works generalizing processedRanks with
  | nil => simp [waitLoopBody] at hc
  | cons w works ih =>
    obtain ⟨workRank, wait⟩ := w
    cases hchk : checkRemainingTime timeout
        (getRemainingTime (now workRank) startTime timeout false) processedRanks rank with
    | some msg => simp [waitLoopBody, hchk] at hc
    | none =>
      cases hw : wait (getRemainingTime (now workRank) startTime timeout false) with
      | raised what' =>
        simp only [waitLoopBody, hchk, hw, Bool.not_false, if_true, Bool.false_eq_true,
          if_false, List.mem_singleton] at hc ⊢
        subst hc
        simp only [WaitResult.raised.injEq] at hraised
        subst hraised
        exact ⟨⟨[], by simp⟩, rfl⟩
      | returned completed =>
        simp only [waitLoopBody, hchk, hw, Bool.not_false, if_true, List.singleton_append,
          List.mem_cons] at hc ⊢
        rcases hc with hc | hc
        · rw [hc] at hraised
          cases hraised
        · obtain ⟨⟨before, hcalls, hbefore⟩, hmsg⟩ := ih (processedRanks ++ [workRank]) hc
          refine ⟨⟨_ :: before, by rw [hcalls]; rfl, ?_⟩, hmsg⟩
          intro d hd
          rcases List.mem_cons.mp hd with hd | hd
          · exact ⟨completed, by rw [hd]⟩
          · exact hbefore d hd

/-- In either mode the ranks of the calls of `wait` made are an initial segment of the ranks of
the works, in their order. -/
theorem waitLoopBody_calls_ranks (rank : Nat) (timeout : Int) (waitAllRanks : Bool)
    (startTime : Int) (now : Nat → Int) (works : List (Nat × (Int → WaitResult)))
    (processedRanks : List Nat) :
    (waitLoopBody rank timeout waitAllRanks startTime now works processedRanks).calls.map
        WaitCall.rank <+: works.map Prod.fst := by
  induction works generalizing processedRanks with
  | nil => simp [waitLoopBody]
  | cons w works ih =>
    obtain ⟨workRank, wait⟩ := w
    cases waitAllRanks with
    | true =>
      rw [(waitLoopBody_collect_all rank timeout startTime now _ processedRanks).1,
        List.map_map]
      exact List.prefix_refl _
    | false =>
      cases hchk : checkRemainingTime timeout
          (getRemainingTime (now workRank) startTime timeout false) processedRanks rank with
      | some msg => simp [waitLoopBody, hchk]
      | none =>
        cases hw : wait (getRemainingTime (now workRank) startTime timeout false) with
        | raised what' => simp [waitLoopBody, hchk, hw]
        | returned completed =>
          simp only [waitLoopBody, hchk, hw, Bool.not_false, if_true, List.singleton_append,
            List.map_cons]
          exact (List.prefix_cons_inj _).mpr (ih (processedRanks ++ [workRank]))

/-- The check after the loop changes neither the calls made nor `processedRanks`. -/
theorem waitLoop_calls (size rank : Nat) (timeout : Int) (waitAllRanks : Bool)
    (startTime : Int) (now : Nat → Int) (works : List (Nat × (Int → WaitResult))) :
    (waitLoop size rank timeout waitAllRanks startTime now works).calls
      = (waitLoopBody rank timeout waitAllRanks startTime now works []).calls := by
  unfold waitLoop
  simp only
  split
  · rfl
  · split
    · split <;> rfl
    · rfl

/-- C14: in collect-all mode on rank 0, for every world size and every behaviour of the waits,
with `F` the ranks from 1 to `size - 1` whose wait raises: the wait loop waits on every rank,
in ascending order and each with the full timeout; it raises if and only if `F` is not empty;
and the message it raises lists the ranks of `F`, each once and in ascending order. -/
theorem waitLoop_collect_all_reports_failed_ranks (size rank : Nat) (timeout startTime : Int)
    (now : Nat → Int) (wait : Nat → Int → WaitResult) (hsize : 1 ≤ size) :
    (waitLoop size rank timeout true startTime now (rankWorks size wait)).calls
        = (List.range' 1 (size - 1)).map (fun r => ⟨r, timeout, wait r timeout⟩)
      ∧ (failingRanks size wait timeout = [] →
          (waitLoop size rank timeout true startTime now (rankWorks size wait)).raised = none)
      ∧ (failingRanks size wait timeout ≠ [] →
          (waitLoop size rank timeout true startTime now (rankWorks size wait)).raised
            = some ("[Rank 0]: Ranks " ++ joinRanks (failingRanks size wait timeout)
                ++ " failed to pass monitoredBarrier in " ++ toString timeout ++ " ms"))
      ∧ (failingRanks size wait timeout).Pairwise (fun a b => a < b)
      ∧ (∀ r, r ∈ failingRanks size wait timeout
          ↔ (1 ≤ r ∧ r < size ∧ (wait r timeout).isRaised = true)) := by
  obtain ⟨hcalls, hproc, hnone⟩ :=
    waitLoopBody_collect_all rank timeout startTime now (rankWorks size wait) []
  have hprocessed :
      (waitLoopBody rank timeout true startTime now (rankWorks size wait) []).processedRanks
        = (List.range' 1 (size - 1)).filter fun r => !(wait r timeout).isRaised := by
    rw [hproc, rankWorks, List.filter_map, List.map_map]
    simp only [List.nil_append]
    exact List.map_id _
  have hfailed :
      ((List.range' 1 (size - 1)).filter fun i =>
          decide (i ∉ (List.range' 1 (size - 1)).filter fun r => !(wait r timeout).isRaised))
        = failingRanks size wait timeout := by
    unfold failingRanks
    apply List.filter_congr
    intro r hr
    cases h : (wait r timeout).isRaised <;> simp [List.mem_filter, hr, h]
  refine ⟨?_, ?_, ?_, ?_, ?_⟩
  · rw [waitLoop_calls, hcalls, rankWorks, List.map_map]
    rfl
  · intro hF
    have hall : ∀ r ∈ List.range' 1 (size - 1), (!(wait r timeout).isRaised) = true := by
      intro r hr
      have := List.filter_eq_nil_iff.mp hF r hr
      simpa using this
    have hlen :
        (((List.range' 1 (size - 1)).filter fun r => !(wait r timeout).isRaised).length : Int)
          = (size : Int) - 1 := by
      rw [List.filter_length_eq_length.mpr hall, List.length_range']
      omega
    unfold waitLoop
    simp only [hnone, hprocessed, hlen]
    simpa using hnone
  · intro hF
    have hex : ∃ r ∈ List.range' 1 (size - 1), ¬ (!(wait r timeout).isRaised) = true := by
      by_contra hcon
      push_neg at hcon
      apply hF
      apply List.filter_eq_nil_iff.mpr
      intro r hr
      have := hcon r hr
      simpa using this
    have hlt := List.length_filter_lt_length_iff_exists.mpr hex
    rw [List.length_range'] at hlt
    have hlen :
        (((List.range' 1 (size - 1)).filter fun r => !(wait r timeout).isRaised).length : Int)
          ≠ (size : Int) - 1 := by
      omega
    unfold waitLoop
    simp only [hnone, hprocessed, hfailed]
    simp [hlen, hF]
  · unfold failingRanks
    exact List.Pairwise.filter _ (List.pairwise_lt_range' _ _)
  · intro r
    simp only [failingRanks, List.mem_filter, List.mem_range'_1]
    constructor
    · rintro ⟨⟨h1, h2⟩, h3⟩
      exact ⟨h1, by omega, h3⟩
    · rintro ⟨h1, h2, h3⟩
      exact ⟨⟨h1, by omega⟩, h3⟩

/-- C14 at four ranks with rank 2 silent: the message lists exactly rank 2. -/
theorem waitLoop_collect_all_reports_failed_ranks_witness :
    (waitLoop 4 0 1000 true 0 (fun _ => 0)
        (rankWorks 4 fun r _ =>
          if r = 2 then WaitResult.raised "timed out" else WaitResult.returned true)).raised
      = some "[Rank 0]: Ranks 2 failed to pass monitoredBarrier in 1000 ms" :=
  ((waitLoop_collect_all_reports_failed_ranks 4 0 1000 0 (fun _ => 0)
      (fun r _ => if r = 2 then WaitResult.raised "timed out" else WaitResult.returned true)
      (by decide)).2.2.1 (by decide)).trans rfl

/-- An initial segment of the ranks `s, s + 1, ...` is determined by its length. -/
theorem prefix_range'_eq (l : List Nat) (s m : Nat) (h : l <+: List.range' s m) :
    l = List.range' s l.length := by
  obtain ⟨t, ht⟩ := h
  have hlen : l.length + t.length = m := by
    have := congrArg List.length ht
    simpa using this
  rw [← hlen, Nat.add_comm, ← List.range'_append_1] at ht
  exact (List.append_inj ht (by simp)).1

/-- In fail-fast mode the check after the loop does nothing. -/
theorem waitLoop_fail_fast_eq (size rank : Nat) (timeout startTime : Int) (now : Nat → Int)
    (works : List (Nat × (Int → WaitResult))) :
    waitLoop size rank timeout false startTime now works
      = waitLoopBody rank timeout false startTime now works [] := by
  unfold waitLoop
  simp only [Bool.false_and, Bool.false_eq_true, if_false]
  split <;> rfl

/-- The function `checkRemainingTime` returns when the remaining time is not negative. -/
theorem checkRemainingTime_of_nonneg (timeout remaining : Int) (processed : List Nat)
    (current : Nat) (h : 0 ≤ remaining) :
    checkRemainingTime timeout remaining processed current = none := by
  unfold checkRemainingTime
  simp only
  rw [if_neg (by omega)]

/-- In fail-fast mode every call of `wait` the loop makes is the call on the work of its rank
with the remaining time computed for that rank. -/
theorem waitLoopBody_fail_fast_calls (rank : Nat) (timeout startTime : Int) (now : Nat → Int)
    (works : List (Nat × (Int → WaitResult))) (processedRanks : List Nat) :
    ∀ c ∈ (waitLoopBody rank timeout false startTime now works processedRanks).calls,
      ∃ w ∈ works, c.rank = w.1
        ∧ c.timeout = getRemainingTime (now w.1) startTime timeout false
        ∧ c.result = w.2 c.timeout := by
  induction works generalizing processedRanks with
  | nil => simp [waitLoopBody]
  | cons w works ih =>
    obtain ⟨workRank, wait⟩ := w
    intro c hc
    cases hchk : checkRemainingTime timeout
        (getRemainingTime (now workRank) startTime timeout false) processedRanks rank with
    | some msg => simp [waitLoopBody, hchk] at hc
    | none =>
      cases hw : wait (getRemainingTime (now workRank) startTime timeout false) with
      | raised what =>
        simp only [waitLoopBody, hchk, hw, Bool.not_false, if_true, Bool.false_eq_true,
          if_false, List.mem_singleton] at hc
        subst hc
        exact ⟨_, List.mem_cons_self _ _, rfl, rfl, hw.symm⟩
      | returned completed =>
        simp only [waitLoopBody, hchk, hw, Bool.not_false, if_true, List.singleton_append,
          List.mem_cons] at hc
        rcases hc with hc | hc
        · subst hc
          exact ⟨_, List.mem_cons_self _ _, rfl, rfl, hw.symm⟩
        · obtain ⟨w, hmem, h⟩ := ih (processedRanks ++ [workRank]) c hc
          exact ⟨w, List.mem_cons_of_mem _ hmem, h⟩

/-- In fail-fast mode a loop that ends without raising has waited on every work, in order, and
every one of its waits returned. -/
theorem waitLoopBody_fail_fast_complete (rank : Nat) (timeout startTime : Int)
    (now : Nat → Int) (works : List (Nat × (Int → WaitResult))) (processedRanks : List Nat)
    (hnone : (waitLoopBody rank timeout false startTime now works processedRanks).raised
      = none) :
    (waitLoopBody rank timeout false startTime now works processedRanks).calls.map
        WaitCall.rank = works.map Prod.fst
      ∧ ∀ c ∈ (waitLoopBody rank timeout false startTime now works processedRanks).calls,
          ∃ completed, c.result = WaitResult.returned completed := by
  induction works generalizing processedRanks with
  | nil => simp [waitLoopBody]
  | cons w works ih =>
    obtain ⟨workRank, wait⟩ := w
    cases hchk : checkRemainingTime timeout
        (getRemainingTime (now workRank) startTime timeout false) processedRanks rank with
    | some msg => simp [waitLoopBody, hchk] at hnone
    | none =>
      cases hw : wait (getRemainingTime (now workRank) startTime timeout false) with
      | raised what => simp [waitLoopBody, hchk, hw] at hnone
      | returned completed =>
        simp only [waitLoopBody, hchk, hw, Bool.not_false, if_true, List.singleton_append,
          List.map_cons, List.mem_cons] at hnone ⊢
        obtain ⟨h1, h2⟩ := ih (processedRanks ++ [workRank]) hnone
        refine ⟨by rw [h1], fun c hc => ?_⟩
        rcases hc with hc | hc
        · exact ⟨completed, by rw [hc]⟩
        · exact h2 c hc

/-- In fail-fast mode, when the works before that of rank `k` are waited on within the budget
and their waits return, and the wait on rank `k`, made within the budget, raises, the loop makes
exactly the waits on these works and on rank `k`, and raises a message that names rank `k`. -/
theorem waitLoopBody_fail_fast_first_failure (rank : Nat) (timeout startTime : Int)
    (now : Nat → Int) (before after : List (Nat × (Int → WaitResult))) (k : Nat)
    (wait : Int → WaitResult) (what : String) (processedRanks : List Nat)
    (hbefore : ∀ w ∈ before, 0 ≤ getRemainingTime (now w.1) startTime timeout false
      ∧ ∃ completed, w.2 (getRemainingTime (now w.1) startTime timeout false)
        = WaitResult.returned completed)
    (hbudget : 0 ≤ getRemainingTime (now k) startTime timeout false)
    (hraised : wait (getRemainingTime (now k) startTime timeout false)
      = WaitResult.raised what) :
    (waitLoopBody rank timeout false startTime now (before ++ (k, wait) :: after)
        processedRanks).calls.map WaitCall.rank = before.map Prod.fst ++ [k]
      ∧ (waitLoopBody rank timeout false startTime now (before ++ (k, wait) :: after)
        processedRanks).raised
        = some ("[Rank 0]: Rank " ++ toString k ++ " failed to pass monitoredBarrier in "
            ++ toString timeout ++ " ms" ++ "\n Original exception: \n" ++ what) := by
  induction before generalizing processedRanks with
  | nil =>
    simp [waitLoopBody, checkRemainingTime_of_nonneg _ _ _ _ hbudget, hraised]
  | cons w before ih =>
    obtain ⟨workRank, wait'⟩ := w
    have hfirst := hbefore (workRank, wait') (List.mem_cons_self _ _)
    simp only at hfirst
    obtain ⟨hb, completed, hw⟩ := hfirst
    have hrest := ih (processedRanks ++ [workRank])
      (fun w hmem => hbefore w (List.mem_cons_of_mem _ hmem))
    simp only [List.cons_append, waitLoopBody, checkRemainingTime_of_nonneg _ _ _ _ hb, hw,
      Bool.not_false, if_true, List.singleton_append, List.map_cons]
    exact ⟨congrArg (List.cons workRank) hrest.1, hrest.2⟩

/-- In fail-fast mode, when every work is waited on within the budget and every wait returns,
the loop waits on every work, in order, and does not raise. -/
theorem waitLoopBody_fail_fast_all_return (rank : Nat) (timeout startTime : Int)
    (now : Nat → Int) (works : List (Nat × (Int → WaitResult))) (processedRanks : List Nat)
    (hworks : ∀ w ∈ works, 0 ≤ getRemainingTime (now w.1) startTime timeout false
      ∧ ∃ completed, w.2 (getRemainingTime (now w.1) startTime timeout false)
        = WaitResult.returned completed) :
    (waitLoopBody rank timeout false startTime now works processedRanks).calls.map
        WaitCall.rank = works.map Prod.fst
      ∧ (waitLoopBody rank timeout false startTime now works processedRanks).raised
        = none := by
  induction works generalizing processedRanks with
  | nil => simp [waitLoopBody]
  | cons w works ih =>
    obtain ⟨workRank, wait'⟩ := w
    have hfirst := hworks (workRank, wait') (List.mem_cons_self _ _)
    simp only at hfirst
    obtain ⟨hb, completed, hw⟩ := hfirst
    have hrest := ih (processedRanks ++ [workRank])
      (fun w hmem => hworks w (List.mem_cons_of_mem _ hmem))
    simp only [waitLoopBody, checkRemainingTime_of_nonneg _ _ _ _ hb, hw,
      Bool.not_false, if_true, List.singleton_append, List.map_cons]
    exact ⟨congrArg (List.cons workRank) hrest.1, hrest.2⟩

/-- The ranks from 1 to `size - 1`, split at rank `k`. -/
theorem range'_split (size k : Nat) (hk1 : 1 ≤ k) (hk2 : k < size) :
    List.range' 1 (size - 1) = List.range' 1 (k - 1) ++ k :: List.range' (k + 1) (size - 1 - k)
      ∧ List.range' 1 (k - 1) ++ [k] = List.range' 1 k := by
  have h1 : size - 1 = (size - 1 - k + 1) + (k - 1) := by omega
  have h2 : 1 + (k - 1) = k := by omega
  refine ⟨?_, ?_⟩
  · nth_rewrite 1 [h1]
    rw [← List.range'_append_1, h2, List.range'_succ]
  · have h3 : List.range' 1 k = List.range' 1 (1 + (k - 1)) := by rw [h2]
    rw [h3, ← List.range'_append_1, h2]
    rfl

/-- C15: in fail-fast mode rank 0 waits on the other ranks in ascending order of rank, each wait
being the wait on the work of that rank with the time remaining, and it raises at the first rank
whose wait raises. For every world size, clock and behaviour of the waits: (1) the ranks waited
on are an initial segment of `1, ..., size - 1`; (2) every call made is the wait of its rank,
given the remaining time; (3) a loop that does not raise has waited on every rank from 1 to
`size - 1` and each wait returned; (4) when every rank is waited on within the budget and every
wait returns, the loop waits on all of them and does not raise; (5) when the waits on the ranks
below `k` are made within the budget and return and the wait on rank `k`, made within the
budget, raises, the ranks waited on are exactly `1, ..., k` and the loop raises a message that
names rank `k` and carries the original `what()`; (6) a call of `wait` that raised, on rank
`k`, is the last one: the ranks waited on are exactly `1, ..., k`, every wait before it
returned, none is made on a rank greater than `k`, and the message raised names rank `k`. -/
theorem waitLoop_fail_fast_raises_at_first_failure (size rank : Nat)
    (timeout startTime : Int) (now : Nat → Int) (wait : Nat → Int → WaitResult) :
    ((waitLoop size rank timeout false startTime now (rankWorks size wait)).calls.map
        WaitCall.rank <+: List.range' 1 (size - 1))
      ∧ (∀ c ∈ (waitLoop size rank timeout false startTime now (rankWorks size wait)).calls,
          c.timeout = getRemainingTime (now c.rank) startTime timeout false
            ∧ c.result = wait c.rank c.timeout)
      ∧ ((waitLoop size rank timeout false startTime now (rankWorks size wait)).raised = none →
          (waitLoop size rank timeout false startTime now (rankWorks size wait)).calls.map
              WaitCall.rank = List.range' 1 (size - 1)
            ∧ ∀ c ∈ (waitLoop size rank timeout false startTime now
                  (rankWorks size wait)).calls,
                ∃ completed, c.result = WaitResult.returned completed)
      ∧ ((∀ r, 1 ≤ r → r < size →
            0 ≤ getRemainingTime (now r) startTime timeout false
              ∧ ∃ completed, wait r (getRemainingTime (now r) startTime timeout false)
                = WaitResult.returned completed) →
          (waitLoop size rank timeout false startTime now (rankWorks size wait)).calls.map
              WaitCall.rank = List.range' 1 (size - 1)
            ∧ (waitLoop size rank timeout false startTime now (rankWorks size wait)).raised
              = none)
      ∧ (∀ k what, 1 ≤ k → k < size →
          (∀ r, 1 ≤ r → r < k →
            0 ≤ getRemainingTime (now r) startTime timeout false
              ∧ ∃ completed, wait r (getRemainingTime (now r) startTime timeout false)
                = WaitResult.returned completed) →
          0 ≤ getRemainingTime (now k) startTime timeout false →
          wait k (getRemainingTime (now k) startTime timeout false) = WaitResult.raised what →
          (waitLoop size rank timeout false startTime now (rankWorks size wait)).calls.map
              WaitCall.rank = List.range' 1 k
            ∧ (waitLoop size rank timeout false startTime now (rankWorks size wait)).raised
              = some ("[Rank 0]: Rank " ++ toString k
                  ++ " failed to pass monitoredBarrier in " ++ toString timeout ++ " ms"
                  ++ "\n Original exception: \n" ++ what))
      ∧ ∀ c ∈ (waitLoop size rank timeout false startTime now (rankWorks size wait)).calls,
          ∀ what, c.result = WaitResult.raised what →
            (waitLoop size rank timeout false startTime now (rankWorks size wait)).calls.map
                WaitCall.rank = List.range' 1 c.rank
              ∧ (∀ d ∈ (waitLoop size rank timeout false startTime now
                    (rankWorks size wait)).calls,
                  d.rank ≤ c.rank
                    ∧ (d.rank < c.rank → ∃ completed, d.result = WaitResult.returned completed))
              ∧ (waitLoop size rank timeout false startTime now (rankWorks size wait)).raised
                = some ("[Rank 0]: Rank " ++ toString c.rank
                    ++ " failed to pass monitoredBarrier in " ++ toString timeout ++ " ms"
                    ++ "\n Original exception: \n" ++ what) := by
  rw [waitLoop_fail_fast_eq]
  have hfst : (rankWorks size wait).map Prod.fst = List.range' 1 (size - 1) := by
    rw [rankWorks, List.map_map, show (Prod.fst ∘ fun r => (r, wait r)) = id from rfl,
      List.map_id]
  have hpre :
      (waitLoopBody rank timeout false startTime now (rankWorks size wait) []).calls.map
        WaitCall.rank <+: List.range' 1 (size - 1) := by
    have := waitLoopBody_calls_ranks rank timeout false startTime now (rankWorks size wait) []
    rwa [hfst] at this
  refine ⟨hpre, fun c hc => ?_, fun hnone => ?_, fun hall => ?_,
    fun k what hk1 hk2 hbelow hbudget hraised => ?_, fun c hc what hraised => ?_⟩
  · obtain ⟨w, hmem, hrank, htimeout, hresult⟩ :=
      waitLoopBody_fail_fast_calls rank timeout startTime now (rankWorks size wait) [] c hc
    rw [rankWorks, List.mem_map] at hmem
    obtain ⟨r, -, rfl⟩ := hmem
    simp only at hrank htimeout hresult
    rw [hrank]
    exact ⟨htimeout, hresult⟩
  · have h := waitLoopBody_fail_fast_complete rank timeout startTime now (rankWorks size wait)
      [] hnone
    rw [hfst] at h
    exact h
  · have h := waitLoopBody_fail_fast_all_return rank timeout startTime now
      (rankWorks size wait) [] (by
        intro w hmem
        rw [rankWorks, List.mem_map] at hmem
        obtain ⟨r, hr, rfl⟩ := hmem
        rw [List.mem_range'_1] at hr
        exact hall r (by omega) (by omega))
    rw [hfst] at h
    exact h
  · obtain ⟨hsplit, hjoin⟩ := range'_split size k hk1 hk2
    have hworks : rankWorks size wait
        = (List.range' 1 (k - 1)).map (fun r => (r, wait r))
          ++ (k, wait k) :: (List.range' (k + 1) (size - 1 - k)).map (fun r => (r, wait r)) := by
      rw [rankWorks, hsplit, List.map_append, List.map_cons]
    have h := waitLoopBody_fail_fast_first_failure rank timeout startTime now
      ((List.range' 1 (k - 1)).map (fun r => (r, wait r)))
      ((List.range' (k + 1) (size - 1 - k)).map (fun r => (r, wait r))) k (wait k) what []
      (by
        intro w hmem
        rw [List.mem_map] at hmem
        obtain ⟨r, hr, rfl⟩ := hmem
        rw [List.mem_range'_1] at hr
        exact hbelow r (by omega) (by omega))
      hbudget hraised
    rw [← hworks, List.map_map, show (Prod.fst ∘ fun r => (r, wait r)) = id from rfl,
      List.map_id, hjoin] at h
    exact h
  · obtain ⟨⟨before, hcalls, hbefore⟩, hmsg⟩ :=
      waitLoopBody_fail_fast_raised rank timeout startTime now (rankWorks size wait) [] c what
        hc hraised
    have hranks := prefix_range'_eq _ _ _ hpre
    rw [hcalls] at hranks
    simp only [List.map_append, List.map_cons, List.map_nil, List.length_append,
      List.length_map, List.length_singleton] at hranks
    rw [List.range'_1_concat] at hranks
    obtain ⟨hb, hk⟩ := List.append_inj hranks (by simp)
    have hkrank : c.rank = 1 + before.length := by simpa using hk
    have hmap :
        (waitLoopBody rank timeout false startTime now (rankWorks size wait) []).calls.map
          WaitCall.rank = List.range' 1 c.rank := by
      rw [hcalls, List.map_append, List.map_cons, List.map_nil, hb, hkrank,
        Nat.add_comm 1 before.length, List.range'_1_concat, Nat.add_comm 1 before.length]
    refine ⟨hmap, fun d hd => ?_, hmsg⟩
    have hdr : d.rank ∈ List.range' 1 c.rank := by
      rw [← hmap]
      exact List.mem_map_of_mem _ hd
    rw [List.mem_range'_1] at hdr
    refine ⟨by omega, fun hlt => ?_⟩
    rw [hcalls, List.mem_append, List.mem_singleton] at hd
    rcases hd with hd | hd
    · exact hbefore d hd
    · rw [hd] at hlt
      exact absurd hlt (Nat.lt_irrefl _)

/-- C15 at four ranks with ranks 2 and 3 silent, and at four ranks that all answer. In the
first run rank 0 waits on rank 1 and on rank 2 and raises a message that names rank 2; rank 3
is not waited on. In the second it waits on ranks 1, 2 and 3 and does not raise. -/
theorem waitLoop_fail_fast_raises_at_first_failure_witness :
    ((waitLoop 4 0 1000 false 0 (fun _ => 0)
        (rankWorks 4 fun r _ =>
          if 2 ≤ r then WaitResult.raised "timed out" else WaitResult.returned true)).calls.map
        WaitCall.rank = [1, 2]
      ∧ (waitLoop 4 0 1000 false 0 (fun _ => 0)
        (rankWorks 4 fun r _ =>
          if 2 ≤ r then WaitResult.raised "timed out" else WaitResult.returned true)).raised
        = some ("[Rank 0]: Rank 2 failed to pass monitoredBarrier in 1000 ms"
            ++ "\n Original exception: \ntimed out"))
      ∧ ((waitLoop 4 0 1000 false 0 (fun _ => 0)
          (rankWorks 4 fun _ _ => WaitResult.returned true)).calls.map WaitCall.rank
          = [1, 2, 3]
        ∧ (waitLoop 4 0 1000 false 0 (fun _ => 0)
          (rankWorks 4 fun _ _ => WaitResult.returned true)).raised = none) :=
  have hbudget : (0 : Int) ≤ getRemainingTime 0 0 1000 false := by decide
  have h := (waitLoop_fail_fast_raises_at_first_failure 4 0 1000 0 (fun _ => 0)
    (fun r _ => if 2 ≤ r then WaitResult.raised "timed out" else WaitResult.returned true)).2.2.2.2.1
    2 "timed out" (by decide) (by decide)
    (fun r h1 h2 => ⟨hbudget, true, by
      have hr : r = 1 := by omega
      subst hr
      rfl⟩)
    hbudget rfl
  have h' := (waitLoop_fail_fast_raises_at_first_failure 4 0 1000 0 (fun _ => 0)
    (fun _ _ => WaitResult.returned true)).2.2.2.1 (fun _ _ _ => ⟨hbudget, true, rfl⟩)
  ⟨⟨h.1, h.2.trans rfl⟩, h'⟩

/-! ### The monitored barrier -/

/-- The loop that posts the receives makes no other call. -/
theorem postRecvs_calls {ε τ κ : Type} (createUnboundBuffer : Nat → Int → UnboundBuffer)
    (tag : Int) (ranks : List Nat) (pg : ProcessGroupGloo ε τ κ) :
    ∀ x ∈ (postRecvs createUnboundBuffer tag ranks pg).1, ∃ r, x = BarrierCall.recv r tag := by
  induction ranks generalizing pg with
  | nil => simp [postRecvs]
  | cons dstRank ranks ih =>
    intro x hx
    unfold postRecvs at hx
    split at hx
    · simp only [List.mem_singleton] at hx
      exact ⟨dstRank, hx⟩
    · rcases List.mem_cons.mp hx with hx | hx
      · exact ⟨dstRank, hx⟩
      · exact ih _ x hx

/-- The loop that posts the sends makes no other call. -/
theorem postSends_calls {ε τ κ : Type} (createUnboundBuffer : Nat → Int → UnboundBuffer)
    (tag : Int) (ranks : List Nat) (pg : ProcessGroupGloo ε τ κ) :
    ∀ x ∈ (postSends createUnboundBuffer tag ranks pg).1, ∃ r, x = BarrierCall.send r tag := by
  induction ranks generalizing pg with
  | nil => simp [postSends]
  | cons dstRank ranks ih =>
    intro x hx
    unfold postSends at hx
    split at hx
    · simp only [List.mem_singleton] at hx
      exact ⟨dstRank, hx⟩
    · rcases List.mem_cons.mp hx with hx | hx
      · exact ⟨dstRank, hx⟩
      · exact ih _ x hx

/-- When every receive is posted, the map holds one work per rank, in the order of the ranks. -/
theorem postRecvs_ok {ε τ κ : Type} (createUnboundBuffer : Nat → Int → UnboundBuffer)
    (tag : Int) (ranks : List Nat) (pg : ProcessGroupGloo ε τ κ)
    (works : List (Nat × RecvWork))
    (h : (postRecvs createUnboundBuffer tag ranks pg).2.1 = Except.ok works) :
    works.map Prod.fst = ranks := by
  induction ranks generalizing pg works with
  | nil =>
    simp only [postRecvs, Except.ok.injEq] at h
    subst h
    rfl
  | cons dstRank ranks ih =>
    unfold postRecvs at h
    split at h
    · cases h
    · rename_i work pg' _
      simp only at h
      cases hrest : (postRecvs createUnboundBuffer tag ranks pg').2.1 with
      | error what => simp [hrest] at h
      | ok rest =>
        simp only [hrest, Except.ok.injEq] at h
        subst h
        simp [ih pg' rest hrest]

/-- In either mode, when a call of `wait` made by the wait loop raised, the wait loop
raises. -/
theorem waitLoop_raises_of_call_raised (size rank : Nat) (timeout : Int) (waitAllRanks : Bool)
    (startTime : Int) (now : Nat → Int) (works : List (Nat × (Int → WaitResult)))
    (hlen : works.length = size - 1) (c : WaitCall) (what : String)
    (hc : c ∈ (waitLoop size rank timeout waitAllRanks startTime now works).calls)
    (hraised : c.result = WaitResult.raised what) :
    (waitLoop size rank timeout waitAllRanks startTime now works).raised ≠ none := by
  cases waitAllRanks with
  | false =>
    rw [waitLoop_fail_fast_eq] at hc ⊢
    rw [(waitLoopBody_fail_fast_raised rank timeout startTime now works [] c what hc
      hraised).2]
    simp
  | true =>
    obtain ⟨hcalls, hproc, hnone⟩ :=
      waitLoopBody_collect_all rank timeout startTime now works []
    rw [waitLoop_calls, hcalls, List.mem_map] at hc
    obtain ⟨w, hw, hwc⟩ := hc
    have hex : ∃ x ∈ works, ¬ (!(x.2 timeout).isRaised) = true := by
      refine ⟨w, hw, ?_⟩
      rw [← hwc] at hraised
      simp only at hraised
      simp [hraised, WaitResult.isRaised]
    have hlt := List.length_filter_lt_length_iff_exists.mpr hex
    have hne :
        ((waitLoopBody rank timeout true startTime now works []).processedRanks.length : Int)
          ≠ (size : Int) - 1 := by
      rw [hproc]
      simp only [List.nil_append, List.length_map]
      omega
    unfold waitLoop
    simp only [hnone, Bool.true_and, hne, ne_eq, not_false_eq_true, decide_True, if_true]
    split <;> simp

/-- C13: the monitored barrier is all-or-nothing on the coordinator. On rank 0, for every world
size and both values of `waitAllRanks`, if a wait on the probe receive of some rank raises, then
`monitoredBarrier` raises and has made no `send` at all, in particular none on the second
tag. -/
theorem monitoredBarrier_all_or_nothing {ε τ κ : Type} (pg : ProcessGroupGloo ε τ κ)
    (optionsTimeout optsTimeout : Int) (waitAllRanks : Bool)
    (createUnboundBuffer : Nat → Int → UnboundBuffer) (startTime : Int)
    (now : Leg → Nat → Int) (c : WaitCall) (what : String)
    (hrank : pg.rank_ = 0)
    (hc : BarrierCall.wait Leg.probe c ∈
      (pg.monitoredBarrier optionsTimeout optsTimeout waitAllRanks createUnboundBuffer
        startTime now).1.calls)
    (hraised : c.result = WaitResult.raised what) :
    (pg.monitoredBarrier optionsTimeout optsTimeout waitAllRanks createUnboundBuffer
        startTime now).1.raised ≠ none
      ∧ ∀ dstRank tag, BarrierCall.send dstRank tag ∉
          (pg.monitoredBarrier optionsTimeout optsTimeout waitAllRanks createUnboundBuffer
            startTime now).1.calls := by
  unfold ProcessGroupGloo.monitoredBarrier at hc ⊢
  simp only [hrank, ne_eq, not_true_eq_false, if_false] at hc ⊢
  cases hp : (postRecvs createUnboundBuffer (toInt32 pg.nextTag.1)
      (List.range' 1 (pg.nextTag.2.nextTag.2.size_ - 1)) pg.nextTag.2.nextTag.2).2.1 with
  | error what' =>
    simp only [hp] at hc
    obtain ⟨r, hr⟩ := postRecvs_calls _ _ _ _ _ hc
    cases hr
  | ok recvWorkMap =>
    simp only [hp] at hc ⊢
    have hlen : (recvWorkMap.map fun entry => (entry.1, entry.2.waitResult)).length
        = pg.nextTag.2.nextTag.2.size_ - 1 := by
      have := congrArg List.length (postRecvs_ok _ _ _ _ _ hp)
      simpa using this
    have hprobe : c ∈ (waitLoop pg.nextTag.2.nextTag.2.size_ 0
        (if optsTimeout = kUnsetTimeout then optionsTimeout else optsTimeout) waitAllRanks
        startTime (now Leg.probe)
        (recvWorkMap.map fun entry => (entry.1, entry.2.waitResult))).calls := by
      split at hc
      · simp only [List.mem_append, List.mem_map] at hc
        rcases hc with hc | ⟨d, hd, hdc⟩
        · obtain ⟨r, hr⟩ := postRecvs_calls _ _ _ _ _ hc
          cases hr
        · cases hdc
          exact hd
      · split at hc
        · simp only [List.mem_append, List.mem_map] at hc
          rcases hc with (hc | ⟨d, hd, hdc⟩) | hc
          · obtain ⟨r, hr⟩ := postRecvs_calls _ _ _ _ _ hc
            cases hr
          · cases hdc
            exact hd
          · obtain ⟨r, hr⟩ := postSends_calls _ _ _ _ _ hc
            cases hr
        · simp only [List.mem_append, List.mem_map] at hc
          rcases hc with ((hc | ⟨d, hd, hdc⟩) | hc) | ⟨d, hd, hdc⟩
          · obtain ⟨r, hr⟩ := postRecvs_calls _ _ _ _ _ hc
            cases hr
          · cases hdc
            exact hd
          · obtain ⟨r, hr⟩ := postSends_calls _ _ _ _ _ hc
            cases hr
          · cases hdc
    have hne := waitLoop_raises_of_call_raised _ _ _ _ _ _ _ hlen c what hprobe hraised
    cases hr : (waitLoop pg.nextTag.2.nextTag.2.size_ 0
        (if optsTimeout = kUnsetTimeout then optionsTimeout else optsTimeout) waitAllRanks
        startTime (now Leg.probe)
        (recvWorkMap.map fun entry => (entry.1, entry.2.waitResult))).raised with
    | none => exact absurd hr hne
    | some msg =>
      simp only [hr]
      refine ⟨by simp, fun dstRank tag hmem => ?_⟩
      simp only [List.mem_append, List.mem_map] at hmem
      rcases hmem with hmem | ⟨d, _, hd⟩
      · obtain ⟨r, hr'⟩ := postRecvs_calls _ _ _ _ _ hmem
        cases hr'
      · cases hd

/-- C13 at four ranks with rank 2 silent, in collect-all mode: rank 0 raises and no `send` to
rank 1 or rank 3 on the second tag was made. -/
theorem monitoredBarrier_all_or_nothing_witness :
    ((exampleRank 0 4).monitoredBarrier 1800000 1000 true (exampleBuffer [2]) 0
        (fun _ _ => 0)).1.raised ≠ none
      ∧ BarrierCall.send 1 1 ∉ ((exampleRank 0 4).monitoredBarrier 1800000 1000 true
          (exampleBuffer [2]) 0 (fun _ _ => 0)).1.calls
      ∧ BarrierCall.send 3 1 ∉ ((exampleRank 0 4).monitoredBarrier 1800000 1000 true
          (exampleBuffer [2]) 0 (fun _ _ => 0)).1.calls :=
  have h := monitoredBarrier_all_or_nothing (exampleRank 0 4) 1800000 1000 true
    (exampleBuffer [2]) 0 (fun _ _ => 0) ⟨2, 1000, WaitResult.raised "timed out"⟩ "timed out"
    rfl (by decide) rfl
  ⟨h.1, h.2 1 1, h.2 3 1⟩

/-- C16, as stated, fails: rank 3 runs the barrier with a timeout of 1000 ms over a transport on
which a wait given any timeout raises "timed out" and a wait given none returns. Both waits are
made with `kNoTimeout`, and the barrier returns normally: the barrier timeout bounds neither. -/
theorem monitoredBarrier_waits_without_barrier_timeout :
    ((exampleRank 3 4).monitoredBarrier 1800000 1000 false
        (fun _ _ =>
          { send := fun _ _ => none
            recv := fun _ _ => none
            waitSend := fun timeout =>
              match timeout with
              | none => Except.ok true
              | some _ => Except.error "timed out"
            waitRecv := fun timeout =>
              match timeout with
              | none => Except.ok (true, 0)
              | some _ => Except.error "timed out" })
        0 (fun _ _ => 0)).1
      = ⟨[BarrierCall.send 0 0, BarrierCall.recv 0 1,
            BarrierCall.wait Leg.probe ⟨0, kNoTimeout, WaitResult.returned true⟩,
            BarrierCall.wait Leg.reply ⟨0, kNoTimeout, WaitResult.returned true⟩],
          none⟩ := by
  decide

/-- A `send` of the probe tensor with a tag that is not negative, over a buffer whose `send`
returns, returns a work on that buffer and increments the sequence number. -/
theorem send_commTensor_posted {ε τ κ : Type} (pg : ProcessGroupGloo ε τ κ) (dstRank : Nat)
    (tag : Int) (buffer : UnboundBuffer) (htag : 0 ≤ tag)
    (hsend : buffer.send dstRank tag.toNat = none) :
    pg.send [commTensor] dstRank tag buffer
      = (Except.ok (SendWork.new commTensor buffer ((pg.seq_ + 1) % 2 ^ 64)),
          { pg with seq_ := (pg.seq_ + 1) % 2 ^ 64 }) := by
  unfold ProcessGroupGloo.send
  simp only [checkSingleTensor, commTensor, checkTag, htag, if_true, hsend,
    ProcessGroupGloo.getContext]
  rfl

/-- A `recv` of the probe tensor with a tag that is not negative, over a buffer whose `recv`
returns, returns a work on that buffer and increments the sequence number. -/
theorem recv_commTensor_posted {ε τ κ : Type} (pg : ProcessGroupGloo ε τ κ) (srcRank : Nat)
    (tag : Int) (buffer : UnboundBuffer) (htag : 0 ≤ tag)
    (hrecv : buffer.recv [srcRank] tag.toNat = none) :
    pg.recv [commTensor] srcRank tag buffer
      = (Except.ok (RecvWork.new commTensor buffer OpType.RECV ((pg.seq_ + 1) % 2 ^ 64)),
          { pg with seq_ := (pg.seq_ + 1) % 2 ^ 64 }) := by
  unfold ProcessGroupGloo.recv
  simp only [checkSingleTensor, commTensor, checkTag, htag, if_true, hrecv,
    ProcessGroupGloo.getContext]
  rfl

/-- A wait on a send without a timeout is the wait of the buffer without a timeout. -/
theorem sendWork_waitResult_kNoTimeout (work : SendWork) :
    work.waitResult kNoTimeout
      = match work.buffer_.waitSend none with
        | Except.ok sent => WaitResult.returned sent
        | Except.error what => WaitResult.raised what := by
  unfold SendWork.waitResult SendWork.wait
  simp only [if_true]
  cases work.buffer_.waitSend none <;> rfl

/-- A wait on a receive without a timeout is the wait of the buffer without a timeout. -/
theorem recvWork_waitResult_kNoTimeout (work : RecvWork) :
    work.waitResult kNoTimeout
      = match work.buffer_.waitRecv none with
        | Except.ok received => WaitResult.returned received.1
        | Except.error what => WaitResult.raised what := by
  unfold RecvWork.waitResult RecvWork.wait
  simp only [if_true]
  cases work.buffer_.waitRecv none <;> rfl

/-- The run of `monitoredBarrier` on a rank other than 0 whose send and receive are posted:
the calls made and the exception raised, by what the waits of the two buffers do when they are
called without a timeout. -/
theorem other_ranks_run {ε τ κ : Type} (pg : ProcessGroupGloo ε τ κ)
    (optionsTimeout optsTimeout : Int) (waitAllRanks : Bool)
    (createUnboundBuffer : Nat → Int → UnboundBuffer) (startTime : Int)
    (now : Leg → Nat → Int) (hrank : pg.rank_ ≠ 0)
    (htag1 : 0 ≤ toInt32 pg.collectiveCounter_)
    (htag2 : 0 ≤ toInt32 ((pg.collectiveCounter_ + 1) % 2 ^ 32))
    (hsend : (createUnboundBuffer 0 (toInt32 pg.collectiveCounter_)).send 0
      (toInt32 pg.collectiveCounter_).toNat = none)
    (hrecv : (createUnboundBuffer 0 (toInt32 ((pg.collectiveCounter_ + 1) % 2 ^ 32))).recv [0]
      (toInt32 ((pg.collectiveCounter_ + 1) % 2 ^ 32)).toNat = none) :
    (pg.monitoredBarrier optionsTimeout optsTimeout waitAllRanks createUnboundBuffer
            startTime now).1
      = match (createUnboundBuffer 0 (toInt32 pg.collectiveCounter_)).waitSend none with
        | Except.error what =>
          ⟨[BarrierCall.send 0 (toInt32 pg.collectiveCounter_), BarrierCall.recv 0 (toInt32 ((pg.collectiveCounter_ + 1) % 2 ^ 32)),
              BarrierCall.wait Leg.probe ⟨0, kNoTimeout, WaitResult.raised what⟩],
            some ("Rank " ++ toString pg.rank_
              ++ " successfully reached monitoredBarrier, but received errors while waiting"
              ++ " for send/recv from rank 0. Please check rank 0 logs for faulty rank."
              ++ "\n Original exception: \n" ++ what)⟩
        | Except.ok sent =>
          match (createUnboundBuffer 0 (toInt32 ((pg.collectiveCounter_ + 1) % 2 ^ 32))).waitRecv none with
          | Except.error what =>
            ⟨[BarrierCall.send 0 (toInt32 pg.collectiveCounter_), BarrierCall.recv 0 (toInt32 ((pg.collectiveCounter_ + 1) % 2 ^ 32)),
                BarrierCall.wait Leg.probe ⟨0, kNoTimeout, WaitResult.returned sent⟩,
                BarrierCall.wait Leg.reply ⟨0, kNoTimeout, WaitResult.raised what⟩],
              some ("Rank " ++ toString pg.rank_
                ++ " successfully reached monitoredBarrier, but received errors while waiting"
                ++ " for send/recv from rank 0. Please check rank 0 logs for faulty rank."
                ++ "\n Original exception: \n" ++ what)⟩
          | Except.ok received =>
            ⟨[BarrierCall.send 0 (toInt32 pg.collectiveCounter_), BarrierCall.recv 0 (toInt32 ((pg.collectiveCounter_ + 1) % 2 ^ 32)),
                BarrierCall.wait Leg.probe ⟨0, kNoTimeout, WaitResult.returned sent⟩,
                BarrierCall.wait Leg.reply ⟨0, kNoTimeout, WaitResult.returned received.1⟩],
              none⟩ := by
  unfold ProcessGroupGloo.monitoredBarrier
  simp only [hrank, ne_eq, not_false_eq_true, if_true, ProcessGroupGloo.nextTag]
  rw [send_commTensor_posted _ 0 _ _ htag1 hsend]
  simp only
  rw [recv_commTensor_posted _ 0 _ _ htag2 hrecv]
  simp only [sendWork_waitResult_kNoTimeout, recvWork_waitResult_kNoTimeout, SendWork.new,
    RecvWork.new]
  cases (createUnboundBuffer 0 (toInt32 pg.collectiveCounter_)).waitSend none with
  | error what => rfl
  | ok sent =>
    cases (createUnboundBuffer 0 (toInt32 ((pg.collectiveCounter_ + 1) % 2 ^ 32))).waitRecv none with
    | error what => rfl
    | ok received => rfl

/-- C16, amended: on every rank other than 0, `monitoredBarrier` posts the send of the probe to
rank 0 on the first tag, then the receive from rank 0 on the second tag, then waits on the send
and then on the receive; both waits are made without a timeout (`kNoTimeout`), not with the
barrier timeout; and when either wait raises, `monitoredBarrier` raises a message that names
this rank and carries the original `what()`. In full: (1) the calls made are an initial segment
of send, receive, wait on the send, wait on the receive; (2) every wait made has the timeout
`kNoTimeout`, and one that raises makes the barrier raise the message naming this rank; (3) the
first call is always the send to rank 0 on the first tag; (4) when the send is posted, the
second call is the receive from rank 0 on the second tag; (5) when both are posted, the run is
determined by what the waits of the two buffers do when called without a timeout: if the wait
on the send raises, the calls are send, receive and that wait, and the barrier raises; if it
returns and the wait on the receive raises, the calls are all four and the barrier raises; if
both return, the calls are all four and the barrier returns. A send or a receive is posted
when its tag is not negative and the `send` or `recv` of its buffer returns. -/
theorem monitoredBarrier_other_ranks {ε τ κ : Type} (pg : ProcessGroupGloo ε τ κ)
    (optionsTimeout optsTimeout : Int) (waitAllRanks : Bool)
    (createUnboundBuffer : Nat → Int → UnboundBuffer) (startTime : Int)
    (now : Leg → Nat → Int) (hrank : pg.rank_ ≠ 0) :
    (∃ sent received,
        (pg.monitoredBarrier optionsTimeout optsTimeout waitAllRanks createUnboundBuffer
            startTime now).1.calls
          <+: [BarrierCall.send 0 (toInt32 pg.collectiveCounter_),
            BarrierCall.recv 0 (toInt32 ((pg.collectiveCounter_ + 1) % 2 ^ 32)),
            BarrierCall.wait Leg.probe ⟨0, kNoTimeout, sent⟩,
            BarrierCall.wait Leg.reply ⟨0, kNoTimeout, received⟩])
      ∧ (∀ leg c, BarrierCall.wait leg c ∈
            (pg.monitoredBarrier optionsTimeout optsTimeout waitAllRanks createUnboundBuffer
              startTime now).1.calls →
          c.timeout = kNoTimeout
            ∧ ∀ what, c.result = WaitResult.raised what →
              (pg.monitoredBarrier optionsTimeout optsTimeout waitAllRanks createUnboundBuffer
                  startTime now).1.raised
                = some ("Rank " ++ toString pg.rank_
                    ++ " successfully reached monitoredBarrier, but received errors while waiting"
                    ++ " for send/recv from rank 0. Please check rank 0 logs for faulty rank."
                    ++ "\n Original exception: \n" ++ what))
      ∧ (pg.monitoredBarrier optionsTimeout optsTimeout waitAllRanks createUnboundBuffer
            startTime now).1.calls.head?
          = some (BarrierCall.send 0 (toInt32 pg.collectiveCounter_))
      ∧ (0 ≤ toInt32 pg.collectiveCounter_ →
          (createUnboundBuffer 0 (toInt32 pg.collectiveCounter_)).send 0 (toInt32 pg.collectiveCounter_).toNat = none →
          (pg.monitoredBarrier optionsTimeout optsTimeout waitAllRanks createUnboundBuffer
              startTime now).1.calls.take 2
            = [BarrierCall.send 0 (toInt32 pg.collectiveCounter_), BarrierCall.recv 0 (toInt32 ((pg.collectiveCounter_ + 1) % 2 ^ 32))])
      ∧ (0 ≤ toInt32 pg.collectiveCounter_ →
          0 ≤ toInt32 ((pg.collectiveCounter_ + 1) % 2 ^ 32) →
          (createUnboundBuffer 0 (toInt32 pg.collectiveCounter_)).send 0 (toInt32 pg.collectiveCounter_).toNat = none →
          (createUnboundBuffer 0 (toInt32 ((pg.collectiveCounter_ + 1) % 2 ^ 32))).recv [0]
            (toInt32 ((pg.collectiveCounter_ + 1) % 2 ^ 32)).toNat = none →
          (∀ what, (createUnboundBuffer 0 (toInt32 pg.collectiveCounter_)).waitSend none = Except.error what →
            (pg.monitoredBarrier optionsTimeout optsTimeout waitAllRanks createUnboundBuffer
                startTime now).1
              = ⟨[BarrierCall.send 0 (toInt32 pg.collectiveCounter_), BarrierCall.recv 0 (toInt32 ((pg.collectiveCounter_ + 1) % 2 ^ 32)),
                    BarrierCall.wait Leg.probe ⟨0, kNoTimeout, WaitResult.raised what⟩],
                  some ("Rank " ++ toString pg.rank_
                  ++ " successfully reached monitoredBarrier, but received errors while waiting"
                  ++ " for send/recv from rank 0. Please check rank 0 logs for faulty rank."
                  ++ "\n Original exception: \n" ++ what)⟩)
          ∧ (∀ sent, (createUnboundBuffer 0 (toInt32 pg.collectiveCounter_)).waitSend none = Except.ok sent →
            (∀ what, (createUnboundBuffer 0 (toInt32 ((pg.collectiveCounter_ + 1) % 2 ^ 32))).waitRecv none = Except.error what →
              (pg.monitoredBarrier optionsTimeout optsTimeout waitAllRanks createUnboundBuffer
                  startTime now).1
                = ⟨[BarrierCall.send 0 (toInt32 pg.collectiveCounter_), BarrierCall.recv 0 (toInt32 ((pg.collectiveCounter_ + 1) % 2 ^ 32)),
                      BarrierCall.wait Leg.probe ⟨0, kNoTimeout, WaitResult.returned sent⟩,
                      BarrierCall.wait Leg.reply ⟨0, kNoTimeout, WaitResult.raised what⟩],
                    some ("Rank " ++ toString pg.rank_
                  ++ " successfully reached monitoredBarrier, but received errors while waiting"
                  ++ " for send/recv from rank 0. Please check rank 0 logs for faulty rank."
                  ++ "\n Original exception: \n" ++ what)⟩)
            ∧ (∀ received, (createUnboundBuffer 0 (toInt32 ((pg.collectiveCounter_ + 1) % 2 ^ 32))).waitRecv none = Except.ok received →
              (pg.monitoredBarrier optionsTimeout optsTimeout waitAllRanks createUnboundBuffer
                  startTime now).1
                = ⟨[BarrierCall.send 0 (toInt32 pg.collectiveCounter_), BarrierCall.recv 0 (toInt32 ((pg.collectiveCounter_ + 1) % 2 ^ 32)),
                      BarrierCall.wait Leg.probe ⟨0, kNoTimeout, WaitResult.returned sent⟩,
                      BarrierCall.wait Leg.reply
                        ⟨0, kNoTimeout, WaitResult.returned received.1⟩],
                    none⟩))) := by
  rw [← and_assoc]
  refine ⟨?_, ?_, ?_, ?_⟩
  · unfold ProcessGroupGloo.monitoredBarrier
    simp only [hrank, ne_eq, not_false_eq_true, if_true]
    split
    · exact ⟨⟨WaitResult.returned true, WaitResult.returned true, _, rfl⟩,
        fun leg c hc => by simp at hc⟩
    · split
      · exact ⟨⟨WaitResult.returned true, WaitResult.returned true, _, rfl⟩,
          fun leg c hc => by simp at hc⟩
      · split
        · refine ⟨⟨_, WaitResult.returned true, [_], rfl⟩, fun leg c hc => ?_⟩
          simp only [List.mem_cons, List.mem_singleton, List.not_mem_nil, or_false,
            false_or, BarrierCall.wait.injEq, reduceCtorEq] at hc
          obtain ⟨-, rfl⟩ := hc
          refine ⟨rfl, fun what hw => ?_⟩
          simp only [WaitResult.raised.injEq] at hw
          subst hw
          rfl
        · split
          · refine ⟨⟨_, _, List.prefix_refl _⟩, fun leg c hc => ?_⟩
            simp only [List.mem_cons, List.mem_singleton, List.not_mem_nil, or_false,
              false_or, BarrierCall.wait.injEq, reduceCtorEq] at hc
            rcases hc with ⟨-, rfl⟩ | ⟨-, rfl⟩
            · exact ⟨rfl, fun what hw => by cases hw⟩
            · refine ⟨rfl, fun what hw => ?_⟩
              simp only [WaitResult.raised.injEq] at hw
              subst hw
              rfl
          · refine ⟨⟨_, _, List.prefix_refl _⟩, fun leg c hc => ?_⟩
            simp only [List.mem_cons, List.mem_singleton, List.not_mem_nil, or_false,
              false_or, BarrierCall.wait.injEq, reduceCtorEq] at hc
            rcases hc with ⟨-, rfl⟩ | ⟨-, rfl⟩
            · exact ⟨rfl, fun what hw => by cases hw⟩
            · exact ⟨rfl, fun what hw => by cases hw⟩
  · unfold ProcessGroupGloo.monitoredBarrier
    simp only [hrank, ne_eq, not_false_eq_true, if_true]
    repeat' split
    all_goals rfl
  · intro htag1 hsend
    unfold ProcessGroupGloo.monitoredBarrier
    simp only [hrank, ne_eq, not_false_eq_true, if_true, ProcessGroupGloo.nextTag]
    rw [send_commTensor_posted _ 0 _ _ htag1 hsend]
    simp only
    repeat' split
    all_goals rfl
  · intro htag1 htag2 hsend hrecv
    have hrun := other_ranks_run pg optionsTimeout optsTimeout waitAllRanks
      createUnboundBuffer startTime now hrank htag1 htag2 hsend hrecv
    refine ⟨fun what hw => ?_, fun sent hs => ⟨fun what hw => ?_, fun received hr => ?_⟩⟩
    · rw [hrun, hw]
    · rw [hrun, hs, hw]
    · rw [hrun, hs, hr]

/-- C16, amended, at rank 3 of four ranks, over a transport on which rank 0 is silent and over
one on which it answers. In the first run the calls are the send, the receive and the wait on
the send, made with `kNoTimeout`, and the barrier raises a message that names rank 3. In the
second the calls are the send, the receive and the two waits, and the barrier returns. -/
theorem monitoredBarrier_other_ranks_witness :
    ((exampleRank 3 4).monitoredBarrier 1800000 1000 true (exampleBuffer [0]) 0
        (fun _ _ => 0)).1
      = ⟨[BarrierCall.send 0 0, BarrierCall.recv 0 1,
            BarrierCall.wait Leg.probe ⟨0, kNoTimeout, WaitResult.raised "timed out"⟩],
          some ("Rank 3 successfully reached monitoredBarrier, but received errors while waiting"
            ++ " for send/recv from rank 0. Please check rank 0 logs for faulty rank."
            ++ "\n Original exception: \ntimed out")⟩
      ∧ ((exampleRank 3 4).monitoredBarrier 1800000 1000 true (exampleBuffer []) 0
        (fun _ _ => 0)).1
      = ⟨[BarrierCall.send 0 0, BarrierCall.recv 0 1,
            BarrierCall.wait Leg.probe ⟨0, kNoTimeout, WaitResult.returned true⟩,
            BarrierCall.wait Leg.reply ⟨0, kNoTimeout, WaitResult.returned true⟩],
          none⟩ :=
  ⟨(((monitoredBarrier_other_ranks (exampleRank 3 4) 1800000 1000 true (exampleBuffer [0]) 0
      (fun _ _ => 0) (by decide)).2.2.2.2 (by decide) (by decide) rfl rfl).1 "timed out"
      rfl).trans rfl,
    ((((monitoredBarrier_other_ranks (exampleRank 3 4) 1800000 1000 true (exampleBuffer []) 0
      (fun _ _ => 0) (by decide)).2.2.2.2 (by decide) (by decide) rfl rfl).2 true rfl).2
      (true, 0) rfl).trans rfl⟩

/-! ### The barrier -/

/-- The shared tail of the entry points, when it succeeds, increments the sequence number once
and gives the incremented value to the work it constructs. -/
theorem launch_ok {ε κ : Type} (pg pg' : ProcessGroupGloo ε Tensor κ) (env : Collaborators ε)
    (deviceType : DeviceType) (outputs : List (List Tensor)) (opType : OpType) (w : WorkPtr)
    (h : pg.launch env deviceType outputs opType = (Except.ok w, pg')) :
    pg'.seq_ = (pg.seq_ + 1) % 2 ^ 64 ∧ (pg'.works w).seq_ = pg'.seq_ := by
  unfold ProcessGroupGloo.launch at h
  simp only at h
  split at h
  · simp only [Prod.mk.injEq, Except.ok.injEq] at h
    obtain ⟨rfl, rfl⟩ := h
    simp [ProcessGroupGloo.enqueue, ProcessGroupGloo.store, ProcessGroupGloo.drawTag,
      ProcessGroupGloo.getContext, ProcessGroupGloo.nextTag, AsyncWork.new]
  · split at h
    · simp at h
    · simp only [Prod.mk.injEq, Except.ok.injEq] at h
      obtain ⟨rfl, rfl⟩ := h
      simp [ProcessGroupGloo.enqueue, ProcessGroupGloo.store, ProcessGroupGloo.drawTag,
        ProcessGroupGloo.getContext, ProcessGroupGloo.nextTag, AsyncWork.new]
  · simp at h

/-- A successful `broadcast` increments the sequence number once and returns a work that
carries the incremented value. -/
theorem broadcast_ok {ε κ : Type} (pg pg' : ProcessGroupGloo ε Tensor κ)
    (env : Collaborators ε) (inputs : List Tensor) (rootRank rootTensor : Int) (w : WorkPtr)
    (h : pg.broadcast env inputs rootRank rootTensor = (Except.ok w, pg')) :
    pg'.seq_ = (pg.seq_ + 1) % 2 ^ 64 ∧ (pg'.works w).seq_ = pg'.seq_ := by
  unfold ProcessGroupGloo.broadcast at h
  simp only at h
  repeat' split at h
  all_goals first
    | exact launch_ok _ _ _ _ _ _ _ h
    | simp at h

/-- A successful `reduce` increments the sequence number once and returns a work that carries
the incremented value. -/
theorem reduce_ok {ε κ : Type} (pg pg' : ProcessGroupGloo ε Tensor κ)
    (env : Collaborators ε) (inputs : List Tensor) (rootRank rootTensor : Int) (w : WorkPtr)
    (h : pg.reduce env inputs rootRank rootTensor = (Except.ok w, pg')) :
    pg'.seq_ = (pg.seq_ + 1) % 2 ^ 64 ∧ (pg'.works w).seq_ = pg'.seq_ := by
  unfold ProcessGroupGloo.reduce at h
  simp only at h
  repeat' split at h
  all_goals first
    | exact launch_ok _ _ _ _ _ _ _ h
    | simp at h

/-- A successful `allgather` increments the sequence number once and returns a work that
carries the incremented value. -/
theorem allgather_ok {ε κ : Type} (pg pg' : ProcessGroupGloo ε Tensor κ)
    (env : Collaborators ε) (outputs : List (List Tensor)) (inputs : List Tensor) (w : WorkPtr)
    (h : pg.allgather env outputs inputs = (Except.ok w, pg')) :
    pg'.seq_ = (pg.seq_ + 1) % 2 ^ 64 ∧ (pg'.works w).seq_ = pg'.seq_ := by
  unfold ProcessGroupGloo.allgather at h
  simp only at h
  repeat' split at h
  all_goals first
    | exact launch_ok _ _ _ _ _ _ _ h
    | simp at h

/-- A successful `gather` increments the sequence number once and returns a work that carries
the incremented value. -/
theorem gather_ok {ε κ : Type} (pg pg' : ProcessGroupGloo ε Tensor κ)
    (env : Collaborators ε) (outputs : List (List Tensor)) (inputs : List Tensor)
    (rootRank : Int) (w : WorkPtr)
    (h : pg.gather env outputs inputs rootRank = (Except.ok w, pg')) :
    pg'.seq_ = (pg.seq_ + 1) % 2 ^ 64 ∧ (pg'.works w).seq_ = pg'.seq_ := by
  unfold ProcessGroupGloo.gather at h
  simp only at h
  repeat' split at h
  all_goals first
    | exact launch_ok _ _ _ _ _ _ _ h
    | simp at h

/-- A successful `scatter` increments the sequence number once and returns a work that carries
the incremented value. -/
theorem scatter_ok {ε κ : Type} (pg pg' : ProcessGroupGloo ε Tensor κ)
    (env : Collaborators ε) (outputs : List Tensor) (inputs : List (List Tensor))
    (rootRank : Int) (w : WorkPtr)
    (h : pg.scatter env outputs inputs rootRank = (Except.ok w, pg')) :
    pg'.seq_ = (pg.seq_ + 1) % 2 ^ 64 ∧ (pg'.works w).seq_ = pg'.seq_ := by
  unfold ProcessGroupGloo.scatter at h
  simp only at h
  repeat' split at h
  all_goals first
    | exact launch_ok _ _ _ _ _ _ _ h
    | simp at h

/-- A successful `allreduce` increments the sequence number once and returns a work that
carries the incremented value. -/
theorem allreduce_ok {ε κ : Type} (pg pg' : ProcessGroupGloo ε Tensor κ)
    (env : Collaborators ε) (inputs : List Tensor) (reduceOp : ReduceOp) (w : WorkPtr)
    (h : pg.allreduce env inputs reduceOp = (Except.ok w, pg')) :
    pg'.seq_ = (pg.seq_ + 1) % 2 ^ 64 ∧ (pg'.works w).seq_ = pg'.seq_ := by
  unfold ProcessGroupGloo.allreduce at h
  simp only at h
  repeat' split at h
  all_goals first
    | (simp only [Prod.mk.injEq, Except.ok.injEq] at h
       obtain ⟨h1, h2⟩ := h
       subst h2
       simp [ProcessGroupGloo.enqueue, ProcessGroupGloo.store, ProcessGroupGloo.drawTag,
         ProcessGroupGloo.getContext, ProcessGroupGloo.nextTag, AsyncWork.new, ← h1]
       done)
    | simp at h

/-- A successful `alltoall_base` increments the sequence number once and returns a work that
carries the incremented value. -/
theorem alltoall_base_ok {ε κ : Type} (pg pg' : ProcessGroupGloo ε Tensor κ)
    (assertDense : List Tensor → Option String) (outputTensor inputTensor : Tensor)
    (alloc : WorkPtr) (hook : Option (Outcome ε)) (run synchronize : Outcome ε) (w : WorkPtr)
    (h : pg.alltoall_base assertDense outputTensor inputTensor alloc hook run synchronize
      = (Except.ok w, pg')) :
    pg'.seq_ = (pg.seq_ + 1) % 2 ^ 64 ∧ (pg'.works w).seq_ = pg'.seq_ := by
  unfold ProcessGroupGloo.alltoall_base at h
  simp only at h
  repeat' split at h
  all_goals first
    | (simp only [Prod.mk.injEq, Except.ok.injEq] at h
       obtain ⟨h1, h2⟩ := h
       subst h2
       simp [ProcessGroupGloo.enqueue, ProcessGroupGloo.store,
         ProcessGroupGloo.getContext, ProcessGroupGloo.nextTag, AsyncWork.new, ← h1]
       done)
    | simp at h

/-- A successful `send` increments the sequence number once and returns a work that carries the
incremented value. -/
theorem send_ok {ε τ κ : Type} (pg pg' : ProcessGroupGloo ε τ κ) (tensors : List Tensor)
    (dstRank : Nat) (tag : Int) (buffer : UnboundBuffer) (w : SendWork)
    (h : pg.send tensors dstRank tag buffer = (Except.ok w, pg')) :
    pg'.seq_ = (pg.seq_ + 1) % 2 ^ 64 ∧ w.seq_ = pg'.seq_ := by
  unfold ProcessGroupGloo.send at h
  repeat' split at h
  all_goals first
    | (simp only [Prod.mk.injEq, Except.ok.injEq] at h
       obtain ⟨h1, h2⟩ := h
       subst h2
       simp [ProcessGroupGloo.getContext, SendWork.new, ← h1]
       done)
    | simp at h

/-- A successful `recv` increments the sequence number once and returns a work that carries the
incremented value. -/
theorem recv_ok {ε τ κ : Type} (pg pg' : ProcessGroupGloo ε τ κ) (tensors : List Tensor)
    (srcRank : Nat) (tag : Int) (buffer : UnboundBuffer) (w : RecvWork)
    (h : pg.recv tensors srcRank tag buffer = (Except.ok w, pg')) :
    pg'.seq_ = (pg.seq_ + 1) % 2 ^ 64 ∧ w.seq_ = pg'.seq_ := by
  unfold ProcessGroupGloo.recv at h
  repeat' split at h
  all_goals first
    | (simp only [Prod.mk.injEq, Except.ok.injEq] at h
       obtain ⟨h1, h2⟩ := h
       subst h2
       simp [ProcessGroupGloo.getContext, RecvWork.new, ← h1]
       done)
    | simp at h

/-- A successful `recvAnysource` increments the sequence number once and returns a work that
carries the incremented value. -/
theorem recvAnysource_ok {ε τ κ : Type} (pg pg' : ProcessGroupGloo ε τ κ)
    (tensors : List Tensor) (tag : Int) (buffer : UnboundBuffer) (w : RecvWork)
    (h : pg.recvAnysource tensors tag buffer = (Except.ok w, pg')) :
    pg'.seq_ = (pg.seq_ + 1) % 2 ^ 64 ∧ w.seq_ = pg'.seq_ := by
  unfold ProcessGroupGloo.recvAnysource at h
  repeat' split at h
  all_goals try simp only at h
  all_goals try split at h
  all_goals first
    | (simp only [Prod.mk.injEq, Except.ok.injEq] at h
       obtain ⟨h1, h2⟩ := h
       subst h2
       simp [ProcessGroupGloo.getContext, RecvWork.new, ← h1]
       done)
    | simp at h

/-- A call of `barrier` increments the sequence number once and returns a work that carries the
incremented value. -/
theorem barrier_ok {ε τ κ : Type} (pg : ProcessGroupGloo ε τ κ) (alloc : WorkPtr)
    (hook : Option (Outcome ε)) (lock : WorkPtr → Bool) (wait : WorkPtr → Outcome ε)
    (transportBarrier : Outcome ε) :
    (pg.barrier alloc hook lock wait transportBarrier).2.seq_ = (pg.seq_ + 1) % 2 ^ 64
      ∧ ((pg.barrier alloc hook lock wait transportBarrier).2.works
            (pg.barrier alloc hook lock wait transportBarrier).1.work).seq_
          = (pg.barrier alloc hook lock wait transportBarrier).2.seq_ := by
  simp [ProcessGroupGloo.barrier, ProcessGroupGloo.enqueue, ProcessGroupGloo.store,
    ProcessGroupGloo.drawTag, ProcessGroupGloo.getContext, ProcessGroupGloo.nextTag,
    AsyncWork.new]

/-- The loop of `reduce_scatter`, when it succeeds, increments the sequence number once per
buffer and returns one work per buffer. -/
theorem allreduceEach_ok {ε κ : Type} (env : Collaborators ε) (reduceOp : ReduceOp)
    (buffers : List Tensor) (k : Nat) (pg pg' : ProcessGroupGloo ε Tensor κ)
    (works : List WorkPtr) (hseq : pg.seq_ < 2 ^ 64)
    (h : ProcessGroupGloo.allreduceEach env reduceOp buffers k pg = (Except.ok works, pg')) :
    pg'.seq_ = (pg.seq_ + buffers.length) % 2 ^ 64 ∧ works.length = buffers.length := by
  induction buffers generalizing k pg works with
  | nil =>
    simp only [ProcessGroupGloo.allreduceEach, Prod.mk.injEq, Except.ok.injEq] at h
    obtain ⟨rfl, rfl⟩ := h
    exact ⟨(Nat.mod_eq_of_lt hseq).symm, rfl⟩
  | cons buffer buffers ih =>
    unfold ProcessGroupGloo.allreduceEach at h
    split at h
    · simp at h
    · rename_i work pg1 hfirst
      split at h
      · simp at h
      · rename_i rest pg2 hrest
        simp only [Prod.mk.injEq, Except.ok.injEq] at h
        obtain ⟨rfl, rfl⟩ := h
        obtain ⟨hseq1, -⟩ := allreduce_ok _ _ _ _ _ _ hfirst
        have hlt : pg1.seq_ < 2 ^ 64 := by
          rw [hseq1]
          exact Nat.mod_lt _ (by norm_num)
        obtain ⟨hseq2, hlen⟩ := ih _ _ _ hlt hrest
        refine ⟨?_, by simp [hlen]⟩
        rw [hseq2, hseq1, List.length_cons]
        omega

/-- A successful `reduce_scatter` increments the sequence number once per rank of the group. -/
theorem reduce_scatter_ok {ε κ : Type} (pg pg' : ProcessGroupGloo ε Tensor κ)
    (env : Collaborators ε) (outputs : List Tensor) (inputs : List (List Tensor))
    (reduceOp : ReduceOp) (works : List WorkPtr) (hseq : pg.seq_ < 2 ^ 64)
    (h : pg.reduce_scatter env outputs inputs reduceOp = (Except.ok works, pg')) :
    pg'.seq_ = (pg.seq_ + pg.size_) % 2 ^ 64 ∧ works.length = pg.size_ := by
  unfold ProcessGroupGloo.reduce_scatter at h
  split at h
  · rename_i output input
    split at h
    · simp at h
    · rename_i hsize
      simp only at h
      split at h
      · simp at h
      · have := allreduceEach_ok _ _ _ _ _ _ _ hseq h
        simp only [List.length_set] at this
        rw [Decidable.not_not] at hsize
        rwa [hsize] at this
  · simp at h
  · simp at h

/-- The work and the process group behind a successful call, read off what the call returns to
its caller. -/
theorem map_ok_inv {α β γ : Type} (f : α → β) (r : Except String α × γ) (handle : β) (pg' : γ)
    (h : (r.1.map f, r.2) = (Except.ok handle, pg')) :
    ∃ w, r = (Except.ok w, pg') ∧ handle = f w := by
  obtain ⟨r1, r2⟩ := r
  simp only [Prod.mk.injEq] at h
  obtain ⟨h1, h2⟩ := h
  cases r1 with
  | error what => cases h1
  | ok w =>
    simp only [Except.map, Except.ok.injEq] at h1
    exact ⟨w, by rw [h2], h1.symm⟩

/-- C19, as stated, fails for `reduce_scatter`: on a group of two ranks whose sequence number is
zero, a successful `reduce_scatter` issues one `allreduce` per rank and leaves the sequence number
at two; the work it returns waits on the two works and carries no sequence number. -/
theorem reduce_scatter_increments_per_rank :
    ((exampleTensorGroup 0 2).call exampleCollaborators (exampleBuffer [] 0 0)
        (fun _ => true) (fun _ => Outcome.returns) Outcome.returns
        (Operation.reduce_scatter [exampleTensor] [[exampleTensor, exampleTensor]]
          ReduceOp.SUM)).2.seq_ = 2
      ∧ (((exampleTensorGroup 0 2).call exampleCollaborators (exampleBuffer [] 0 0)
        (fun _ => true) (fun _ => Outcome.returns) Outcome.returns
        (Operation.reduce_scatter [exampleTensor] [[exampleTensor, exampleTensor]]
          ReduceOp.SUM)).1.toOption.map
          (Handle.getSequencenumber (exampleTensorGroup 0 2))) = some none := by
  decide

/-- C19, amended: every successful call of `broadcast`, `allreduce`, `reduce`, `allgather`,
`gather`, `scatter`, `alltoall_base`, `send`, `recv`, `recvAnysource` or `barrier` increases
the sequence number of the group by exactly one, in 64-bit unsigned arithmetic and whatever the
kind, and the work returned reports the incremented value. A successful `reduce_scatter`
increases it by the number of ranks of the group, and the work it returns reports no sequence
number. `getSequenceNumberForGroup` returns the current value. -/
theorem call_increments_sequence_number {ε κ : Type} (pg pg' : ProcessGroupGloo ε Tensor κ)
    (env : Collaborators ε) (buffer : UnboundBuffer) (lock : WorkPtr → Bool)
    (wait : WorkPtr → Outcome ε) (transportBarrier : Outcome ε) (op : Operation)
    (handle : Handle) (hseq : pg.seq_ < 2 ^ 64)
    (hcall : pg.call env buffer lock wait transportBarrier op = (Except.ok handle, pg')) :
    (op.isReduceScatter = false →
        pg'.seq_ = (pg.seq_ + 1) % 2 ^ 64
          ∧ (pg.seq_ + 1 < 2 ^ 64 → pg'.seq_ = pg.seq_ + 1)
          ∧ handle.getSequencenumber pg' = some pg'.seq_)
      ∧ (op.isReduceScatter = true →
        pg'.seq_ = (pg.seq_ + pg.size_) % 2 ^ 64 ∧ handle.getSequencenumber pg' = none)
      ∧ pg'.getSequenceNumberForGroup = pg'.seq_ := by
  have key : ∀ n, pg'.seq_ = (pg.seq_ + 1) % 2 ^ 64 → n = pg'.seq_ →
      pg'.seq_ = (pg.seq_ + 1) % 2 ^ 64
        ∧ (pg.seq_ + 1 < 2 ^ 64 → pg'.seq_ = pg.seq_ + 1) ∧ some n = some pg'.seq_ :=
    fun n h1 h2 => ⟨h1, fun hlt => by rw [h1, Nat.mod_eq_of_lt hlt], by rw [h2]⟩
  refine ⟨fun hop => ?_, fun hop => ?_, rfl⟩
  · cases op with
    | broadcast inputs rootRank rootTensor =>
      obtain ⟨w, hr, rfl⟩ := map_ok_inv _ _ _ _ hcall
      obtain ⟨h1, h2⟩ := broadcast_ok _ _ _ _ _ _ _ hr
      exact key _ h1 h2
    | allreduce inputs reduceOp =>
      obtain ⟨w, hr, rfl⟩ := map_ok_inv _ _ _ _ hcall
      obtain ⟨h1, h2⟩ := allreduce_ok _ _ _ _ _ _ hr
      exact key _ h1 h2
    | reduce inputs rootRank rootTensor =>
      obtain ⟨w, hr, rfl⟩ := map_ok_inv _ _ _ _ hcall
      obtain ⟨h1, h2⟩ := reduce_ok _ _ _ _ _ _ _ hr
      exact key _ h1 h2
    | allgather outputs inputs =>
      obtain ⟨w, hr, rfl⟩ := map_ok_inv _ _ _ _ hcall
      obtain ⟨h1, h2⟩ := allgather_ok _ _ _ _ _ _ hr
      exact key _ h1 h2
    | gather outputs inputs rootRank =>
      obtain ⟨w, hr, rfl⟩ := map_ok_inv _ _ _ _ hcall
      obtain ⟨h1, h2⟩ := gather_ok _ _ _ _ _ _ _ hr
      exact key _ h1 h2
    | scatter outputs inputs rootRank =>
      obtain ⟨w, hr, rfl⟩ := map_ok_inv _ _ _ _ hcall
      obtain ⟨h1, h2⟩ := scatter_ok _ _ _ _ _ _ _ hr
      exact key _ h1 h2
    | reduce_scatter outputs inputs reduceOp => cases hop
    | alltoall_base outputTensor inputTensor =>
      obtain ⟨w, hr, rfl⟩ := map_ok_inv _ _ _ _ hcall
      obtain ⟨h1, h2⟩ := alltoall_base_ok _ _ _ _ _ _ _ _ _ _ hr
      exact key _ h1 h2
    | send tensors dstRank tag =>
      obtain ⟨w, hr, rfl⟩ := map_ok_inv _ _ _ _ hcall
      obtain ⟨h1, h2⟩ := send_ok _ _ _ _ _ _ _ hr
      exact key _ h1 h2
    | recv tensors srcRank tag =>
      obtain ⟨w, hr, rfl⟩ := map_ok_inv _ _ _ _ hcall
      obtain ⟨h1, h2⟩ := recv_ok _ _ _ _ _ _ _ hr
      exact key _ h1 h2
    | recvAnysource tensors tag =>
      obtain ⟨w, hr, rfl⟩ := map_ok_inv _ _ _ _ hcall
      obtain ⟨h1, h2⟩ := recvAnysource_ok _ _ _ _ _ _ hr
      exact key _ h1 h2
    | barrier =>
      simp only [ProcessGroupGloo.call, Prod.mk.injEq, Except.ok.injEq] at hcall
      obtain ⟨rfl, rfl⟩ := hcall
      obtain ⟨h1, h2⟩ := barrier_ok pg env.alloc env.hook lock wait transportBarrier
      exact key _ h1 h2
  · cases op with
    | reduce_scatter outputs inputs reduceOp =>
      obtain ⟨w, hr, rfl⟩ := map_ok_inv _ _ _ _ hcall
      exact ⟨(reduce_scatter_ok _ _ _ _ _ _ _ hseq hr).1, rfl⟩
    | _ => cases hop

/-- C19, amended, at a `broadcast` and at a `send` on a group whose sequence number is zero: the
sequence number is one after the call. -/
theorem call_increments_sequence_number_witness :
    ((exampleTensorGroup 0 2).call exampleCollaborators (exampleBuffer [] 0 0)
        (fun _ => true) (fun _ => Outcome.returns) Outcome.returns
        (Operation.broadcast [exampleTensor] 0 0)).2.seq_ = (0 + 1) % 2 ^ 64
      ∧ ((exampleTensorGroup 0 2).call exampleCollaborators (exampleBuffer [] 0 0)
        (fun _ => true) (fun _ => Outcome.returns) Outcome.returns
        (Operation.send [exampleTensor] 1 7)).2.seq_ = (0 + 1) % 2 ^ 64 :=
  ⟨((call_increments_sequence_number (exampleTensorGroup 0 2) _ exampleCollaborators
      (exampleBuffer [] 0 0) (fun _ => true) (fun _ => Outcome.returns) Outcome.returns
      (Operation.broadcast [exampleTensor] 0 0) (Handle.async 100) (by decide) rfl).1 rfl).1,
    ((call_increments_sequence_number (exampleTensorGroup 0 2) _ exampleCollaborators
      (exampleBuffer [] 0 0) (fun _ => true) (fun _ => Outcome.returns) Outcome.returns
      (Operation.send [exampleTensor] 1 7)
      (Handle.send (SendWork.new exampleTensor (exampleBuffer [] 0 0) 1)) (by decide)
      rfl).1 rfl).1⟩

/-! ### A wait that returns false -/

/-- C21, as stated, fails: a send and a receive whose buffer wait returns false without raising.
`wait` returns false, and the work, not completed before the call, is completed after it. -/
theorem wait_false_marks_completed :
    (SendWork.new exampleTensor
        ⟨fun _ _ => none, fun _ _ => none, fun _ => Except.ok false,
          fun _ => Except.ok (false, -1)⟩ 1).completed_ = false
      ∧ ((SendWork.new exampleTensor
        ⟨fun _ _ => none, fun _ _ => none, fun _ => Except.ok false,
          fun _ => Except.ok (false, -1)⟩ 1).wait 500).2 = Except.ok false
      ∧ ((SendWork.new exampleTensor
        ⟨fun _ _ => none, fun _ _ => none, fun _ => Except.ok false,
          fun _ => Except.ok (false, -1)⟩ 1).wait 500).1.completed_ = true
      ∧ (RecvWork.new exampleTensor
        ⟨fun _ _ => none, fun _ _ => none, fun _ => Except.ok false,
          fun _ => Except.ok (false, -1)⟩ OpType.RECV 1).completed_ = false
      ∧ ((RecvWork.new exampleTensor
        ⟨fun _ _ => none, fun _ _ => none, fun _ => Except.ok false,
          fun _ => Except.ok (false, -1)⟩ OpType.RECV 1).wait 500).2 = Except.ok false
      ∧ ((RecvWork.new exampleTensor
        ⟨fun _ _ => none, fun _ _ => none, fun _ => Except.ok false,
          fun _ => Except.ok (false, -1)⟩ OpType.RECV 1).wait 500).1.completed_ = true :=
  ⟨rfl, rfl, rfl, rfl, rfl, rfl⟩

/-- C21, amended: when the wait on the buffer returns false without raising, `SendWork::wait`
and `RecvWork::wait` return false and leave the work completed with no exception stored, as
after a wait that returned true: `finishAndThrow` is called with a null exception whatever the
flag. The other members are as before the call, except `srcRank_`, which the buffer wrote. -/
theorem wait_false_returns_false_and_completes (sendWork : SendWork) (recvWork : RecvWork)
    (timeout : Int) :
    ((if timeout = kNoTimeout then sendWork.buffer_.waitSend none
        else sendWork.buffer_.waitSend (some timeout)) = Except.ok false →
      (sendWork.wait timeout).2 = Except.ok false
        ∧ (sendWork.wait timeout).1.completed_ = true
        ∧ (sendWork.wait timeout).1.exception_ = none
        ∧ (sendWork.wait timeout).1.tensor_ = sendWork.tensor_
        ∧ (sendWork.wait timeout).1.seq_ = sendWork.seq_)
      ∧ (∀ srcRank,
        (if timeout = kNoTimeout then recvWork.buffer_.waitRecv none
          else recvWork.buffer_.waitRecv (some timeout)) = Except.ok (false, srcRank) →
        (recvWork.wait timeout).2 = Except.ok false
          ∧ (recvWork.wait timeout).1.completed_ = true
          ∧ (recvWork.wait timeout).1.exception_ = none
          ∧ (recvWork.wait timeout).1.srcRank_ = srcRank
          ∧ (recvWork.wait timeout).1.tensor_ = recvWork.tensor_
          ∧ (recvWork.wait timeout).1.seq_ = recvWork.seq_)
      ∧ (∀ completed,
        (if timeout = kNoTimeout then sendWork.buffer_.waitSend none
          else sendWork.buffer_.waitSend (some timeout)) = Except.ok completed →
        (sendWork.wait timeout).2 = Except.ok completed
          ∧ (sendWork.wait timeout).1.completed_ = true
          ∧ (sendWork.wait timeout).1.exception_ = none)
      ∧ (∀ completed srcRank,
        (if timeout = kNoTimeout then recvWork.buffer_.waitRecv none
          else recvWork.buffer_.waitRecv (some timeout)) = Except.ok (completed, srcRank) →
        (recvWork.wait timeout).2 = Except.ok completed
          ∧ (recvWork.wait timeout).1.completed_ = true
          ∧ (recvWork.wait timeout).1.exception_ = none) := by
  refine ⟨fun h => ?_, fun srcRank h => ?_, fun completed h => ?_, fun completed srcRank h => ?_⟩
  · simp [SendWork.wait, finishAndThrow, h]
  · simp [RecvWork.wait, finishAndThrow, h]
  · simp [SendWork.wait, finishAndThrow, h]
  · simp [RecvWork.wait, finishAndThrow, h]

/-- C21, amended, at a send whose buffer wait returns false: `wait` returns false and the work
is completed. -/
theorem wait_false_returns_false_and_completes_witness :
    ((SendWork.new exampleTensor
        ⟨fun _ _ => none, fun _ _ => none, fun _ => Except.ok false,
          fun _ => Except.ok (false, -1)⟩ 1).wait 500).2 = Except.ok false
      ∧ ((SendWork.new exampleTensor
        ⟨fun _ _ => none, fun _ _ => none, fun _ => Except.ok false,
          fun _ => Except.ok (false, -1)⟩ 1).wait 500).1.completed_ = true :=
  have h := (wait_false_returns_false_and_completes
    (SendWork.new exampleTensor
      ⟨fun _ _ => none, fun _ _ => none, fun _ => Except.ok false,
        fun _ => Except.ok (false, -1)⟩ 1)
    (RecvWork.new exampleTensor
      ⟨fun _ _ => none, fun _ _ => none, fun _ => Except.ok false,
        fun _ => Except.ok (false, -1)⟩ OpType.RECV 1) 500).1 rfl
  ⟨h.1, h.2.1⟩

/-! ### Time budget and processed ranks of the wait loop -/

/-- In fail-fast mode the remaining time is the sentinel `-1` or a positive number of
milliseconds, the timeout less the whole milliseconds elapsed. -/
theorem getRemainingTime_fail_fast (now startTime timeout : Int) :
    (getRemainingTime now startTime timeout false = -1
        ∧ timeout - Int.tdiv (now - startTime) ticksPerMillisecond ≤ 0)
      ∨ (0 < getRemainingTime now startTime timeout false
        ∧ getRemainingTime now startTime timeout false
          = timeout - Int.tdiv (now - startTime) ticksPerMillisecond) := by
  unfold getRemainingTime
  simp only [Bool.false_eq_true, if_false]
  split
  · rename_i h
    exact Or.inl ⟨rfl, h⟩
  · rename_i h
    exact Or.inr ⟨by omega, rfl⟩

/-- The function `checkRemainingTime` raises exactly when the remaining time is negative. -/
theorem checkRemainingTime_isSome (timeout remaining : Int) (processed : List Nat)
    (current : Nat) :
    (checkRemainingTime timeout remaining processed current).isSome = true ↔ remaining < 0 := by
  unfold checkRemainingTime
  simp only
  split <;> simp [*]

/-- In fail-fast mode every call of `wait` the loop makes is given the remaining time computed
for its rank, and that remaining time is not negative. -/
theorem waitLoopBody_fail_fast_timeouts (rank : Nat) (timeout startTime : Int)
    (now : Nat → Int) (works : List (Nat × (Int → WaitResult))) (processedRanks : List Nat) :
    ∀ c ∈ (waitLoopBody rank timeout false startTime now works processedRanks).calls,
      c.timeout = getRemainingTime (now c.rank) startTime timeout false
        ∧ 0 ≤ c.timeout := by
  induction works generalizing processedRanks with
  | nil => simp [waitLoopBody]
  | cons w works ih =>
    obtain ⟨workRank, wait⟩ := w
    intro c hc
    cases hchk : checkRemainingTime timeout
        (getRemainingTime (now workRank) startTime timeout false) processedRanks rank with
    | some msg => simp [waitLoopBody, hchk] at hc
    | none =>
      have hnonneg : 0 ≤ getRemainingTime (now workRank) startTime timeout false := by
        have h := (checkRemainingTime_isSome timeout
          (getRemainingTime (now workRank) startTime timeout false) processedRanks rank).not
        rw [hchk] at h
        have h' := h.mp (by simp)
        omega
      cases hw : wait (getRemainingTime (now workRank) startTime timeout false) with
      | raised what =>
        simp only [waitLoopBody, hchk, hw, Bool.not_false, if_true, Bool.false_eq_true,
          if_false, List.mem_singleton] at hc
        subst hc
        exact ⟨rfl, hnonneg⟩
      | returned completed =>
        simp only [waitLoopBody, hchk, hw, Bool.not_false, if_true, List.singleton_append,
          List.mem_cons] at hc
        rcases hc with hc | hc
        · subst hc
          exact ⟨rfl, hnonneg⟩
        · exact ih (processedRanks ++ [workRank]) c hc

/-- C24: in fail-fast mode, with a clock that does not run backwards, every call of `wait` the
coordinator makes is given a timeout `t` with `0 < t` and `t` at most the barrier timeout (so
neither the sentinel `-1` nor `kNoTimeout`): the barrier timeout less the whole milliseconds
elapsed. `checkRemainingTime` raises exactly when the remaining time is negative, and its message
lists the ranks processed so far. When the budget is used up at the work of a rank, no `wait` is
made on it and the loop ends with that message. -/
theorem waitLoop_fail_fast_waits_within_budget (size rank : Nat) (timeout startTime : Int)
    (now : Nat → Int) (works : List (Nat × (Int → WaitResult)))
    (hclock : ∀ r, startTime ≤ now r) :
    (∀ c ∈ (waitLoop size rank timeout false startTime now works).calls,
        0 < c.timeout ∧ c.timeout ≤ timeout ∧ c.timeout ≠ kNoTimeout
          ∧ c.timeout = timeout - Int.tdiv (now c.rank - startTime) ticksPerMillisecond)
      ∧ (∀ remaining processed current,
        (checkRemainingTime timeout remaining processed current).isSome = true
          ↔ remaining < 0)
      ∧ (∀ remaining processed current, remaining < 0 →
        checkRemainingTime timeout remaining processed current
          = some ("Rank " ++ toString current ++ " timed out in monitoredBarrier after "
              ++ toString timeout ++ " ms." ++ "\n"
              ++ (if processed.isEmpty then
                    "No ranks successfully processed in monitoredBarrier."
                  else "Successfully processed ranks: " ++ joinRanks processed)))
      ∧ (∀ workRank wait rest processed,
        timeout - Int.tdiv (now workRank - startTime) ticksPerMillisecond ≤ 0 →
        waitLoopBody rank timeout false startTime now ((workRank, wait) :: rest) processed
          = ⟨[], processed,
              some ("[Rank 0]: Rank " ++ toString workRank
                ++ " failed to pass monitoredBarrier in " ++ toString timeout ++ " ms"
                ++ "\n Original exception: \n"
                ++ ("Rank " ++ toString rank ++ " timed out in monitoredBarrier after "
                  ++ toString timeout ++ " ms." ++ "\n"
                  ++ (if processed.isEmpty then
                        "No ranks successfully processed in monitoredBarrier."
                      else "Successfully processed ranks: " ++ joinRanks processed)))⟩) := by
  refine ⟨fun c hc => ?_, checkRemainingTime_isSome timeout, ?_, ?_⟩
  · rw [waitLoop_fail_fast_eq] at hc
    obtain ⟨heq, hnonneg⟩ :=
      waitLoopBody_fail_fast_timeouts rank timeout startTime now works [] c hc
    have helapsed : 0 ≤ Int.tdiv (now c.rank - startTime) ticksPerMillisecond :=
      Int.tdiv_nonneg (by have := hclock c.rank; omega) (by decide)
    rcases getRemainingTime_fail_fast (now c.rank) startTime timeout with ⟨h, -⟩ | ⟨hpos, hval⟩
    · rw [heq, h] at hnonneg
      exact absurd hnonneg (by decide)
    · rw [heq]
      refine ⟨hpos, by omega, ?_, hval⟩
      unfold kNoTimeout
      omega
  · intro remaining processed current hneg
    unfold checkRemainingTime
    simp only [hneg, if_true]
    cases processed <;> rfl
  · intro workRank wait rest processed hle
    have hrem : getRemainingTime (now workRank) startTime timeout false = -1 := by
      unfold getRemainingTime
      simp only [Bool.false_eq_true, if_false, hle, if_true]
    unfold waitLoopBody
    simp only [hrem, checkRemainingTime, Bool.not_false, if_true, Bool.false_eq_true, if_false]
    cases processed <;> rfl

/-- C24 at four ranks with a budget of 1000 ms, the clock reading 400 ms at rank 1, 800 ms
at rank 2 and 1200 ms at rank 3: the waits get 600 ms and 200 ms, and at rank 3 no wait is
made and the message lists the processed ranks 1 and 2. -/
theorem waitLoop_fail_fast_waits_within_budget_witness :
    ((waitLoop 4 0 1000 false 0 (fun r => r * 400000000)
        (rankWorks 4 fun _ _ => WaitResult.returned true)).calls.map WaitCall.timeout
        = [600, 200])
      ∧ (waitLoop 4 0 1000 false 0 (fun r => r * 400000000)
        (rankWorks 4 fun _ _ => WaitResult.returned true)).raised
        = some ("[Rank 0]: Rank 3 failed to pass monitoredBarrier in 1000 ms"
            ++ "\n Original exception: \n"
            ++ "Rank 0 timed out in monitoredBarrier after 1000 ms.\n"
            ++ "Successfully processed ranks: 1, 2")
      ∧ ∀ c ∈ (waitLoop 4 0 1000 false 0 (fun r => r * 400000000)
          (rankWorks 4 fun _ _ => WaitResult.returned true)).calls,
        0 < c.timeout ∧ c.timeout ≤ 1000 :=
  ⟨rfl, rfl,
    fun c hc =>
      have h := (waitLoop_fail_fast_waits_within_budget 4 0 1000 0
        (fun r => r * 400000000)
        (rankWorks 4 fun _ _ => WaitResult.returned true)
        (fun r => Int.mul_nonneg (Int.ofNat_nonneg r) (by decide))).1 c hc
      ⟨h.1, h.2.1⟩⟩

/-- In either mode `processedRanks` grows by the ranks of the calls of `wait` that returned, in
the order of the calls. -/
theorem waitLoopBody_processedRanks (rank : Nat) (timeout : Int) (waitAllRanks : Bool)
    (startTime : Int) (now : Nat → Int) (works : List (Nat × (Int → WaitResult)))
    (processedRanks : List Nat) :
    (waitLoopBody rank timeout waitAllRanks startTime now works processedRanks).processedRanks
      = processedRanks
        ++ ((waitLoopBody rank timeout waitAllRanks startTime now works
            processedRanks).calls.filter fun c => !c.result.isRaised).map WaitCall.rank := by
  induction works generalizing processedRanks with
  | nil => simp [waitLoopBody]
  | cons w works ih =>
    obtain ⟨workRank, wait⟩ := w
    cases waitAllRanks with
    | true =>
      cases hw : wait (getRemainingTime (now workRank) startTime timeout true) with
      | raised what =>
        simp only [waitLoopBody, hw, Bool.not_true, Bool.false_eq_true, if_false, if_true,
          List.singleton_append]
        rw [ih processedRanks]
        simp [WaitResult.isRaised]
      | returned completed =>
        simp only [waitLoopBody, hw, Bool.not_true, Bool.false_eq_true, if_false,
          List.singleton_append]
        rw [ih (processedRanks ++ [workRank])]
        simp [WaitResult.isRaised]
    | false =>
      cases hchk : checkRemainingTime timeout
          (getRemainingTime (now workRank) startTime timeout false) processedRanks rank with
      | some msg => simp [waitLoopBody, hchk]
      | none =>
        cases hw : wait (getRemainingTime (now workRank) startTime timeout false) with
        | raised what => simp [waitLoopBody, hchk, hw, WaitResult.isRaised]
        | returned completed =>
          simp only [waitLoopBody, hchk, hw, Bool.not_false, if_true, List.singleton_append]
          rw [ih (processedRanks ++ [workRank])]
          simp [WaitResult.isRaised]

/-- The check after the loop does not change `processedRanks`. -/
theorem waitLoop_processedRanks (size rank : Nat) (timeout : Int) (waitAllRanks : Bool)
    (startTime : Int) (now : Nat → Int) (works : List (Nat × (Int → WaitResult))) :
    (waitLoop size rank timeout waitAllRanks startTime now works).processedRanks
      = (waitLoopBody rank timeout waitAllRanks startTime now works []).processedRanks := by
  unfold waitLoop
  simp only
  split
  · rfl
  · split
    · split <;> rfl
    · rfl

/-- C28: in the wait loop of the coordinator, in either mode, the ranks recorded as processed are
the ranks of the calls of `wait` that raised no exception, in the order of the calls: a rank is
processed exactly when a wait on its work was made and returned. The flag that `wait` returns is
not read: a wait that returns false counts its rank as processed. -/
theorem waitLoop_processed_iff_wait_returned (size rank : Nat) (timeout : Int)
    (waitAllRanks : Bool) (startTime : Int) (now : Nat → Int)
    (works : List (Nat × (Int → WaitResult))) :
    (waitLoop size rank timeout waitAllRanks startTime now works).processedRanks
        = ((waitLoop size rank timeout waitAllRanks startTime now works).calls.filter
            fun c => !c.result.isRaised).map WaitCall.rank
      ∧ (∀ r, r ∈ (waitLoop size rank timeout waitAllRanks startTime now works).processedRanks
          ↔ ∃ c ∈ (waitLoop size rank timeout waitAllRanks startTime now works).calls,
              c.rank = r ∧ ∃ completed, c.result = WaitResult.returned completed)
      ∧ (∀ c ∈ (waitLoop size rank timeout waitAllRanks startTime now works).calls,
          c.result = WaitResult.returned false →
            c.rank ∈ (waitLoop size rank timeout waitAllRanks startTime now
              works).processedRanks) := by
  have hlist : (waitLoop size rank timeout waitAllRanks startTime now works).processedRanks
      = ((waitLoop size rank timeout waitAllRanks startTime now works).calls.filter
          fun c => !c.result.isRaised).map WaitCall.rank := by
    rw [waitLoop_processedRanks, waitLoop_calls, waitLoopBody_processedRanks]
    rfl
  have hmem : ∀ r, r ∈ (waitLoop size rank timeout waitAllRanks startTime now
        works).processedRanks
      ↔ ∃ c ∈ (waitLoop size rank timeout waitAllRanks startTime now works).calls,
          c.rank = r ∧ ∃ completed, c.result = WaitResult.returned completed := by
    intro r
    rw [hlist, List.mem_map]
    constructor
    · rintro ⟨c, hc, rfl⟩
      rw [List.mem_filter] at hc
      refine ⟨c, hc.1, rfl, ?_⟩
      cases hres : c.result with
      | returned completed => exact ⟨completed, rfl⟩
      | raised what =>
        have := hc.2
        rw [hres] at this
        simp [WaitResult.isRaised] at this
    · rintro ⟨c, hc, rfl, completed, hres⟩
      exact ⟨c, List.mem_filter.mpr ⟨hc, by rw [hres]; rfl⟩, rfl⟩
  exact ⟨hlist, hmem, fun c hc hres => (hmem c.rank).mpr ⟨c, hc, rfl, false, hres⟩⟩

/-- C28 at four ranks in collect-all mode, the wait on rank 2 returning false and the wait on
rank 3 raising: ranks 1 and 2 are processed, rank 3 is not. -/
theorem waitLoop_processed_iff_wait_returned_witness :
    (waitLoop 4 0 1000 true 0 (fun _ => 0)
        (rankWorks 4 fun r _ =>
          if r = 3 then WaitResult.raised "timed out"
          else WaitResult.returned (decide (r ≠ 2)))).processedRanks = [1, 2] :=
  ((waitLoop_processed_iff_wait_returned 4 0 1000 true 0 (fun _ => 0)
      (rankWorks 4 fun r _ =>
        if r = 3 then WaitResult.raised "timed out"
        else WaitResult.returned (decide (r ≠ 2)))).1).trans rfl

/-! ### Tags of the monitored barrier -/

/-- C25 fails from a tag counter of `2 ^ 31` on: `static_cast<int>` makes the tag negative and
the tag check of `send` and `recv` rejects it. With the counter at `2 ^ 31`, rank 1 of two ranks
raises "Tag must be nonnegative" at its `send`, and rank 0 at its first `recv`; with the counter
at `2 ^ 31 - 1` the first tag passes and rank 1 raises at its `recv`, after the send was posted.
In general the tag check accepts the converted tag exactly when the tag is below `2 ^ 31`. (The
two tags drawn are distinct for every value of the counter.) -/
theorem monitoredBarrier_rejects_tags_from_2_pow_31 :
    (({ exampleRank 1 2 with collectiveCounter_ := 2 ^ 31 }).monitoredBarrier 1800000 1000
        false (exampleBuffer []) 0 (fun _ _ => 0)).1
        = ⟨[BarrierCall.send 0 (-2147483648)], some "Tag must be nonnegative"⟩
      ∧ (({ exampleRank 0 2 with collectiveCounter_ := 2 ^ 31 }).monitoredBarrier 1800000 1000
        false (exampleBuffer []) 0 (fun _ _ => 0)).1
        = ⟨[BarrierCall.recv 1 (-2147483648)], some "Tag must be nonnegative"⟩
      ∧ (({ exampleRank 1 2 with collectiveCounter_ := 2 ^ 31 - 1 }).monitoredBarrier 1800000
        1000 false (exampleBuffer []) 0 (fun _ _ => 0)).1
        = ⟨[BarrierCall.send 0 2147483647, BarrierCall.recv 0 (-2147483648)],
            some "Tag must be nonnegative"⟩
      ∧ (∀ t, t < 2 ^ 32 → ((checkTag (toInt32 t)).toOption.isSome = true ↔ t < 2 ^ 31))
      ∧ (∀ t, t < 2 ^ 32 → t ≠ (t + 1) % 2 ^ 32) := by
  refine ⟨by decide, by decide, by decide, fun t ht => ?_, fun t ht => by omega⟩
  unfold checkTag toInt32
  by_cases h : t < 2 ^ 31
  · have h0 : (0 : Int) ≤ (t : Int) := Int.ofNat_nonneg t
    rw [if_pos h, if_pos h0]
    exact ⟨fun _ => h, fun _ => rfl⟩
  · have hneg : ¬ (0 : Int) ≤ (t : Int) - 2 ^ 32 := by omega
    rw [if_neg h, if_neg hneg]
    exact ⟨fun hh => by simp [Except.toOption] at hh, fun hh => absurd hh h⟩

/-! ### The source ranks of `recvAnysource` -/

/-- C27 fails for every group that is not empty: `srcRanks.resize(size_)` fills the list with
`size_` zeros before the loop appends the ranks. On a group of two ranks, over a transport whose
`recv` reports the list it is given, the list is `0, 0, 0, 1`. In general a successful call has
given the transport `size_` zeros followed by `0, ..., size_ - 1`, a list of length
`2 * size_`. -/
theorem recvAnysource_passes_zeros_and_ranks :
    ((exampleRank 0 2).recvAnysource [exampleTensor] 7
        ⟨fun _ _ => none, fun ranks _ => some (joinRanks ranks), fun _ => Except.ok true,
          fun _ => Except.ok (true, 0)⟩).1.toOption = none
      ∧ (match ((exampleRank 0 2).recvAnysource [exampleTensor] 7
          ⟨fun _ _ => none, fun ranks _ => some (joinRanks ranks), fun _ => Except.ok true,
            fun _ => Except.ok (true, 0)⟩).1 with
        | Except.error what => what
        | Except.ok _ => "") = "0, 0, 0, 1"
      ∧ (∀ (pg pg' : ProcessGroupGloo Nat Nat Nat) (tensors : List Tensor) (tag : Int)
          (buffer : UnboundBuffer) (work : RecvWork),
          pg.recvAnysource tensors tag buffer = (Except.ok work, pg') →
            buffer.recv (List.replicate pg.size_ 0 ++ List.range pg.size_) tag.toNat = none
              ∧ (List.replicate pg.size_ 0 ++ List.range pg.size_).length = 2 * pg.size_) := by
  refine ⟨rfl, rfl, fun pg pg' tensors tag buffer work h => ⟨?_, by simp; omega⟩⟩
  unfold ProcessGroupGloo.recvAnysource checkTag at h
  cases hs : checkSingleTensor tensors with
  | error msg => simp [hs] at h
  | ok tensor =>
    by_cases htag : 0 ≤ tag
    · simp only [hs, htag, if_true] at h
      cases hrecv : buffer.recv (List.replicate pg.size_ 0 ++ List.range pg.size_)
          tag.toNat with
      | some what => simp [hrecv] at h
      | none => rfl
    · simp [hs, htag] at h

/-! ### `AsyncWork::getTimeout` -/

/-- C26 fails when a timeout is given that differs from the timeout of the context: a work
constructed with a timeout of 5000 ms on a context whose timeout is 30000 ms keeps 5000 ms in
`timeout_`, and `getTimeout()` returns 30000 ms. In general `getTimeout()` returns the timeout of
the context whatever timeout was given, while `timeout_` holds the effective timeout. -/
theorem getTimeout_returns_context_timeout (context : Context) (timeout : Int) :
    (AsyncWorkTimeout.new context timeout).getTimeout = context.getTimeout
      ∧ (AsyncWorkTimeout.new context timeout).timeout_
        = (if timeout = kUnsetTimeout then context.getTimeout else timeout)
      ∧ (AsyncWorkTimeout.new ⟨30000⟩ 5000).getTimeout = 30000
      ∧ (AsyncWorkTimeout.new ⟨30000⟩ 5000).timeout_ = 5000 :=
  ⟨rfl, rfl, rfl, rfl⟩

/-! ### The invariant of the queue and the worker slots -/

/-- The four shapes of a step, as the queue, the slots, the workers and the ghost lists see it:
an `enqueue` appends a work to the queue; a quiet step leaves queue and slots alone and moves at
most one worker between states that hold the same work; a take pops the head of the queue into
the slot of a waiting worker; a finish resets the slot of a running worker. -/
theorem step_shape {ε τ κ : Type} (s : Engine ε τ κ) (a : Action) :
    (∃ p, (s.step a).enqueued = s.enqueued ++ [p]
        ∧ (s.step a).pg.workQueue_ = s.pg.workQueue_ ++ [p]
        ∧ (s.step a).pg.workInProgress_ = s.pg.workInProgress_
        ∧ (s.step a).workers = s.workers
        ∧ (s.step a).dequeued = s.dequeued)
      ∨ ((s.step a).enqueued = s.enqueued
        ∧ (s.step a).pg.workQueue_ = s.pg.workQueue_
        ∧ (s.step a).pg.workInProgress_ = s.pg.workInProgress_
        ∧ (s.step a).dequeued = s.dequeued
        ∧ ((s.step a).workers = s.workers
          ∨ ∃ (i : Nat) (w w' : Worker ε), s.workers[i]? = some w
              ∧ (s.step a).workers = s.workers.set i w' ∧ w'.slot = w.slot))
      ∨ (∃ (i : Nat) (work : WorkPtr) (rest : List WorkPtr),
          s.workers[i]? = some Worker.waiting
            ∧ s.pg.workQueue_ = work :: rest
            ∧ (s.step a).enqueued = s.enqueued
            ∧ (s.step a).pg.workQueue_ = rest
            ∧ (s.step a).pg.workInProgress_ = s.pg.workInProgress_.set i (some work)
            ∧ (s.step a).workers = s.workers.set i (Worker.running work)
            ∧ (s.step a).dequeued = s.dequeued ++ [work])
      ∨ (∃ (i : Nat) (work : WorkPtr),
          s.workers[i]? = some (Worker.running work)
            ∧ (s.step a).enqueued = s.enqueued
            ∧ (s.step a).pg.workQueue_ = s.pg.workQueue_
            ∧ (s.step a).pg.workInProgress_ = s.pg.workInProgress_.set i none
            ∧ (s.step a).workers = s.workers.set i Worker.waiting
            ∧ (s.step a).dequeued = s.dequeued) := by
  cases a with
  | enqueue work => exact Or.inl ⟨work, rfl, rfl, rfl, rfl, rfl⟩
  | destructor =>
    refine Or.inr (Or.inl ?_)
    simp only [Engine.step, Engine.runDestructor]
    split
    · split <;> exact ⟨rfl, rfl, rfl, rfl, Or.inl rfl⟩
    · split <;> exact ⟨rfl, rfl, rfl, rfl, Or.inl rfl⟩
    · split <;> exact ⟨rfl, rfl, rfl, rfl, Or.inl rfl⟩
    · exact ⟨rfl, rfl, rfl, rfl, Or.inl rfl⟩
  | worker i =>
    cases hw : s.workers[i]? with
    | none =>
      rw [step_worker_none s i hw]
      exact Or.inr (Or.inl ⟨rfl, rfl, rfl, rfl, Or.inl rfl⟩)
    | some w =>
      obtain ⟨hpg, hworkers, henq, -⟩ := step_worker_some s i w hw
      cases w with
      | waiting =>
        cases hstop : s.pg.stop_ with
        | true =>
          rw [runLoop_waiting_stop s.pg i hstop] at hpg hworkers
          have hdeq : (s.step (Action.worker i)).dequeued = s.dequeued := by
            simp only [Engine.step, hw, runLoop_waiting_stop s.pg i hstop]
          exact Or.inr (Or.inl ⟨henq, by rw [hpg], by rw [hpg], hdeq,
            Or.inr ⟨i, _, _, hw, hworkers, rfl⟩⟩)
        | false =>
          cases hq : s.pg.workQueue_ with
          | nil =>
            rw [runLoop_waiting_empty s.pg i hstop hq] at hpg hworkers
            have hdeq : (s.step (Action.worker i)).dequeued = s.dequeued := by
              simp only [Engine.step, hw, runLoop_waiting_empty s.pg i hstop hq]
            exact Or.inr (Or.inl ⟨henq, by rw [hpg, hq], by rw [hpg], hdeq,
              Or.inr ⟨i, _, _, hw, hworkers, rfl⟩⟩)
          | cons work rest =>
            rw [runLoop_waiting_take s.pg i work rest hstop hq] at hpg hworkers
            have hdeq : (s.step (Action.worker i)).dequeued = s.dequeued ++ [work] := by
              simp only [Engine.step, hw, runLoop_waiting_take s.pg i work rest hstop hq]
            exact Or.inr (Or.inr (Or.inl ⟨i, work, rest, hw, rfl, henq, by rw [hpg]; rfl,
              by rw [hpg]; rfl, hworkers, hdeq⟩))
      | running work =>
        cases hex : (s.pg.works work).execute.2 with
        | none =>
          rw [runLoop_running_of_returns s.pg i work hex] at hpg hworkers
          have hdeq : (s.step (Action.worker i)).dequeued = s.dequeued := by
            simp only [Engine.step, hw, runLoop_running_of_returns s.pg i work hex]
          exact Or.inr (Or.inr (Or.inr ⟨i, work, hw, henq, by rw [hpg]; rfl,
            by rw [hpg]; rfl, hworkers, hdeq⟩))
        | some e =>
          rw [runLoop_running_of_raises s.pg i work e hex] at hpg hworkers
          have hdeq : (s.step (Action.worker i)).dequeued = s.dequeued := by
            simp only [Engine.step, hw, runLoop_running_of_raises s.pg i work e hex]
          exact Or.inr (Or.inl ⟨henq, by rw [hpg]; rfl, by rw [hpg]; rfl, hdeq,
            Or.inr ⟨i, _, _, hw, hworkers, rfl⟩⟩)
      | exited =>
        have hdeq : (s.step (Action.worker i)).dequeued = s.dequeued := by
          simp only [Engine.step, hw, ProcessGroupGloo.runLoop]
        exact Or.inr (Or.inl ⟨henq, by rw [hpg]; rfl, by rw [hpg]; rfl, hdeq,
          Or.inr ⟨i, _, _, hw, hworkers, rfl⟩⟩)
      | terminated work e =>
        have hdeq : (s.step (Action.worker i)).dequeued = s.dequeued := by
          simp only [Engine.step, hw, ProcessGroupGloo.runLoop]
        exact Or.inr (Or.inl ⟨henq, by rw [hpg]; rfl, by rw [hpg]; rfl, hdeq,
          Or.inr ⟨i, _, _, hw, hworkers, rfl⟩⟩)

/-- Replacing an entry by one with the same image leaves the image of the list alone. -/
theorem map_set_same {α β : Type} (f : α → β) (l : List α) (i : Nat) (a a' : α)
    (h : l[i]? = some a) (hf : f a' = f a) : (l.set i a').map f = l.map f := by
  induction l generalizing i with
  | nil => rfl
  | cons b l ih =>
    cases i with
    | zero =>
      simp only [List.getElem?_cons_zero, Option.some.injEq] at h
      subst h
      simp [hf]
    | succ i =>
      simp only [List.getElem?_cons_succ] at h
      simp [ih i h]

/-- One step keeps the invariant of the queue and the slots, as long as no work was enqueued
twice. -/
theorem step_consistent {ε τ κ : Type} (s : Engine ε τ κ) (a : Action)
    (h : s.Consistent) (hnodup : s.enqueued.Nodup) : (s.step a).Consistent := by
  obtain ⟨hR, hQ, hS, hU⟩ := h
  have hlen : s.pg.workInProgress_.length = s.workers.length := by
    rw [hR, List.length_map]
  rcases step_shape s a with ⟨p, he, hq, hs, hw, hd⟩ | ⟨he, hq, hs, hd, hw⟩
    | ⟨i, work, rest, hwi, hqueue, he, hq, hs, hw, hd⟩ | ⟨i, work, hwi, he, hq, hs, hw, hd⟩
  · unfold Engine.Consistent
    rw [hs, hw, hq, hd, he]
    exact ⟨hR, by rw [← hQ, List.append_assoc], hS, hU⟩
  · unfold Engine.Consistent
    rw [hs, hq, hd, he]
    refine ⟨?_, hQ, hS, hU⟩
    rcases hw with hw | ⟨i, w, w', hwi, hw, hslot⟩
    · rw [hw]
      exact hR
    · rw [hw, map_set_same Worker.slot s.workers i w w' hwi hslot]
      exact hR
  · have hi : i < s.pg.workInProgress_.length := by
      rw [hlen]
      exact (List.getElem?_eq_some.mp hwi).1
    have hfresh : work ∉ s.dequeued := by
      intro hmem
      rw [← hQ, hqueue] at hnodup
      exact List.disjoint_of_nodup_append hnodup hmem (List.mem_cons_self _ _)
    unfold Engine.Consistent
    rw [hs, hw, hq, hd, he]
    refine ⟨?_, ?_, ?_, ?_⟩
    · rw [List.map_set, ← hR]
      rfl
    · rw [← hQ, hqueue, List.append_assoc]
      rfl
    · intro j w hj
      rw [List.getElem?_set] at hj
      by_cases hij : i = j
      · rw [if_pos hij, if_pos hi] at hj
        simp only [Option.some.injEq] at hj
        subst hj
        simp
      · rw [if_neg hij] at hj
        exact List.mem_append_left _ (hS j w hj)
    · intro j k w hj hk
      rw [List.getElem?_set] at hj hk
      by_cases hij : i = j
      · by_cases hik : i = k
        · rw [← hij, ← hik]
        · rw [if_pos hij, if_pos hi] at hj
          rw [if_neg hik] at hk
          simp only [Option.some.injEq] at hj
          subst hj
          exact absurd (hS k work hk) hfresh
      · by_cases hik : i = k
        · rw [if_neg hij] at hj
          rw [if_pos hik, if_pos hi] at hk
          simp only [Option.some.injEq] at hk
          subst hk
          exact absurd (hS j work hj) hfresh
        · rw [if_neg hij] at hj
          rw [if_neg hik] at hk
          exact hU j k w hj hk
  · unfold Engine.Consistent
    rw [hs, hw, hq, hd, he]
    refine ⟨?_, hQ, ?_, ?_⟩
    · rw [List.map_set, ← hR]
      rfl
    · intro j w hj
      rw [List.getElem?_set] at hj
      by_cases hij : i = j
      · rw [if_pos hij] at hj
        split at hj <;> simp at hj
      · rw [if_neg hij] at hj
        exact hS j w hj
    · intro j k w hj hk
      rw [List.getElem?_set] at hj hk
      by_cases hij : i = j
      · rw [if_pos hij] at hj
        split at hj <;> simp at hj
      · by_cases hik : i = k
        · rw [if_pos hik] at hk
          split at hk <;> simp at hk
        · rw [if_neg hij] at hj
          rw [if_neg hik] at hk
          exact hU j k w hj hk

/-- The works enqueued so far are an initial segment of the works enqueued after a step. -/
theorem step_enqueued_initial {ε τ κ : Type} (s : Engine ε τ κ) (a : Action) :
    s.enqueued <+: (s.step a).enqueued := by
  rcases step_shape s a with ⟨p, he, -⟩ | ⟨he, -⟩ | ⟨i, work, rest, -, -, he, -⟩
    | ⟨i, work, -, he, -⟩
  · rw [he]
    exact List.prefix_append _ _
  · rw [he]
  · rw [he]
  · rw [he]

/-- The works enqueued so far are an initial segment of the works enqueued after a schedule. -/
theorem run_enqueued_initial {ε τ κ : Type} (schedule : List Action) (s : Engine ε τ κ) :
    s.enqueued <+: (s.run schedule).enqueued := by
  induction schedule generalizing s with
  | nil => exact List.prefix_refl _
  | cons a schedule ih => exact (step_enqueued_initial s a).trans (ih (s.step a))

/-- A schedule keeps the invariant of the queue and the slots, as long as it enqueues no work
twice. -/
theorem run_consistent {ε τ κ : Type} (schedule : List Action) (s : Engine ε τ κ)
    (h : s.Consistent) (hnodup : (s.run schedule).enqueued.Nodup) :
    (s.run schedule).Consistent := by
  induction schedule generalizing s with
  | nil => exact h
  | cons a schedule ih =>
    have hs : s.enqueued.Nodup :=
      List.Nodup.sublist (run_enqueued_initial (a :: schedule) s).sublist hnodup
    exact ih (s.step a) (step_consistent s a h hs) hnodup

/-- The engine right after the constructor, with an empty queue and empty slots, satisfies the
invariant of the queue and the slots. -/
theorem start_consistent {ε τ κ : Type} (pg : ProcessGroupGloo ε τ κ)
    (hqueue : pg.workQueue_ = []) (hslots : ∀ slot ∈ pg.workInProgress_, slot = none) :
    (Engine.start pg).Consistent := by
  have hnone : ∀ (i : Nat) (w : WorkPtr), pg.workInProgress_[i]? ≠ some (some w) := by
    intro i w hi
    have hmem := List.getElem?_mem hi
    exact absurd (hslots _ hmem) (by simp)
  refine ⟨?_, ?_, fun i w hi => absurd hi (hnone i w), fun i j w hi _ => absurd hi (hnone i w)⟩
  · show pg.workInProgress_
      = (List.replicate pg.workInProgress_.length Worker.waiting).map Worker.slot
    rw [List.map_replicate]
    exact List.eq_replicate_iff.mpr ⟨rfl, hslots⟩
  · show [] ++ pg.workQueue_ = []
    rw [hqueue]
    rfl

/-- A step does not change the number of slots. -/
theorem step_slots_length {ε τ κ : Type} (s : Engine ε τ κ) (a : Action) :
    (s.step a).pg.workInProgress_.length = s.pg.workInProgress_.length := by
  rcases step_shape s a with ⟨p, -, -, hs, -⟩ | ⟨-, -, hs, -⟩ | ⟨i, work, rest, -, -, -, -, hs, -⟩
    | ⟨i, work, -, -, -, hs, -⟩
  · rw [hs]
  · rw [hs]
  · rw [hs, List.length_set]
  · rw [hs, List.length_set]

/-- A schedule does not change the number of slots. -/
theorem run_slots_length {ε τ κ : Type} (schedule : List Action) (s : Engine ε τ κ) :
    (s.run schedule).pg.workInProgress_.length = s.pg.workInProgress_.length := by
  induction schedule generalizing s with
  | nil => rfl
  | cons a schedule ih => exact (ih (s.step a)).trans (step_slots_length s a)

/-- A work that was dequeued and is in no slot stays so after a step, as long as no work is
enqueued twice. -/
theorem step_finished {ε τ κ : Type} (s : Engine ε τ κ) (a : Action) (w : WorkPtr)
    (h : s.Consistent) (hnodup : s.enqueued.Nodup) (hdeq : w ∈ s.dequeued)
    (hout : ∀ i : Nat, s.pg.workInProgress_[i]? ≠ some (some w)) :
    w ∈ (s.step a).dequeued
      ∧ ∀ i : Nat, (s.step a).pg.workInProgress_[i]? ≠ some (some w) := by
  obtain ⟨-, hQ, -, -⟩ := h
  rcases step_shape s a with ⟨p, -, -, hs, -, hd⟩ | ⟨-, -, hs, hd, -⟩
    | ⟨i, work, rest, -, hqueue, -, -, hs, -, hd⟩ | ⟨i, work, -, -, -, hs, -, hd⟩
  · rw [hs, hd]
    exact ⟨hdeq, hout⟩
  · rw [hs, hd]
    exact ⟨hdeq, hout⟩
  · have hne : work ≠ w := by
      rintro rfl
      rw [← hQ, hqueue] at hnodup
      exact List.disjoint_of_nodup_append hnodup hdeq (List.mem_cons_self _ _)
    rw [hs, hd]
    refine ⟨List.mem_append_left _ hdeq, fun j hj => ?_⟩
    rw [List.getElem?_set] at hj
    by_cases hij : i = j
    · rw [if_pos hij] at hj
      split at hj
      · simp only [Option.some.injEq] at hj
        exact hne hj
      · simp at hj
    · rw [if_neg hij] at hj
      exact hout j hj
  · rw [hs, hd]
    refine ⟨hdeq, fun j hj => ?_⟩
    rw [List.getElem?_set] at hj
    by_cases hij : i = j
    · rw [if_pos hij] at hj
      split at hj <;> simp at hj
    · rw [if_neg hij] at hj
      exact hout j hj

/-- A work that was dequeued and is in no slot stays so after a schedule, as long as no work is
enqueued twice. -/
theorem run_finished {ε τ κ : Type} (schedule : List Action) (s : Engine ε τ κ) (w : WorkPtr)
    (h : s.Consistent) (hnodup : (s.run schedule).enqueued.Nodup) (hdeq : w ∈ s.dequeued)
    (hout : ∀ i : Nat, s.pg.workInProgress_[i]? ≠ some (some w)) :
    w ∈ (s.run schedule).dequeued
      ∧ ∀ i : Nat, (s.run schedule).pg.workInProgress_[i]? ≠ some (some w) := by
  induction schedule generalizing s with
  | nil => exact ⟨hdeq, hout⟩
  | cons a schedule ih =>
    have hs : s.enqueued.Nodup :=
      List.Nodup.sublist (run_enqueued_initial (a :: schedule) s).sublist hnodup
    obtain ⟨hdeq', hout'⟩ := step_finished s a w h hs hdeq hout
    exact ih (s.step a) (step_consistent s a h hs) hnodup hdeq' hout'

/-- C23: over every schedule of `enqueue` steps, worker steps and destructor steps that starts
with an empty queue and empty slots and enqueues no work twice, at every state reached: the slot
table has the size it was constructed with; a slot holds a work exactly when its worker is
executing that work or was terminated while executing it (a slot is one pointer, so it holds at
most one work); no work is in the queue and in a slot; no work is in two slots; no work is twice
in the queue; no work was dequeued twice; and a work that was dequeued and has left its slot is,
after every continuation of the schedule, neither in the queue nor in any slot. -/
theorem queue_and_slots_hold_each_work_once {ε τ κ : Type} (pg : ProcessGroupGloo ε τ κ)
    (before later : List Action) (hqueue : pg.workQueue_ = [])
    (hslots : ∀ slot ∈ pg.workInProgress_, slot = none)
    (honce : (((Engine.start pg).run before).run later).enqueued.Nodup) :
    ((Engine.start pg).run before).pg.workInProgress_.length = pg.workInProgress_.length
      ∧ (∀ (i : Nat) (w : WorkPtr),
          ((Engine.start pg).run before).pg.workInProgress_[i]? = some (some w)
            ↔ (((Engine.start pg).run before).workers[i]? = some (Worker.running w)
              ∨ ∃ e, ((Engine.start pg).run before).workers[i]?
                  = some (Worker.terminated w e)))
      ∧ (∀ w ∈ ((Engine.start pg).run before).pg.workQueue_, ∀ i : Nat,
          ((Engine.start pg).run before).pg.workInProgress_[i]? ≠ some (some w))
      ∧ (∀ (i j : Nat) (w : WorkPtr),
          ((Engine.start pg).run before).pg.workInProgress_[i]? = some (some w) →
          ((Engine.start pg).run before).pg.workInProgress_[j]? = some (some w) → i = j)
      ∧ ((Engine.start pg).run before).pg.workQueue_.Nodup
      ∧ ((Engine.start pg).run before).dequeued.Nodup
      ∧ (∀ w ∈ ((Engine.start pg).run before).dequeued,
          (∀ i : Nat, ((Engine.start pg).run before).pg.workInProgress_[i]? ≠ some (some w)) →
            w ∉ (((Engine.start pg).run before).run later).pg.workQueue_
              ∧ ∀ i : Nat, (((Engine.start pg).run before).run later).pg.workInProgress_[i]?
                  ≠ some (some w)) := by
  have hnodup : ((Engine.start pg).run before).enqueued.Nodup :=
    List.Nodup.sublist (run_enqueued_initial later _).sublist honce
  have hcons : ((Engine.start pg).run before).Consistent :=
    run_consistent before _ (start_consistent pg hqueue hslots) hnodup
  have hcons' : (((Engine.start pg).run before).run later).Consistent :=
    run_consistent later _ hcons honce
  obtain ⟨hR, hQ, hS, hU⟩ := hcons
  have hsplit := hnodup
  rw [← hQ] at hsplit
  refine ⟨run_slots_length before _, fun i w => ?_, fun w hw i hi => ?_, hU,
    List.Nodup.of_append_right hsplit, List.Nodup.of_append_left hsplit,
    fun w hdeq hout => ?_⟩
  · rw [hR, List.getElem?_map]
    cases ((Engine.start pg).run before).workers[i]? with
    | none => simp
    | some worker => cases worker <;> simp [Worker.slot]
  · exact List.disjoint_of_nodup_append hsplit (hS i w hi) hw
  · obtain ⟨hdeq', hout'⟩ := run_finished later _ w ⟨hR, hQ, hS, hU⟩ honce hdeq hout
    refine ⟨fun hmem => ?_, hout'⟩
    have hsplit' := honce
    rw [← hcons'.2.1] at hsplit'
    exact List.disjoint_of_nodup_append hsplit' hdeq' hmem

/-- C23 at two workers and three works: works 5 and 6 are enqueued and taken by workers 1 and 0,
worker 1 finishes work 5, and then work 7 is enqueued and taken by worker 1. The two slots hold
works 6 and 7, and work 5, once finished, is in no slot and not in the queue. -/
theorem queue_and_slots_hold_each_work_once_witness :
    (((Engine.start (exampleGroup [10] 2 (exampleWork none Outcome.returns Outcome.returns))).run
        [Action.enqueue 5, Action.enqueue 6, Action.worker 1, Action.worker 0,
          Action.worker 1]).run
        [Action.enqueue 7, Action.worker 1]).pg.workInProgress_ = [some 6, some 7]
      ∧ 5 ∉ (((Engine.start
          (exampleGroup [10] 2 (exampleWork none Outcome.returns Outcome.returns))).run
        [Action.enqueue 5, Action.enqueue 6, Action.worker 1, Action.worker 0,
          Action.worker 1]).run
        [Action.enqueue 7, Action.worker 1]).pg.workQueue_ :=
  ⟨by decide,
    ((queue_and_slots_hold_each_work_once
      (exampleGroup [10] 2 (exampleWork none Outcome.returns Outcome.returns))
      [Action.enqueue 5, Action.enqueue 6, Action.worker 1, Action.worker 0, Action.worker 1]
      [Action.enqueue 7, Action.worker 1] rfl (by decide) (by decide)).2.2.2.2.2.2 5
      (by decide)
      (fun i => by
        have hs : ((Engine.start
              (exampleGroup [10] 2 (exampleWork none Outcome.returns Outcome.returns))).run
            [Action.enqueue 5, Action.enqueue 6, Action.worker 1, Action.worker 0,
              Action.worker 1]).pg.workInProgress_ = [some 6, none] := by decide
        rw [hs]
        match i with
        | 0 => decide
        | 1 => decide
        | i + 2 => simp)).1⟩

/-! ### Device staging of the broadcast -/

/-- A loop over `irange(n)` that appends the calls of each pass appends them in order. -/
theorem foldl_append_calls {α : Type} (f : Nat → List α) (n : Nat) (init : List α) :
    (List.range n).foldl (fun calls i => calls ++ f i) init
      = init ++ ((List.range n).map f).flatten := by
  induction n with
  | zero => simp
  | succ n ih =>
    rw [List.range_succ, List.foldl_append, ih]
    simp [List.append_assoc]

/-- The loop of `run` that copies `tmp` back to the inputs: after `n` passes the first `n` inputs
hold the contents of `tmp`, the others are untouched, and every pass has issued its copy and
recorded its event, in order. -/
theorem copyBack_loop (n : Nat) (work : AsyncBroadcastCUDAWork) :
    ((List.range n).foldl
        (fun work i =>
          { work with
            inputs := work.inputs.set i (copy_ (work.inputs.getD i []) work.tmp)
            calls := work.calls ++ [StagingCall.copyFromHost i (Stream.pool i),
              StagingCall.record i (Stream.pool i)] })
        work).tmp = work.tmp
      ∧ (∀ i : Nat, ((List.range n).foldl
        (fun work i =>
          { work with
            inputs := work.inputs.set i (copy_ (work.inputs.getD i []) work.tmp)
            calls := work.calls ++ [StagingCall.copyFromHost i (Stream.pool i),
              StagingCall.record i (Stream.pool i)] })
        work).inputs[i]?
          = if i < n then work.inputs[i]?.map (fun _ => work.tmp) else work.inputs[i]?)
      ∧ ((List.range n).foldl
        (fun work i =>
          { work with
            inputs := work.inputs.set i (copy_ (work.inputs.getD i []) work.tmp)
            calls := work.calls ++ [StagingCall.copyFromHost i (Stream.pool i),
              StagingCall.record i (Stream.pool i)] })
        work).calls
          = work.calls ++ ((List.range n).map fun i =>
              [StagingCall.copyFromHost i (Stream.pool i),
                StagingCall.record i (Stream.pool i)]).flatten := by
  induction n with
  | zero => simp
  | succ n ih =>
    obtain ⟨htmp, hinputs, hcalls⟩ := ih
    rw [List.range_succ, List.foldl_append]
    simp only [List.foldl_cons, List.foldl_nil, List.map_append, List.map_cons, List.map_nil,
      List.flatten_append, List.flatten_cons, List.flatten_nil, List.append_nil]
    refine ⟨htmp, fun i => ?_, by rw [hcalls, List.append_assoc]⟩
    rw [List.getElem?_set, htmp]
    by_cases hni : n = i
    · subst hni
      rw [if_pos rfl, if_pos (Nat.lt_succ_self n)]
      have hn := hinputs n
      rw [if_neg (Nat.lt_irrefl n)] at hn
      by_cases hlen : n < work.inputs.length
      · have hlen' : n < ((List.range n).foldl
            (fun work i =>
              { work with
                inputs := work.inputs.set i (copy_ (work.inputs.getD i []) work.tmp)
                calls := work.calls ++ [StagingCall.copyFromHost i (Stream.pool i),
                  StagingCall.record i (Stream.pool i)] })
            work).inputs.length := by
          apply Decidable.byContradiction
          intro hge
          rw [List.getElem?_eq_none (Nat.le_of_not_lt hge),
            List.getElem?_eq_getElem hlen] at hn
          cases hn
        rw [if_pos hlen', List.getElem?_eq_getElem hlen]
        rfl
      · have hlen' : ¬ n < ((List.range n).foldl
            (fun work i =>
              { work with
                inputs := work.inputs.set i (copy_ (work.inputs.getD i []) work.tmp)
                calls := work.calls ++ [StagingCall.copyFromHost i (Stream.pool i),
                  StagingCall.record i (Stream.pool i)] })
            work).inputs.length := by
          intro hlt
          rw [List.getElem?_eq_getElem hlt,
            List.getElem?_eq_none (Nat.le_of_not_lt hlen)] at hn
          cases hn
        rw [if_neg hlen', List.getElem?_eq_none (Nat.le_of_not_lt hlen)]
        rfl
    · rw [if_neg hni, hinputs i]
      by_cases hin : i < n
      · rw [if_pos hin, if_pos (Nat.lt_succ_of_lt hin)]
      · rw [if_neg hin, if_neg (by omega)]

/-- C22: the staging round trip of `AsyncBroadcastCUDAWork` on the root rank. The work copies the
root tensor into the pinned host tensor when it is constructed; `run` waits for that copy, hands
the transport the pinned host tensor and nothing else, holding the contents the root tensor had
at construction, and, when the transport returns and leaves these contents as they are, copies
them back to every input: after `run` every input tensor holds the contents the root tensor had
at construction. Each copy back is followed by the record of the event of its input. -/
theorem broadcast_staging_round_trip (rank rootRank rootTensor : Nat) (inputs : List Contents)
    (pinned root : Contents) (transport : Contents → Except String Contents)
    (hroot : rank = rootRank) (hindex : inputs[rootTensor]? = some root)
    (hunmodified : transport root = Except.ok root) :
    ((AsyncBroadcastCUDAWork.new rank rootRank rootTensor inputs pinned).run transport).2
        = Outcome.returns
      ∧ (AsyncBroadcastCUDAWork.new rank rootRank rootTensor inputs pinned).tmp = root
      ∧ ((AsyncBroadcastCUDAWork.new rank rootRank rootTensor inputs pinned).run
          transport).1.calls
        = initializeStreamsEvents inputs
          ++ [StagingCall.copyToHost rootTensor (Stream.pool rootTensor),
            StagingCall.synchronize (Stream.pool rootTensor),
            StagingCall.broadcast BroadcastBuffer.tmp root]
          ++ ((List.range inputs.length).map fun i =>
              [StagingCall.copyFromHost i (Stream.pool i),
                StagingCall.record i (Stream.pool i)]).flatten
      ∧ (∀ buffer contents, StagingCall.broadcast buffer contents
          ∈ ((AsyncBroadcastCUDAWork.new rank rootRank rootTensor inputs pinned).run
              transport).1.calls →
          buffer = BroadcastBuffer.tmp ∧ contents = root)
      ∧ ((AsyncBroadcastCUDAWork.new rank rootRank rootTensor inputs pinned).run
          transport).1.inputs
        = List.replicate inputs.length root
      ∧ (∀ i : Nat, i < inputs.length →
          ((AsyncBroadcastCUDAWork.new rank rootRank rootTensor inputs pinned).run
            transport).1.inputs[i]? = some root) := by
  have hget : inputs.getD rootTensor [] = root := by
    rw [List.getD_eq_getElem?_getD, hindex]
    rfl
  subst hget
  have hnew : AsyncBroadcastCUDAWork.new rank rootRank rootTensor inputs pinned
      = { rank := rootRank, rootRank := rootRank, rootTensor := rootTensor, inputs := inputs
          tmp := inputs.getD rootTensor []
          calls := initializeStreamsEvents inputs
            ++ [StagingCall.copyToHost rootTensor (Stream.pool rootTensor)] } := by
    simp only [AsyncBroadcastCUDAWork.new, hroot, if_true, copy_]
  have hrun : (AsyncBroadcastCUDAWork.new rank rootRank rootTensor inputs pinned).run transport
      = ((List.range inputs.length).foldl
          (fun work i =>
            { work with
              inputs := work.inputs.set i (copy_ (work.inputs.getD i []) work.tmp)
              calls := work.calls ++ [StagingCall.copyFromHost i (Stream.pool i),
                StagingCall.record i (Stream.pool i)] })
          { rank := rootRank, rootRank := rootRank, rootTensor := rootTensor, inputs := inputs
            tmp := inputs.getD rootTensor []
            calls := initializeStreamsEvents inputs
              ++ [StagingCall.copyToHost rootTensor (Stream.pool rootTensor)]
              ++ [StagingCall.synchronize (Stream.pool rootTensor)]
              ++ [StagingCall.broadcast BroadcastBuffer.tmp (inputs.getD rootTensor [])] },
        Outcome.returns) := by
    rw [hnew]
    simp only [AsyncBroadcastCUDAWork.run, if_true, hunmodified]
  have hcalls : ((AsyncBroadcastCUDAWork.new rank rootRank rootTensor inputs pinned).run
        transport).1.calls
      = initializeStreamsEvents inputs
        ++ [StagingCall.copyToHost rootTensor (Stream.pool rootTensor),
          StagingCall.synchronize (Stream.pool rootTensor),
          StagingCall.broadcast BroadcastBuffer.tmp (inputs.getD rootTensor [])]
        ++ ((List.range inputs.length).map fun i =>
            [StagingCall.copyFromHost i (Stream.pool i),
              StagingCall.record i (Stream.pool i)]).flatten := by
    rw [hrun, (copyBack_loop inputs.length _).2.2]
    simp [List.append_assoc]
  have hinputs : ((AsyncBroadcastCUDAWork.new rank rootRank rootTensor inputs pinned).run
        transport).1.inputs
      = List.replicate inputs.length (inputs.getD rootTensor []) := by
    rw [hrun]
    apply List.ext_getElem?
    intro i
    rw [(copyBack_loop inputs.length _).2.1 i, List.getElem?_replicate]
    by_cases hi : i < inputs.length
    · rw [if_pos hi, if_pos hi, List.getElem?_eq_getElem hi]
      rfl
    · rw [if_neg hi, if_neg hi, List.getElem?_eq_none (Nat.le_of_not_lt hi)]
  refine ⟨?_, ?_, hcalls, fun buffer contents hmem => ?_, hinputs, fun i hi => ?_⟩
  · rw [hrun]
  · rw [hnew]
  · rw [hcalls, initializeStreamsEvents, foldl_append_calls] at hmem
    simp only [List.nil_append, List.mem_append, List.mem_flatten, List.mem_map,
      List.mem_range, List.mem_cons, List.mem_singleton, List.not_mem_nil, or_false,
      reduceCtorEq, false_or, StagingCall.broadcast.injEq] at hmem
    rcases hmem with (⟨l, ⟨j, -, rfl⟩, hl⟩ | h) | ⟨l, ⟨j, -, rfl⟩, hl⟩
    · simp at hl
    · exact h
    · simp at hl
  · rw [hinputs, List.getElem?_replicate, if_pos hi]

/-- C22 at three input tensors on the root rank, the second being the root: the transport is
given the pinned copy holding `3, 4`, and after `run` the three inputs hold `3, 4`. -/
theorem broadcast_staging_round_trip_witness :
    ((AsyncBroadcastCUDAWork.new 0 0 1 [[1, 2], [3, 4], [5, 6]] [0, 0]).run
        fun contents => Except.ok contents).1.inputs = [[3, 4], [3, 4], [3, 4]] :=
  (broadcast_staging_round_trip 0 0 1 [[1, 2], [3, 4], [5, 6]] [0, 0] [3, 4]
    (fun contents => Except.ok contents) rfl rfl rfl).2.2.2.2.1

/-! ### Half precision conversions -/

/-- Masking with a shifted mask: shift down, mask, shift back. -/
theorem and_shiftLeft_mask (x mask lo : Nat) :
    x &&& (mask <<< lo) = ((x >>> lo) &&& mask) <<< lo := by
  apply Nat.eq_of_testBit_eq
  intro i
  simp only [Nat.testBit_and, Nat.testBit_shiftLeft, Nat.testBit_shiftRight]
  by_cases h : lo ≤ i
  · simp [h, Nat.add_sub_cancel' h]
  · simp [h]

/-- The sum of two `uint32_t`, unfolded. -/
theorem uint32_add_eq (a b : Nat) : uint32_add a b = (a + b) % 2 ^ 32 := by
  unfold uint32_add
  rfl

/-- The sum of two `uint32_t` that does not wrap around. -/
theorem uint32_add_of_lt (a b : Nat) (h : a + b < 2 ^ 32) : uint32_add a b = a + b := by
  rw [uint32_add_eq, Nat.mod_eq_of_lt h]

/-- The sign bit of a 32-bit word. -/
theorem and_sign_bit (w : Nat) (hw : w < 2 ^ 32) :
    w &&& 0x80000000 = if w < 2 ^ 31 then 0 else 2 ^ 31 := by
  have h := and_shiftLeft_mask w 1 31
  have hmask : (1 <<< 31 : Nat) = 0x80000000 := by decide
  rw [hmask] at h
  rw [h, Nat.and_one_is_mod, Nat.shiftRight_eq_div_pow, Nat.shiftLeft_eq]
  split <;> omega

/-- C30: for every 32-bit pattern `w` of a NaN, that is with `w + w` modulo `2 ^ 32` above
`0xFF000000`, the portable `fp16_ieee_from_fp32_value` returns the sign bit of `w` moved to bit
15 or-ed with `0x7E00`: `0x7E00` when the sign bit is clear and `0xFE00` when it is set, whatever
the payload. These patterns are the NaNs of binary32. -/
theorem fp16_ieee_from_fp32_value_nan (w : Nat) (hw : w < 2 ^ 32)
    (hnan : 0xFF000000 < (w + w) % 2 ^ 32) :
    fp16_ieee_from_fp32_value w = ((w &&& 0x80000000) >>> 16) ||| 0x7E00
      ∧ fp16_ieee_from_fp32_value w = (if w < 2 ^ 31 then 0x7E00 else 0xFE00)
      ∧ Float32.isNaN w = true := by
  have hvalue : fp16_ieee_from_fp32_value w
      = (((w &&& 0x80000000) >>> 16) ||| 0x7E00) % 2 ^ 16 := by
    show (((w &&& 0x80000000) >>> 16)
      ||| (if 0xFF000000 < uint32_add w w then 0x7E00 else _)) % 2 ^ 16 = _
    rw [uint32_add_eq, if_pos hnan]
  rw [hvalue, and_sign_bit w hw]
  refine ⟨?_, ?_, ?_⟩
  · split <;> decide
  · split <;> decide
  · unfold Float32.isNaN
    have hmask : w &&& 0x7FFFFFFF = w % 2 ^ 31 := Nat.and_pow_two_sub_one_eq_mod w 31
    rw [hmask]
    simp only [decide_eq_true_eq]
    by_cases hlt : w < 2 ^ 31
    · have h2 : (w + w) % 2 ^ 32 = w + w := Nat.mod_eq_of_lt (by omega)
      rw [Nat.mod_eq_of_lt hlt]
      rw [h2] at hnan
      omega
    · have h1 : w % 2 ^ 31 = w - 2 ^ 31 := by omega
      have h2 : (w + w) % 2 ^ 32 = w + w - 2 ^ 32 := by omega
      rw [h1]
      rw [h2] at hnan
      omega

/-- C30 at a quiet and at a signalling NaN with payloads, of either sign. -/
theorem fp16_ieee_from_fp32_value_nan_witness :
    fp16_ieee_from_fp32_value 0x7FC12345 = 0x7E00
      ∧ fp16_ieee_from_fp32_value 0xFF800001 = 0xFE00 :=
  ⟨((fp16_ieee_from_fp32_value_nan 0x7FC12345 (by decide) (by decide)).2.1).trans rfl,
    ((fp16_ieee_from_fp32_value_nan 0xFF800001 (by decide) (by decide)).2.1).trans rfl⟩

/-- Zero has no binary digit. -/
theorem bitLength_zero (fuel : Nat) : bitLength fuel 0 = 0 := by
  cases fuel <;> rfl

/-- A number from `2 ^ (L - 1)` up to `2 ^ L - 1` has `L` binary digits. -/
theorem bitLength_eq (L fuel n : Nat) (hL : L ≤ fuel) (hlo : 2 ^ L ≤ 2 * n) (hhi : n < 2 ^ L) :
    bitLength fuel n = L := by
  induction L generalizing fuel n with
  | zero =>
    simp only [Nat.pow_zero] at hlo hhi
    omega
  | succ L ih =>
    cases fuel with
    | zero => omega
    | succ fuel =>
      have hn : n ≠ 0 := by
        intro h
        subst h
        have := Nat.pos_pow_of_pos (L + 1) (by decide : 0 < 2)
        omega
      unfold bitLength
      rw [if_neg hn]
      cases L with
      | zero =>
        simp only [Nat.zero_add, Nat.pow_one] at hlo hhi
        have h1 : n = 1 := by omega
        subst h1
        rw [show (1 : Nat) / 2 = 0 from rfl, bitLength_zero]
      | succ L =>
        have hp : 2 ^ (L + 1 + 1) = 2 * 2 ^ (L + 1) := by
          rw [Nat.pow_succ, Nat.mul_comm]
        rw [hp] at hlo hhi
        have hq : 2 ^ (L + 1) = 2 * 2 ^ L := by
          rw [Nat.pow_succ, Nat.mul_comm]
        rw [ih fuel (n / 2) (by omega) (by omega) (by omega)]

/-- Bits set below bit 31 next to a sign bit: or-ing is adding. -/
theorem sign_or (sign magnitude : Nat) (h : magnitude < 2 ^ 31) :
    (sign <<< 31) ||| magnitude = sign * 2 ^ 31 + magnitude := by
  rw [Nat.shiftLeft_eq, Nat.mul_comm sign, ← Nat.mul_add_lt_is_or h]

/-- Rounding is exact on a number that a normal `float` represents: `s * 2 ^ k` with a
significand `s` of 24 binary digits rounds to the `float` with significand `s` and biased
exponent `q`, where `e + k = q + 150`. -/
theorem round_exact (sign s k e q : Nat) (hs1 : 2 ^ 23 ≤ s) (hs2 : s < 2 ^ 24) (hq1 : 1 ≤ q)
    (hq2 : q ≤ 254) (he : e + k = q + 150) :
    Float32.round sign (s * 2 ^ k) e = sign * 2 ^ 31 + ((q - 1) * 2 ^ 23 + s) := by
  have hpos : 0 < 2 ^ k := Nat.pos_pow_of_pos k (by decide)
  have hlen : bitLength 512 (s * 2 ^ k) = 24 + k := by
    apply bitLength_eq (24 + k) 512 _ (by omega)
    · rw [Nat.pow_add, ← Nat.mul_assoc]
      exact Nat.mul_le_mul_right _ (by omega)
    · rw [Nat.pow_add]
      exact Nat.mul_lt_mul_of_lt_of_le hs2 (Nat.le_refl _) hpos
  have hulp : max (e + (24 + k) - 24) 151 = q + 150 := by omega
  unfold Float32.round
  rw [hlen, hulp]
  dsimp only
  have hkept : (if q + 150 ≤ e then (s * 2 ^ k) <<< (e - (q + 150))
      else
        if 2 ^ (q + 150 - e - 1) < s * 2 ^ k % 2 ^ (q + 150 - e)
            ∨ (s * 2 ^ k % 2 ^ (q + 150 - e) = 2 ^ (q + 150 - e - 1)
              ∧ (s * 2 ^ k) >>> (q + 150 - e) % 2 = 1) then
          (s * 2 ^ k) >>> (q + 150 - e) + 1
        else (s * 2 ^ k) >>> (q + 150 - e)) = s := by
    by_cases hk : k = 0
    · subst hk
      rw [if_pos (by omega), show e - (q + 150) = 0 by omega]
      simp
    · have hshift : q + 150 - e = k := by omega
      have hhalf : 0 < 2 ^ (k - 1) := Nat.pos_pow_of_pos _ (by decide)
      rw [if_neg (by omega), hshift, Nat.mul_mod_left, Nat.shiftRight_eq_div_pow,
        Nat.mul_div_cancel _ hpos, if_neg]
      omega
  rw [hkept, show q + 150 - 151 = q - 1 by omega, if_neg (by omega)]
  exact sign_or sign _ (by omega)

/-- The fields of a `float` given by its sign `s`, biased exponent `E` and mantissa `m`. -/
theorem decode (s E m : Nat) (hs : s ≤ 1) (hE : E ≤ 255) (hm : m < 2 ^ 23) :
    Float32.sign (s * 2 ^ 31 + E * 2 ^ 23 + m) = s
      ∧ ((s * 2 ^ 31 + E * 2 ^ 23 + m) >>> 23) &&& 0xFF = E
      ∧ (s * 2 ^ 31 + E * 2 ^ 23 + m) &&& 0x7FFFFF = m
      ∧ (s * 2 ^ 31 + E * 2 ^ 23 + m) &&& 0x7FFFFFFF = E * 2 ^ 23 + m := by
  have h8 : ∀ x : Nat, x &&& 0xFF = x % 2 ^ 8 := fun x => Nat.and_pow_two_sub_one_eq_mod x 8
  have h23 : ∀ x : Nat, x &&& 0x7FFFFF = x % 2 ^ 23 :=
    fun x => Nat.and_pow_two_sub_one_eq_mod x 23
  have h31 : ∀ x : Nat, x &&& 0x7FFFFFFF = x % 2 ^ 31 :=
    fun x => Nat.and_pow_two_sub_one_eq_mod x 31
  refine ⟨?_, ?_, ?_, ?_⟩
  · unfold Float32.sign
    rw [Nat.and_one_is_mod, Nat.shiftRight_eq_div_pow]
    omega
  · rw [h8, Nat.shiftRight_eq_div_pow]
    omega
  · rw [h23]
    omega
  · rw [h31]
    omega

/-- A normal `float` is finite, its significand has the implicit bit and its exponent is its
biased exponent. -/
theorem decode_normal (s E m : Nat) (hs : s ≤ 1) (hE1 : 1 ≤ E) (hE2 : E ≤ 254)
    (hm : m < 2 ^ 23) :
    Float32.isNaN (s * 2 ^ 31 + E * 2 ^ 23 + m) = false
      ∧ Float32.isInf (s * 2 ^ 31 + E * 2 ^ 23 + m) = false
      ∧ Float32.significand (s * 2 ^ 31 + E * 2 ^ 23 + m) = m + 2 ^ 23
      ∧ Float32.scale (s * 2 ^ 31 + E * 2 ^ 23 + m) = E
      ∧ Float32.sign (s * 2 ^ 31 + E * 2 ^ 23 + m) = s := by
  obtain ⟨h1, h2, h3, h4⟩ := decode s E m hs (by omega) hm
  refine ⟨?_, ?_, ?_, ?_, h1⟩
  · unfold Float32.isNaN
    rw [h4, decide_eq_false_iff_not]
    omega
  · unfold Float32.isInf
    rw [h4, decide_eq_false_iff_not]
    omega
  · unfold Float32.significand
    rw [h2, h3, if_neg (by omega)]
  · unfold Float32.scale
    rw [h2, if_neg (by omega)]

/-- Multiplying a normal `float` by a power of two whose product is in the normal range is
exact: the biased exponents add up, less the bias. -/
theorem mul_pow2 (s E m Eb : Nat) (hs : s ≤ 1) (hE1 : 1 ≤ E) (hE2 : E ≤ 254) (hm : m < 2 ^ 23)
    (hb1 : 1 ≤ Eb) (hb2 : Eb ≤ 254) (hq1 : 128 ≤ E + Eb) (hq2 : E + Eb ≤ 381) :
    Float32.mul (s * 2 ^ 31 + E * 2 ^ 23 + m) (Eb * 2 ^ 23)
      = s * 2 ^ 31 + (E + Eb - 127) * 2 ^ 23 + m := by
  obtain ⟨ha1, ha2, ha3, ha4, ha5⟩ := decode_normal s E m hs hE1 hE2 hm
  have hb := decode_normal 0 Eb 0 (by omega) hb1 hb2 (by decide)
  rw [show 0 * 2 ^ 31 + Eb * 2 ^ 23 + 0 = Eb * 2 ^ 23 by omega] at hb
  obtain ⟨hb1', hb2', hb3, hb4, hb5⟩ := hb
  unfold Float32.mul
  rw [ha1, hb1', ha2, hb2', ha3, hb3, ha4, hb4, ha5, hb5, if_neg Bool.false_ne_true,
    if_neg Bool.false_ne_true, if_neg (by decide), if_neg (by omega), Nat.xor_zero,
    Nat.zero_add, round_exact s (m + 2 ^ 23) 23 (E + Eb) (E + Eb - 127) (by omega) (by omega)
      (by omega) (by omega) (by omega)]
  omega

/-- Adding a normal `float` to a greater power of two is exact when the sum needs no more than
24 binary digits: with `2 ^ 23 + mb = u * 2 ^ d`, where `d` is the difference of the biased
exponents, the sum has the exponent of the power of two and the mantissa `u`. -/
theorem add_exact (Ea Eb mb d u : Nat) (hb1 : 1 ≤ Eb) (ha : Ea = Eb + d) (ha2 : Ea ≤ 254)
    (hmb : mb < 2 ^ 23) (hu : 2 ^ 23 + mb = u * 2 ^ d) (hu2 : u < 2 ^ 23) :
    Float32.add (Ea * 2 ^ 23) (Eb * 2 ^ 23 + mb) = Ea * 2 ^ 23 + u := by
  have hA := decode_normal 0 Ea 0 (by omega) (by omega) ha2 (by decide)
  rw [show 0 * 2 ^ 31 + Ea * 2 ^ 23 + 0 = Ea * 2 ^ 23 by omega] at hA
  obtain ⟨ha1, ha2', ha3, ha4, ha5⟩ := hA
  have hB := decode_normal 0 Eb mb (by omega) hb1 (by omega) hmb
  rw [show 0 * 2 ^ 31 + Eb * 2 ^ 23 + mb = Eb * 2 ^ 23 + mb by omega] at hB
  obtain ⟨hb1', hb2, hb3, hb4, hb5⟩ := hB
  unfold Float32.add
  rw [ha1, hb1', ha2', hb2, ha3, hb3, ha4, hb4, ha5, hb5, if_neg Bool.false_ne_true,
    if_neg Bool.false_ne_true, if_neg Bool.false_ne_true, if_neg Bool.false_ne_true]
  dsimp only
  have hmin : min Ea Eb = Eb := by omega
  have hsum : (0 + 2 ^ 23) <<< (Ea - Eb) + (mb + 2 ^ 23) <<< (Eb - Eb)
      = (2 ^ 23 + u) * 2 ^ d := by
    rw [show Ea - Eb = d by omega, Nat.sub_self, Nat.shiftLeft_eq, Nat.shiftLeft_eq,
      Nat.pow_zero, Nat.mul_one, Nat.zero_add, Nat.add_comm mb, hu, Nat.add_mul]
  have hpos : 0 < 2 ^ d := Nat.pos_pow_of_pos d (by decide)
  rw [hmin, if_pos rfl, hsum, if_neg (Nat.mul_ne_zero (by omega) (by omega)),
    round_exact 0 (2 ^ 23 + u) d (Eb + 150) Ea (by omega) (by omega) (by omega) ha2
      (by omega)]
  omega

/-- Bits set below bit `i` next to a multiple of `2 ^ i`: or-ing is adding. -/
theorem mul_or (i s x : Nat) (h : x < 2 ^ i) : s * 2 ^ i ||| x = s * 2 ^ i + x := by
  rw [Nat.mul_comm s, ← Nat.mul_add_lt_is_or h]

/-- The bit cast `fp32_from_bits` keeps the bits. -/
theorem fp32_from_bits_eq (w : Nat) : fp32_from_bits w = w :=
  rfl

/-- The bit cast `fp32_to_bits` keeps the bits. -/
theorem fp32_to_bits_eq (f : Nat) : fp32_to_bits f = f :=
  rfl

/-- The conversion to `float`, unfolded: `w` is the half moved to the upper 16 bits. -/
theorem fp16_ieee_to_fp32_value_eq (h w : Nat) (hw : w = (h <<< 16) % 2 ^ 32) :
    fp16_ieee_to_fp32_value h
      = (w &&& 0x80000000)
        ||| (if uint32_add w w < 0x08000000 then
            Float32.sub ((uint32_add w w >>> 17) ||| 0x3F000000) 0x3F000000
          else Float32.mul (uint32_add (uint32_add w w >>> 4) 0x70000000) 0x07800000) := by
  subst hw
  show fp32_from_bits ((((h <<< 16) % 2 ^ 32) &&& 0x80000000)
        ||| (if uint32_add ((h <<< 16) % 2 ^ 32) ((h <<< 16) % 2 ^ 32) < 0x08000000 then
            fp32_to_bits (Float32.sub
              (fp32_from_bits
                ((uint32_add ((h <<< 16) % 2 ^ 32) ((h <<< 16) % 2 ^ 32) >>> 17) ||| 0x3F000000))
              0x3F000000)
          else
            fp32_to_bits (Float32.mul
              (fp32_from_bits
                (uint32_add (uint32_add ((h <<< 16) % 2 ^ 32) ((h <<< 16) % 2 ^ 32) >>> 4)
                0x70000000))
              (fp32_from_bits 0x07800000)))) = _
  rw [fp32_from_bits_eq, fp32_to_bits_eq, fp32_from_bits_eq, fp32_to_bits_eq, fp32_from_bits_eq,
    fp32_from_bits_eq]

/-- The conversion from `float`, unfolded, for an argument that is not a NaN. -/
theorem fp16_ieee_from_fp32_value_eq (f bias base bits : Nat)
    (hbias : bias = (if uint32_add f f &&& 0xFF000000 < 0x71000000 then 0x71000000
      else uint32_add f f &&& 0xFF000000))
    (hbase : base = Float32.mul (Float32.mul (f &&& 0x7FFFFFFF) 0x77800000) 0x08800000)
    (hbits : bits = Float32.add (uint32_add (bias >>> 1) 0x07800000) base)
    (hnan : ¬ 0xFF000000 < uint32_add f f) :
    fp16_ieee_from_fp32_value f
      = (((f &&& 0x80000000) >>> 16)
        ||| uint32_add ((bits >>> 13) &&& 0x00007C00) (bits &&& 0x00000FFF)) % 2 ^ 16 := by
  subst hbias hbase hbits
  show ((((fp32_to_bits f) &&& 0x80000000) >>> 16)
    ||| (if 0xFF000000 < uint32_add (fp32_to_bits f) (fp32_to_bits f) then 0x7E00
      else uint32_add
        ((fp32_to_bits (Float32.add
          (fp32_from_bits (uint32_add
            ((if uint32_add (fp32_to_bits f) (fp32_to_bits f) &&& 0xFF000000 < 0x71000000
              then 0x71000000
              else uint32_add (fp32_to_bits f) (fp32_to_bits f) &&& 0xFF000000) >>> 1) 0x07800000))
          (Float32.mul (Float32.mul (fabsf f) (fp32_from_bits 0x77800000))
            (fp32_from_bits 0x08800000))) >>> 13) &&& 0x00007C00)
        (fp32_to_bits (Float32.add
          (fp32_from_bits (uint32_add
            ((if uint32_add (fp32_to_bits f) (fp32_to_bits f) &&& 0xFF000000 < 0x71000000
              then 0x71000000
              else uint32_add (fp32_to_bits f) (fp32_to_bits f) &&& 0xFF000000) >>> 1) 0x07800000))
          (Float32.mul (Float32.mul (fabsf f) (fp32_from_bits 0x77800000))
            (fp32_from_bits 0x08800000))) &&& 0x00000FFF))) % 2 ^ 16 = _
  rw [fp32_to_bits_eq, fp32_to_bits_eq, fp32_from_bits_eq, fp32_from_bits_eq, fp32_from_bits_eq,
    if_neg hnan]
  rfl

/-- Rounding is exact on a number of at most 24 binary digits in the normal range: a number
`sig` of `L` binary digits, `L + k = 24`, rounds to the `float` with significand `sig * 2 ^ k`
and biased exponent `q`, where `e = q + 150 + k`. -/
theorem round_short (sign sig L k e q : Nat) (hLk : L + k = 24) (hlo : 2 ^ L ≤ 2 * sig)
    (hhi : sig < 2 ^ L) (hq1 : 1 ≤ q) (hq2 : q ≤ 254) (he : e = q + 150 + k) :
    Float32.round sign sig e = sign * 2 ^ 31 + ((q - 1) * 2 ^ 23 + sig * 2 ^ k)
      ∧ 2 ^ 23 ≤ sig * 2 ^ k ∧ sig * 2 ^ k < 2 ^ 24 := by
  have hpos : 0 < 2 ^ k := Nat.pos_pow_of_pos k (by decide)
  have hpow : 2 ^ L * 2 ^ k = 2 ^ 24 := by
    rw [← Nat.pow_add, hLk]
  have hS1 : 2 ^ 24 ≤ 2 * sig * 2 ^ k := by
    rw [← hpow]
    exact Nat.mul_le_mul_right _ hlo
  have hS2 : sig * 2 ^ k < 2 ^ 24 := by
    rw [← hpow]
    exact Nat.mul_lt_mul_of_pos_right hhi hpos
  have hS1' : 2 ^ 23 ≤ sig * 2 ^ k := by
    rw [Nat.mul_assoc] at hS1
    omega
  refine ⟨?_, hS1', hS2⟩
  have hlen : bitLength 512 sig = L := bitLength_eq L 512 sig (by omega) hlo hhi
  have hulp : max (e + L - 24) 151 = q + 150 := by omega
  unfold Float32.round
  rw [hlen, hulp]
  dsimp only
  rw [if_pos (show q + 150 ≤ e by omega), show e - (q + 150) = k by omega, Nat.shiftLeft_eq sig k,
    show q + 150 - 151 = q - 1 by omega,
    if_neg (show ¬ 0x7F800000 ≤ (q - 1) * 2 ^ 23 + sig * 2 ^ k by omega)]
  exact sign_or sign _ (by omega)

/-- The subtraction that converts a subnormal half: `0.5f` with the mantissa `m` of the half in
its low bits, less `0.5f`, is `m * 2 ^ (-24)`, a normal `float` with biased exponent `126 - k`
when `m` has `24 - k` binary digits. -/
theorem sub_magic (m L k : Nat) (hLk : L + k = 24) (hL : L ≤ 10) (hlo : 2 ^ L ≤ 2 * m)
    (hhi : m < 2 ^ L) :
    Float32.sub (126 * 2 ^ 23 + m) 0x3F000000 = (126 - k) * 2 ^ 23 + (m * 2 ^ k - 2 ^ 23)
      ∧ 2 ^ 23 ≤ m * 2 ^ k ∧ m * 2 ^ k < 2 ^ 24 := by
  have hL10 : 2 ^ L ≤ 2 ^ 10 := Nat.pow_le_pow_right (by decide) hL
  have hm : m < 2 ^ 23 := by omega
  have hA := decode_normal 0 126 m (by omega) (by omega) (by omega) hm
  rw [show 0 * 2 ^ 31 + 126 * 2 ^ 23 + m = 126 * 2 ^ 23 + m by omega] at hA
  obtain ⟨ha1, ha2, ha3, ha4, ha5⟩ := hA
  have hB := decode_normal 1 126 0 (by omega) (by omega) (by omega) (by decide)
  rw [show 1 * 2 ^ 31 + 126 * 2 ^ 23 + 0 = 0xBF000000 by decide] at hB
  obtain ⟨hb1, hb2, hb3, hb4, hb5⟩ := hB
  obtain ⟨hr, hr1, hr2⟩ := round_short 0 m L k 276 (126 - k) hLk hlo hhi (by omega) (by omega)
    (by omega)
  refine ⟨?_, hr1, hr2⟩
  unfold Float32.sub
  rw [if_neg (by decide), show (0x3F000000 : Nat) ^^^ 0x80000000 = 0xBF000000 by decide]
  unfold Float32.add
  rw [ha1, hb1, ha2, hb2, ha3, hb3, ha4, hb4, ha5, hb5, if_neg Bool.false_ne_true,
    if_neg Bool.false_ne_true, if_neg Bool.false_ne_true, if_neg Bool.false_ne_true]
  dsimp only
  rw [show min 126 126 = 126 from rfl, Nat.sub_self, Nat.shiftLeft_eq, Nat.shiftLeft_eq,
    Nat.pow_zero, Nat.mul_one, Nat.mul_one, if_neg (by decide), if_pos (by omega),
    show m + 2 ^ 23 - (0 + 2 ^ 23) = m by omega, hr]
  omega

/-- A half moved to the upper 16 bits of a word, by its sign `s`, biased exponent `E` and
mantissa `m`: the word, its sign bit, and its double, in which the sign is shifted out. -/
theorem half_word (s E m : Nat) (hs : s ≤ 1) (hE : E ≤ 31) (hm : m < 2 ^ 10) :
    ((s * 2 ^ 15 + E * 2 ^ 10 + m) <<< 16) % 2 ^ 32 = s * 2 ^ 31 + E * 2 ^ 26 + m * 2 ^ 16
      ∧ (s * 2 ^ 31 + E * 2 ^ 26 + m * 2 ^ 16) &&& 0x80000000 = s * 2 ^ 31
      ∧ uint32_add (s * 2 ^ 31 + E * 2 ^ 26 + m * 2 ^ 16) (s * 2 ^ 31 + E * 2 ^ 26 + m * 2 ^ 16)
        = E * 2 ^ 27 + m * 2 ^ 17 := by
  refine ⟨?_, ?_, ?_⟩
  · rw [Nat.shiftLeft_eq]
    omega
  · rw [and_sign_bit _ (by omega)]
    split <;> omega
  · rw [uint32_add_eq]
    omega

/-- The conversion to `float` of a normal half with sign `s`, biased exponent `E` and mantissa
`m`: the exponent is rebiased by 112 and the mantissa moved up by 13 bits. -/
theorem to_fp32_normal (s E m : Nat) (hs : s ≤ 1) (hE1 : 1 ≤ E) (hE2 : E ≤ 30)
    (hm : m < 2 ^ 10) :
    fp16_ieee_to_fp32_value (s * 2 ^ 15 + E * 2 ^ 10 + m)
      = s * 2 ^ 31 + (E + 112) * 2 ^ 23 + m * 2 ^ 13 := by
  obtain ⟨hW, hsign, hTW⟩ := half_word s E m hs (by omega) hm
  have hcut : ¬ E * 2 ^ 27 + m * 2 ^ 17 < 0x08000000 := by omega
  have hshift : (E * 2 ^ 27 + m * 2 ^ 17) >>> 4 = E * 2 ^ 23 + m * 2 ^ 13 := by
    rw [Nat.shiftRight_eq_div_pow]
    omega
  have hoff : uint32_add (E * 2 ^ 23 + m * 2 ^ 13) 0x70000000
      = 0 * 2 ^ 31 + (E + 224) * 2 ^ 23 + m * 2 ^ 13 := by
    rw [uint32_add_of_lt _ _ (by omega)]
    omega
  have hscale : (0x07800000 : Nat) = 15 * 2 ^ 23 := by decide
  rw [fp16_ieee_to_fp32_value_eq _ _ hW.symm, hsign, hTW, if_neg hcut, hshift, hoff, hscale,
    mul_pow2 0 (E + 224) (m * 2 ^ 13) 15 (by omega) (by omega) (by omega) (by omega) (by omega)
      (by omega) (by omega) (by omega),
    mul_or 31 s _ (by omega)]
  omega

/-- The conversion to `float` of a subnormal half with sign `s` and mantissa `m` of `24 - k`
binary digits: the `float` is normal, with biased exponent `126 - k` and significand
`m * 2 ^ k`. -/
theorem to_fp32_subnormal (s m L k : Nat) (hs : s ≤ 1) (hLk : L + k = 24) (hL : L ≤ 10)
    (hlo : 2 ^ L ≤ 2 * m) (hhi : m < 2 ^ L) :
    fp16_ieee_to_fp32_value (s * 2 ^ 15 + 0 * 2 ^ 10 + m)
      = s * 2 ^ 31 + (126 - k) * 2 ^ 23 + (m * 2 ^ k - 2 ^ 23)
      ∧ 2 ^ 23 ≤ m * 2 ^ k ∧ m * 2 ^ k < 2 ^ 24 := by
  have hL10 : 2 ^ L ≤ 2 ^ 10 := Nat.pow_le_pow_right (by decide) hL
  obtain ⟨hW, hsign, hTW⟩ := half_word s 0 m hs (by omega) (by omega)
  obtain ⟨hsub, hr1, hr2⟩ := sub_magic m L k hLk hL hlo hhi
  refine ⟨?_, hr1, hr2⟩
  have hcut : 0 * 2 ^ 27 + m * 2 ^ 17 < 0x08000000 := by omega
  have hshift : (0 * 2 ^ 27 + m * 2 ^ 17) >>> 17 = m := by
    rw [Nat.shiftRight_eq_div_pow]
    omega
  have hor : m ||| 0x3F000000 = 126 * 2 ^ 23 + m := by
    rw [Nat.lor_comm, show (0x3F000000 : Nat) = 126 * 2 ^ 23 by decide]
    exact mul_or 23 126 m (by omega)
  rw [fp16_ieee_to_fp32_value_eq _ _ hW.symm, hsign, hTW, if_pos hcut, hshift, hor, hsub,
    mul_or 31 s _ (by omega)]
  omega

/-- The exponent byte of a 32-bit word, in place. -/
theorem and_exponent_byte (x : Nat) : x &&& 0xFF000000 = (x / 2 ^ 24 % 2 ^ 8) * 2 ^ 24 := by
  have h := and_shiftLeft_mask x 0xFF 24
  rw [show (0xFF <<< 24 : Nat) = 0xFF000000 by decide] at h
  rw [h, Nat.and_pow_two_sub_one_eq_mod _ 8, Nat.shiftRight_eq_div_pow, Nat.shiftLeft_eq]

/-- The exponent field of a half, in place. -/
theorem and_half_exponent (x : Nat) : x &&& 0x7C00 = (x / 2 ^ 10 % 2 ^ 5) * 2 ^ 10 := by
  have h := and_shiftLeft_mask x 0x1F 10
  rw [show (0x1F <<< 10 : Nat) = 0x7C00 by decide] at h
  rw [h, Nat.and_pow_two_sub_one_eq_mod _ 5, Nat.shiftRight_eq_div_pow, Nat.shiftLeft_eq]

/-- The conversion from `float` of a number that a half represents exactly and that is below
`2 ^ 16` in magnitude. The `float` has sign `s`, biased exponent `Ef` and mantissa `r`; the
number added to it has biased exponent `A`, which is `Ef + 15` and at least 128; `d` is the
difference of the exponents of the two summands, and `u` the significand of the `float`
without its `d` low bits, which are zero. The half has the sign `s`, the low five bits of `A`
as exponent field, and `u` added to it. -/
theorem from_fp32_exact (s Ef r A d u : Nat) (hs : s ≤ 1) (hE1 : 103 ≤ Ef) (hE2 : Ef ≤ 142)
    (hr : r < 2 ^ 23) (hA : A = max Ef 113 + 15) (hd : A = Ef + 2 + d)
    (hu : 2 ^ 23 + r = u * 2 ^ d) (hu2 : u < 2 ^ 11) :
    fp16_ieee_from_fp32_value (s * 2 ^ 31 + Ef * 2 ^ 23 + r)
      = s * 2 ^ 15 + (A % 2 ^ 5) * 2 ^ 10 + u := by
  obtain ⟨-, -, -, habs⟩ := decode s Ef r hs (by omega) hr
  have htwo : uint32_add (s * 2 ^ 31 + Ef * 2 ^ 23 + r) (s * 2 ^ 31 + Ef * 2 ^ 23 + r)
      = Ef * 2 ^ 24 + 2 * r := by
    rw [uint32_add_eq]
    omega
  have hnan : ¬ 0xFF000000 < uint32_add (s * 2 ^ 31 + Ef * 2 ^ 23 + r)
      (s * 2 ^ 31 + Ef * 2 ^ 23 + r) := by
    rw [htwo]
    omega
  have hbias : (A - 15) * 2 ^ 24
      = (if uint32_add (s * 2 ^ 31 + Ef * 2 ^ 23 + r) (s * 2 ^ 31 + Ef * 2 ^ 23 + r)
          &&& 0xFF000000 < 0x71000000 then 0x71000000
        else uint32_add (s * 2 ^ 31 + Ef * 2 ^ 23 + r) (s * 2 ^ 31 + Ef * 2 ^ 23 + r)
          &&& 0xFF000000) := by
    rw [htwo, and_exponent_byte]
    split <;> omega
  have hbase : 0 * 2 ^ 31 + (Ef + 2) * 2 ^ 23 + r
      = Float32.mul (Float32.mul ((s * 2 ^ 31 + Ef * 2 ^ 23 + r) &&& 0x7FFFFFFF) 0x77800000)
        0x08800000 := by
    rw [habs, show Ef * 2 ^ 23 + r = 0 * 2 ^ 31 + Ef * 2 ^ 23 + r by omega,
      show (0x77800000 : Nat) = 239 * 2 ^ 23 by decide,
      show (0x08800000 : Nat) = 17 * 2 ^ 23 by decide,
      mul_pow2 0 Ef r 239 (by omega) (by omega) (by omega) hr (by omega) (by omega) (by omega)
        (by omega),
      mul_pow2 0 (Ef + 239 - 127) r 17 (by omega) (by omega) (by omega) hr (by omega) (by omega)
        (by omega) (by omega)]
    omega
  have hbits : A * 2 ^ 23 + u
      = Float32.add (uint32_add (((A - 15) * 2 ^ 24) >>> 1) 0x07800000)
        (0 * 2 ^ 31 + (Ef + 2) * 2 ^ 23 + r) := by
    have hadder : uint32_add (((A - 15) * 2 ^ 24) >>> 1) 0x07800000 = A * 2 ^ 23 := by
      rw [Nat.shiftRight_eq_div_pow, uint32_add_of_lt _ _ (by omega)]
      omega
    rw [hadder, show 0 * 2 ^ 31 + (Ef + 2) * 2 ^ 23 + r = (Ef + 2) * 2 ^ 23 + r by omega,
      add_exact A (Ef + 2) r d u (by omega) hd (by omega) hr hu (by omega)]
  rw [fp16_ieee_from_fp32_value_eq _ _ _ _ hbias hbase hbits hnan,
    and_sign_bit _ (by omega), and_half_exponent, Nat.and_pow_two_sub_one_eq_mod _ 12,
    Nat.shiftRight_eq_div_pow, Nat.shiftRight_eq_div_pow,
    uint32_add_of_lt _ _ (by omega)]
  have hsign : (if s * 2 ^ 31 + Ef * 2 ^ 23 + r < 2 ^ 31 then 0 else 2 ^ 31) / 2 ^ 16
      = s * 2 ^ 15 := by
    split <;> omega
  have hnonsign : (A * 2 ^ 23 + u) / 2 ^ 13 / 2 ^ 10 % 2 ^ 5 * 2 ^ 10 + (A * 2 ^ 23 + u) % 2 ^ 12
      = A % 2 ^ 5 * 2 ^ 10 + u := by
    omega
  rw [hsign, hnonsign, mul_or 15 s _ (by omega)]
  omega

/-- The round trip of a normal half. -/
theorem round_trip_normal (s E m : Nat) (hs : s ≤ 1) (hE1 : 1 ≤ E) (hE2 : E ≤ 30)
    (hm : m < 2 ^ 10) :
    fp16_ieee_from_fp32_value (fp16_ieee_to_fp32_value (s * 2 ^ 15 + E * 2 ^ 10 + m))
      = s * 2 ^ 15 + E * 2 ^ 10 + m := by
  rw [to_fp32_normal s E m hs hE1 hE2 hm,
    from_fp32_exact s (E + 112) (m * 2 ^ 13) (E + 127) 13 (2 ^ 10 + m) hs (by omega) (by omega)
      (by omega) (by omega) (by omega) (by omega) (by omega)]
  omega

/-- The round trip of a subnormal half whose mantissa has `L` binary digits. -/
theorem round_trip_subnormal (s m L : Nat) (hs : s ≤ 1) (hL : L ≤ 10) (hlo : 2 ^ L ≤ 2 * m)
    (hhi : m < 2 ^ L) :
    fp16_ieee_from_fp32_value (fp16_ieee_to_fp32_value (s * 2 ^ 15 + 0 * 2 ^ 10 + m))
      = s * 2 ^ 15 + 0 * 2 ^ 10 + m := by
  have hL10 : 2 ^ L ≤ 2 ^ 10 := Nat.pow_le_pow_right (by decide) hL
  have hL1 : 1 ≤ L := by
    rcases Nat.eq_zero_or_pos L with h0 | h0
    · subst h0
      simp only [Nat.pow_zero] at hlo hhi
      omega
    · exact h0
  obtain ⟨hto, hr1, hr2⟩ := to_fp32_subnormal s m L (24 - L) hs (by omega) hL hlo hhi
  rw [hto, from_fp32_exact s (126 - (24 - L)) (m * 2 ^ (24 - L) - 2 ^ 23) 128 (24 - L) m hs
    (by omega) (by omega) (by omega) (by omega) (by omega) (by omega) (by omega)]
  omega

/-- A number from 1 to 1023 has between one and ten binary digits. -/
theorem mantissa_digits (m : Nat) (hm1 : 1 ≤ m) (hm2 : m < 2 ^ 10) :
    ∃ L, L ≤ 10 ∧ 2 ^ L ≤ 2 * m ∧ m < 2 ^ L := by
  have h : m < 2 ^ 1 ∨ (2 ^ 1 ≤ m ∧ m < 2 ^ 2) ∨ (2 ^ 2 ≤ m ∧ m < 2 ^ 3)
      ∨ (2 ^ 3 ≤ m ∧ m < 2 ^ 4) ∨ (2 ^ 4 ≤ m ∧ m < 2 ^ 5) ∨ (2 ^ 5 ≤ m ∧ m < 2 ^ 6)
      ∨ (2 ^ 6 ≤ m ∧ m < 2 ^ 7) ∨ (2 ^ 7 ≤ m ∧ m < 2 ^ 8) ∨ (2 ^ 8 ≤ m ∧ m < 2 ^ 9)
      ∨ (2 ^ 9 ≤ m ∧ m < 2 ^ 10) := by
    omega
  rcases h with h | h | h | h | h | h | h | h | h | h
  · exact ⟨1, by omega, by omega, by omega⟩
  · exact ⟨2, by omega, by omega, by omega⟩
  · exact ⟨3, by omega, by omega, by omega⟩
  · exact ⟨4, by omega, by omega, by omega⟩
  · exact ⟨5, by omega, by omega, by omega⟩
  · exact ⟨6, by omega, by omega, by omega⟩
  · exact ⟨7, by omega, by omega, by omega⟩
  · exact ⟨8, by omega, by omega, by omega⟩
  · exact ⟨9, by omega, by omega, by omega⟩
  · exact ⟨10, by omega, by omega, by omega⟩

/-- The round trip of the two zeros and the two infinities. -/
theorem round_trip_zero_inf :
    fp16_ieee_from_fp32_value (fp16_ieee_to_fp32_value 0x0000) = 0x0000
      ∧ fp16_ieee_from_fp32_value (fp16_ieee_to_fp32_value 0x8000) = 0x8000
      ∧ fp16_ieee_from_fp32_value (fp16_ieee_to_fp32_value 0x7C00) = 0x7C00
      ∧ fp16_ieee_from_fp32_value (fp16_ieee_to_fp32_value 0xFC00) = 0xFC00 := by
  decide!

/-- The round trip of every half that is not a NaN, by its fields. -/
theorem round_trip_fields (s E m : Nat) (hs : s ≤ 1) (hE : E ≤ 31) (hm : m < 2 ^ 10)
    (hnan : E * 2 ^ 10 + m ≤ 0x7C00) :
    fp16_ieee_from_fp32_value (fp16_ieee_to_fp32_value (s * 2 ^ 15 + E * 2 ^ 10 + m))
      = s * 2 ^ 15 + E * 2 ^ 10 + m := by
  obtain ⟨z0, z1, i0, i1⟩ := round_trip_zero_inf
  by_cases hE0 : E = 0
  · subst hE0
    by_cases hm0 : m = 0
    · subst hm0
      have hs01 : s = 0 ∨ s = 1 := by omega
      rcases hs01 with h | h
      · subst h
        exact z0
      · subst h
        exact z1
    · obtain ⟨L, hL, hlo, hhi⟩ := mantissa_digits m (by omega) hm
      exact round_trip_subnormal s m L hs hL hlo hhi
  · by_cases hE31 : E = 31
    · subst hE31
      have hm0 : m = 0 := by omega
      subst hm0
      have hs01 : s = 0 ∨ s = 1 := by omega
      rcases hs01 with h | h
      · subst h
        exact i0
      · subst h
        exact i1
    · exact round_trip_normal s E m hs (by omega) (by omega) hm

/-- C29: for every 16-bit pattern `h` that is not a NaN, that is whose exponent and mantissa
bits `h &&& 0x7FFF` do not exceed `0x7C00` (the zeros, the subnormal and normal numbers and the
infinities of both signs), converting `h` to `float` with the portable
`fp16_ieee_to_fp32_value` and back with the portable `fp16_ieee_from_fp32_value` gives `h`. -/
theorem fp16_ieee_round_trip (h : Nat) (hh : h < 2 ^ 16) (hnan : h &&& 0x7FFF ≤ 0x7C00) :
    fp16_ieee_from_fp32_value (fp16_ieee_to_fp32_value h) = h := by
  rw [Nat.and_pow_two_sub_one_eq_mod h 15] at hnan
  have hfields : h = h / 2 ^ 15 * 2 ^ 15 + h / 2 ^ 10 % 2 ^ 5 * 2 ^ 10 + h % 2 ^ 10 := by
    omega
  have hround := round_trip_fields (h / 2 ^ 15) (h / 2 ^ 10 % 2 ^ 5) (h % 2 ^ 10) (by omega)
    (by omega) (by omega) (by omega)
  rw [← hfields] at hround
  exact hround

/-- C29 on the greatest finite negative half, `0xFBFF`. -/
theorem fp16_ieee_round_trip_witness :
    (0xFBFF : Nat) < 2 ^ 16 ∧ (0xFBFF : Nat) &&& 0x7FFF ≤ 0x7C00
      ∧ fp16_ieee_from_fp32_value (fp16_ieee_to_fp32_value 0xFBFF) = 0xFBFF :=
  ⟨by decide, by decide, fp16_ieee_round_trip 0xFBFF (by decide) (by decide)⟩

end c10d
